import Mathlib

/-! ### ip-masq-agent: configuration merge, validation, rule rendering, reconciliation loop

A shallow embedding of `cmd/ip-masq-agent/ip-masq-agent.go`.

* Go strings are Lean `String`s; the address parsers walk the character list
  of the string (every character the parsers accept is ASCII, so walking
  characters and walking bytes agree on accepted input and both reject the
  rest).
* Go slices are Lean lists; a nil slice and an empty slice are both `[]`
  (the code only ever asks for `len`, and `x != nil && len(x) > 0` is
  `len(x) > 0`).
* The Go standard library functions the agent calls (`net.ParseCIDR`,
  `net.ParseIP`, `IP.Equal`, `IP.To4`, `IP.String`, `IP.Mask`, `CIDRMask`,
  `strings.HasPrefix`, `strings.Join`) are embedded as executable functions
  that follow the library source; `net.ParseCIDR` and `net.ParseIP` go through
  the model of `netip.ParseAddr`.
* Error values record the format string of their `fmt.Errorf` call and its
  arguments; `Error.message` prints them (`%q` through the model of
  `strconv.Quote`, `IPNet.String` through the model of the library method).
* `Run` never returns; it is embedded by its cycle and by every finite run of
  cycles, with the log lines and the sleep of each cycle as events.
-/

namespace IPMasq

/-! ## Go `net` / `net/netip`: addresses -/

/-- An `net.IP`: a byte slice, `[]` for the nil address, otherwise 4 or 16 bytes. -/
abbrev IP := List Nat

/-- An `net.IPMask`: a byte slice. -/
abbrev IPMask := List Nat

/-- An `net.IPNet`: network number and mask. -/
structure IPNet where
  IP : IP
  Mask : IPMask
deriving DecidableEq

/-- A successfully parsed `netip.Addr`: an IPv4 address (4 bytes) or an IPv6
address (16 bytes) with its zone (`[]` when there is none). -/
inductive Addr where
  | v4 (fields : List Nat)
  | v6 (bytes : List Nat) (zone : List Char)
deriving DecidableEq

def IPv4len : Nat := 4

def IPv6len : Nat := 16

/-- The 12 bytes `00 00 00 00 00 00 00 00 00 00 ff ff`. -/
def v4InV6Prefix : List Nat := [0, 0, 0, 0, 0, 0, 0, 0, 0, 0, 255, 255]

/-- The method `Addr.BitLen`. -/
def Addr.BitLen : Addr → Nat
  | .v4 _ => 32
  | .v6 _ _ => 128

/-- The method `Addr.As16`: the 16-byte form, IPv4 as IPv4-mapped IPv6. -/
def Addr.As16 : Addr → List Nat
  | .v4 f => v4InV6Prefix ++ f
  | .v6 b _ => b

/-- The method `Addr.Zone`. -/
def Addr.Zone : Addr → List Char
  | .v4 _ => []
  | .v6 _ z => z

def isDigit (c : Char) : Bool := decide (48 ≤ c.toNat) && decide (c.toNat ≤ 57)

/-- The loop of `netip.parseIPv4Fields` over the remaining characters.
`first` is `i == 0`, `prevDot` is `s[i-1] == '.'`, `fields` holds the octets
stored so far (`pos` is its length). -/
def parseIPv4Fields.go : List Char → Bool → Bool → Nat → Nat → List Nat → Option (List Nat)
  | [], _, _, val, _, fields =>
    if fields.length < 3 then none else some (fields ++ [val])
  | c :: rest, first, prevDot, val, digLen, fields =>
    if isDigit c then
      if digLen == 1 && val == 0 then none
      else
        let val1 := val * 10 + (c.toNat - 48)
        if val1 > 255 then none
        else parseIPv4Fields.go rest false false val1 (digLen + 1) fields
    else if c == '.' then
      if first || rest.isEmpty || prevDot then none
      else if fields.length == 3 then none
      else parseIPv4Fields.go rest false true 0 0 (fields ++ [val])
    else none

/-- The function `netip.parseIPv4Fields` on the substring `s`: the four octets, or
`none` for any of its errors. -/
def parseIPv4Fields (s : List Char) : Option (List Nat) :=
  parseIPv4Fields.go s true false 0 0 []

/-- The function `netip.parseIPv4`. -/
def parseIPv4 (s : List Char) : Option Addr :=
  match parseIPv4Fields s with
  | none => none
  | some f => some (Addr.v4 f)

/-- Value of a hexadecimal digit, if `c` is one. -/
def hexVal (c : Char) : Option Nat :=
  if 48 ≤ c.toNat ∧ c.toNat ≤ 57 then some (c.toNat - 48)
  else if 97 ≤ c.toNat ∧ c.toNat ≤ 102 then some (c.toNat - 97 + 10)
  else if 65 ≤ c.toNat ∧ c.toNat ≤ 70 then some (c.toNat - 65 + 10)
  else none

/-- The inner loop of `netip.parseIPv6` reading one hexadecimal group: returns
`(off, acc, rest)`, or `none` when the group has more than 4 digits (or
overflows 16 bits). -/
def parseIPv6.hexGroup : List Char → Nat → Nat → Option (Nat × Nat × List Char)
  | [], off, acc => some (off, acc, [])
  | c :: rest, off, acc =>
    match hexVal c with
    | none => some (off, acc, c :: rest)
    | some d =>
      let acc1 := acc * 16 + d
      if off > 3 then none
      else if acc1 > 65535 then none
      else parseIPv6.hexGroup rest (off + 1) acc1

/-- The main loop of `netip.parseIPv6`. `ip` holds the bytes written so far (the
index `i` of the source is `ip.length`), `ellipsis` is the position of `::` if
one was seen. Each round writes two bytes and the loop runs while `i < 16`, so
eight rounds of fuel are never exhausted. Returns the unread rest of the
string, the bytes and the ellipsis at loop exit, or `none` for an error. -/
def parseIPv6.loop : Nat → List Char → List Nat → Option Nat →
    Option (List Char × List Nat × Option Nat)
  | 0, s, ip, ell => some (s, ip, ell)
  | fuel + 1, s, ip, ell =>
    if ¬ ip.length < 16 then some (s, ip, ell)
    else
      match parseIPv6.hexGroup s 0 0 with
      | none => none
      | some (off, acc, rest) =>
        if off == 0 then none
        else if rest.head? == some '.' then
          if ell.isNone && ip.length != 12 then none
          else if ip.length + 4 > 16 then none
          else
            match parseIPv4Fields s with
            | none => none
            | some f => some ([], ip ++ f, ell)
        else
          let ip1 := ip ++ [acc / 256, acc % 256]
          match rest with
          | [] => some ([], ip1, ell)
          | c :: rest1 =>
            if c != ':' then none
            else
              match rest1 with
              | [] => none
              | c2 :: rest2 =>
                if c2 == ':' then
                  if ell.isSome then none
                  else
                    match rest2 with
                    | [] => some ([], ip1, some ip1.length)
                    | _ :: _ => parseIPv6.loop fuel rest2 ip1 (some ip1.length)
                else parseIPv6.loop fuel rest1 ip1 ell

/-- The part of `netip.parseIPv6` after zone splitting and the leading-ellipsis
test: run the loop, require the whole string used, expand the ellipsis. -/
def parseIPv6.finish (s : List Char) (ell : Option Nat) : Option (List Nat) :=
  match parseIPv6.loop 8 s [] ell with
  | none => none
  | some (rest, ip, ell1) =>
    if rest ≠ [] then none
    else if ip.length < 16 then
      match ell1 with
      | none => none
      | some e => some (ip.take e ++ List.replicate (16 - ip.length) 0 ++ ip.drop e)
    else if ell1.isSome then none
    else some ip

/-- Split at the first `%`: the text before it and, if there is a `%`, the
text after it. -/
def splitZone : List Char → List Char × Option (List Char)
  | [] => ([], none)
  | c :: rest =>
    if c == '%' then ([], some rest)
    else
      let r := splitZone rest
      (c :: r.1, r.2)

/-- The function `netip.parseIPv6`. -/
def parseIPv6 (input : List Char) : Option Addr :=
  let sz := splitZone input
  match sz.2 with
  | some [] => none
  | zone? =>
    let zone := zone?.getD []
    match sz.1 with
    | ':' :: ':' :: rest =>
      if rest.isEmpty then some (Addr.v6 (List.replicate 16 0) zone)
      else (parseIPv6.finish rest (some 0)).map (fun b => Addr.v6 b zone)
    | s => (parseIPv6.finish s none).map (fun b => Addr.v6 b zone)

/-- The dispatch loop of `netip.ParseAddr`: the first `.`, `:` or `%` decides. -/
def ParseAddr.go (whole : List Char) : List Char → Option Addr
  | [] => none
  | c :: rest =>
    if c == '.' then parseIPv4 whole
    else if c == ':' then parseIPv6 whole
    else if c == '%' then none
    else ParseAddr.go whole rest

/-- The function `netip.ParseAddr`. -/
def ParseAddr (s : List Char) : Option Addr := ParseAddr.go s s

/-- The constant `big` of package `net`. -/
def big : Nat := 0xFFFFFF

/-- The loop of `net.dtoi`: `(n, i, ok)`. -/
def dtoi.go : List Char → Nat → Nat → Nat × Nat × Bool
  | [], n, i => if i == 0 then (0, 0, false) else (n, i, true)
  | c :: rest, n, i =>
    if isDigit c then
      let n1 := n * 10 + (c.toNat - 48)
      if n1 ≥ big then (big, i, false)
      else dtoi.go rest n1 (i + 1)
    else if i == 0 then (0, 0, false) else (n, i, true)

/-- The function `net.dtoi`: decimal to integer, `(value, characters consumed, ok)`. -/
def dtoi (s : List Char) : Nat × Nat × Bool := dtoi.go s 0 0

/-- The loop of `net.CIDRMask`: `l` bytes left to write, `n` one-bits left. -/
def CIDRMask.go : Nat → Nat → List Nat
  | 0, _ => []
  | l + 1, n =>
    if n ≥ 8 then 255 :: CIDRMask.go l (n - 8)
    else (255 - 255 / 2 ^ n) :: CIDRMask.go l 0

/-- The function `net.CIDRMask`; `[]` is the nil mask. -/
def CIDRMask (ones bits : Nat) : IPMask :=
  if bits ≠ 8 * IPv4len ∧ bits ≠ 8 * IPv6len then []
  else if ones > bits then []
  else CIDRMask.go (bits / 8) ones

def allFF (b : List Nat) : Bool := b.all (fun x => x == 255)

/-- The method `IP.Mask`. -/
def IP.Mask (ip : IP) (mask : IPMask) : IP :=
  let mask1 :=
    if mask.length == IPv6len && ip.length == IPv4len && allFF (mask.take 12) then mask.drop 12
    else mask
  let ip1 :=
    if mask1.length == IPv4len && ip.length == IPv6len && ip.take 12 == v4InV6Prefix then ip.drop 12
    else ip
  if ip1.length != mask1.length then []
  else List.zipWith (fun a m => Nat.land a m) ip1 mask1

/-- The method `IP.To4`; `[]` is nil. -/
def IP.To4 (ip : IP) : IP :=
  if ip.length == IPv4len then ip
  else if ip.length == IPv6len && (ip.take 10).all (fun x => x == 0)
      && ip.getD 10 0 == 255 && ip.getD 11 0 == 255 then ip.drop 12
  else []

/-- The method `IP.Equal`. -/
def IP.Equal (ip x : IP) : Bool :=
  if ip.length == x.length then ip == x
  else if ip.length == IPv4len && x.length == IPv6len then
    x.take 12 == v4InV6Prefix && ip == x.drop 12
  else if ip.length == IPv6len && x.length == IPv4len then
    ip.take 12 == v4InV6Prefix && ip.drop 12 == x
  else false

/-- The value `net.ParseError` with `Type` and `Text`. -/
structure ParseError where
  Typ : String
  Text : String
deriving DecidableEq

deriving instance DecidableEq for Except

/-- Split at the first `/` (the source uses `IndexByteString` and slices):
`none` when there is no `/`. -/
def splitSlash : List Char → Option (List Char × List Char)
  | [] => none
  | c :: rest =>
    if c == '/' then some ([], rest)
    else
      match splitSlash rest with
      | none => none
      | some (a, m) => some (c :: a, m)

/-- The decoding steps of `net.ParseCIDR`: split at the first `/`, parse the address
(a zone is refused), read the prefix length with `dtoi` (all of the text after
the `/`, at most the bit length of the address). `none` is the parse error. -/
def ParseCIDR.parts (s : String) : Option (Addr × Nat) :=
  match splitSlash s.toList with
  | none => none
  | some (addr, mask) =>
    match ParseAddr addr with
    | none => none
    | some ipAddr =>
      if ipAddr.Zone ≠ [] then none
      else
        let r := dtoi mask
        if !r.2.2 || r.2.1 != mask.length || r.1 > ipAddr.BitLen then none
        else some (ipAddr, r.1)

/-- The function `net.ParseCIDR`: the address (always in 16-byte form) and the
network (address masked, with the mask), or the parse error. -/
def ParseCIDR (s : String) : Except ParseError (IP × IPNet) :=
  match ParseCIDR.parts s with
  | none => .error ⟨"CIDR address", s⟩
  | some (ipAddr, n) =>
    let m := CIDRMask n ipAddr.BitLen
    let addr16 := ipAddr.As16
    .ok (addr16, ⟨IP.Mask addr16 m, m⟩)

/-- The function `net.ParseIP`; `[]` is nil. -/
def ParseIP (s : String) : IP :=
  match ParseAddr s.toList with
  | none => []
  | some a => if a.Zone ≠ [] then [] else a.As16

/-- The digit table `"0123456789abcdef"` of `netip`. -/
def digits : List Char := "0123456789abcdef".toList

def digitChar (n : Nat) : Char := digits.getD n '0'

/-- The function `netip.appendDecimal` for one byte. -/
def appendDecimal (b : List Char) (x : Nat) : List Char :=
  let b1 := if x ≥ 100 then b ++ [digitChar (x / 100)] else b
  let b2 := if x ≥ 10 then b1 ++ [digitChar (x / 10 % 10)] else b1
  b2 ++ [digitChar (x % 10)]

/-- The function `netip.appendHex` for one 16-bit group. -/
def appendHex (b : List Char) (x : Nat) : List Char :=
  let b1 := if x ≥ 0x1000 then b ++ [digitChar (x / 4096)] else b
  let b2 := if x ≥ 0x100 then b1 ++ [digitChar (x / 256 % 16)] else b1
  let b3 := if x ≥ 0x10 then b2 ++ [digitChar (x / 16 % 16)] else b2
  b3 ++ [digitChar (x % 16)]

/-- The method `Addr.appendTo4` on the four octets `p`: dotted decimal. -/
def appendTo4 (ret : List Char) (p : List Nat) : List Char :=
  let r0 := appendDecimal ret (p.getD 0 0)
  let r1 := appendDecimal (r0 ++ ['.']) (p.getD 1 0)
  let r2 := appendDecimal (r1 ++ ['.']) (p.getD 2 0)
  appendDecimal (r2 ++ ['.']) (p.getD 3 0)

/-- The method `Addr.v6u16`: the `i`-th 16-bit group of a 16-byte address. -/
def v6u16 (ip : List Nat) (i : Nat) : Nat := ip.getD (2 * i) 0 * 256 + ip.getD (2 * i + 1) 0

/-- Number of consecutive zero groups of `ip` starting at group `i` (the inner
loop `for j < 8 && ip.v6u16(j) == 0` of `appendTo6`, with `fuel` groups left). -/
def zeroRunLen (ip : List Nat) : Nat → Nat → Nat
  | 0, _ => 0
  | fuel + 1, j => if v6u16 ip j == 0 then 1 + zeroRunLen ip fuel (j + 1) else 0

/-- The first loop of `Addr.appendTo6`: the longest run of at least two zero
groups as `(zeroStart, zeroEnd)`, both 255 when there is none. -/
def zeroRun (ip : List Nat) : Nat × Nat :=
  (List.range 8).foldl
    (fun (z : Nat × Nat) i =>
      let l := zeroRunLen ip (8 - i) i
      if l ≥ 2 ∧ l > z.2 - z.1 then (i, i + l) else z)
    (255, 255)

/-- The second loop of `Addr.appendTo6`, at group `i` with `fuel` rounds left
(the index only grows, so eight rounds are enough). -/
def appendTo6.go (ip : List Nat) (zeroStart zeroEnd : Nat) : Nat → Nat → List Char → List Char
  | 0, _, ret => ret
  | fuel + 1, i, ret =>
    if ¬ i < 8 then ret
    else if i == zeroStart then
      let ret1 := ret ++ [':', ':']
      if zeroEnd ≥ 8 then ret1
      else appendTo6.go ip zeroStart zeroEnd fuel (zeroEnd + 1) (appendHex ret1 (v6u16 ip zeroEnd))
    else
      let ret1 := if i > 0 then ret ++ [':'] else ret
      appendTo6.go ip zeroStart zeroEnd fuel (i + 1) (appendHex ret1 (v6u16 ip i))

/-- The method `Addr.appendTo6` for an address without zone. -/
def appendTo6 (ret : List Char) (ip : List Nat) : List Char :=
  let z := zeroRun ip
  appendTo6.go ip z.1 z.2 8 0 ret

/-- The method `Addr.Is4In6` on a 16-byte address. -/
def Is4In6 (ip : List Nat) : Bool := ip.take 12 == v4InV6Prefix

/-- The function `net.hexString`. -/
def hexString (b : List Nat) : List Char :=
  b.flatMap (fun tn => [digitChar (tn / 16), digitChar (tn % 16)])

/-- The method `IP.String`. -/
def IP.String (ip : IP) : String :=
  if ip.length == 0 then "<nil>"
  else if ip.length != IPv4len && ip.length != IPv6len then ⟨'?' :: hexString ip⟩
  else
    let p4 := IP.To4 ip
    if p4.length == IPv4len then ⟨appendTo4 [] p4⟩
    else if Is4In6 ip then ⟨appendTo4 "::ffff:".toList (ip.drop 12)⟩
    else ⟨appendTo6 [] ip⟩

/-! ## Other library functions -/

/-- The function `strings.HasPrefix`. -/
def HasPrefix (s pre : String) : Bool := pre.toList.isPrefixOf s.toList

/-- The function `strings.Join`. -/
def Join : List String → String → String
  | [], _ => ""
  | [a], _ => a
  | a :: b :: rest, sep => a ++ sep ++ Join (b :: rest) sep

/-- A Go `map[string]struct{}` used as a set: its keys, kept duplicate-free (in
insertion order, which the language does not expose). -/
abbrev StringSet := List String

/-- The statement `cidrsSet[cidr] = struct{}{}`. -/
def StringSet.insert (m : StringSet) (k : String) : StringSet :=
  if k ∈ m then m else m ++ [k]

/-- The order in which one `for k := range m` visits the keys of a map. Go leaves
it unspecified; all the language promises is that every key is visited exactly
once, so an order is any function from the key list to a permutation of it. -/
structure MapOrder where
  iter : List String → List String
  perm : ∀ keys, (iter keys).Perm keys

/-- The order that visits keys as they were inserted. -/
def MapOrder.insertion : MapOrder := ⟨fun keys => keys, fun _ => List.Perm.refl _⟩

/-- The order that visits keys against insertion order. -/
def MapOrder.reversed : MapOrder := ⟨fun keys => keys.reverse, fun keys => List.reverse_perm keys⟩

/-! ## Constants and flags of the agent -/

def linkLocalCIDR : String := "169.254.0.0/16"

def linkLocalCIDRIPv6 : String := "fe80::/10"

def configPath : String := "/etc/config/"

def configFilePrefix : String := "ip-masq"

/-- The command-line flags, as parsed values. -/
structure Flags where
  masqChain : String
  noMasqueradeAllReservedRanges : Bool
  enableIPv6 : Bool
  resyncInterval : Int
deriving DecidableEq

/-- The flag defaults: `--masq-chain=IP-MASQ-AGENT`, `--nomasq-all-reserved-ranges=false`,
`--enable-ipv6=false`, `--resync-interval=60`. -/
def Flags.default : Flags := ⟨"IP-MASQ-AGENT", false, false, 60⟩

/-- The type `MasqConfig`. -/
structure MasqConfig where
  NonMasqueradeCIDRs : List String
  MasqLinkLocal : Bool
  MasqLinkLocalIPv6 : Bool
deriving DecidableEq

/-- The errors the agent builds with `fmt.Errorf`, one constructor per format
string, carrying the arguments formatted into the message. Errors of the
collaborators (file system, decoders, iptables) are carried as their text. -/
inductive Error where
  /-- Message `failed to read config directory, error: %w`. -/
  | readDir (inner : String)
  /-- Message `failed to read config file %s, error: %w`. -/
  | readFile (name : String) (inner : String)
  /-- Message `failed to convert config file %s to JSON, error: %w`. -/
  | toJSON (name : String) (inner : String)
  /-- Message `failed to unmarshal config file %s, error: %w`. -/
  | unmarshal (name : String) (inner : String)
  /-- Message `config is invalid, error: %w`. -/
  | invalidConfig (inner : Error)
  /-- Message `the daemon can only accept up to 64 CIDRs (excluding link-local), but got %d CIDRs (excluding link local)`. -/
  | tooManyCIDRs (n : Nat)
  /-- The format `cidrParseErrFmt`: `CIDR %q could not be parsed, %v`. -/
  | cidrParse (cidr : String) (inner : ParseError)
  /-- The format `cidrAlignErrFmt`: `CIDR %q is not aligned to a CIDR block, ip: %q network: %q`. -/
  | cidrAlign (cidr : String) (ip : IP) (network : IPNet)
  /-- Message `ipv6 is not enabled, but ipv6 cidr %s provided. Enable ipv6 using --enable-ipv6 agent flag`. -/
  | ipv6NotEnabled (cidr : String)
  /-- Message `failed to ensure that %s chain %s jumps to MASQUERADE: %v` (with ` for ipv6` appended when `v6`). -/
  | postroutingJump (v6 : Bool) (table : String) (chain : String) (inner : String)
  /-- An error of the iptables interface returned unchanged. -/
  | iptables (inner : String)
deriving DecidableEq

/-- The function `EmptyMasqConfig`. -/
def EmptyMasqConfig : MasqConfig :=
  { NonMasqueradeCIDRs := [], MasqLinkLocal := false, MasqLinkLocalIPv6 := false }

/-- The function `DefaultMasqConfig`. -/
def DefaultMasqConfig (masqAllReservedRanges : Bool) : MasqConfig :=
  let nonMasq := ["10.0.0.0/8", "172.16.0.0/12", "192.168.0.0/16"]
  let nonMasq :=
    if masqAllReservedRanges then
      nonMasq ++ ["100.64.0.0/10", "192.0.0.0/24", "192.0.2.0/24", "192.88.99.0/24",
        "198.18.0.0/15", "198.51.100.0/24", "203.0.113.0/24", "240.0.0.0/4"]
    else nonMasq
  { NonMasqueradeCIDRs := nonMasq, MasqLinkLocal := false, MasqLinkLocalIPv6 := false }

/-! ## Validation -/

/-- The function `validateCIDR`; `none` is the nil error. -/
def validateCIDR (cidr : String) : Option Error :=
  match ParseCIDR cidr with
  | .error err => some (Error.cidrParse cidr err)
  | .ok (ip, ipnet) =>
    if !IP.Equal ip ipnet.IP then some (Error.cidrAlign cidr ip ipnet)
    else none

/-- The function `isIPv6`. -/
def isIPv6 (ip : String) : Bool := (IP.To4 (ParseIP ip)).length == 0

/-- The function `isIPv6CIDR`; the parse error is dropped and a failed parse leaves
the nil address. -/
def isIPv6CIDR (cidr : String) : Bool :=
  let ip : IP :=
    match ParseCIDR cidr with
    | .error _ => []
    | .ok (ip, _) => ip
  isIPv6 (IP.String ip)

/-- The loop `for _, cidr := range c.NonMasqueradeCIDRs` of `validate`. -/
def MasqConfig.validate.loop (enableIPv6 : Bool) : List String → Option Error
  | [] => none
  | cidr :: rest =>
    match validateCIDR cidr with
    | some err => some err
    | none =>
      if !enableIPv6 && isIPv6CIDR cidr then some (Error.ipv6NotEnabled cidr)
      else MasqConfig.validate.loop enableIPv6 rest

/-- The method `MasqConfig.validate`, reading the flag `enableIPv6`. -/
def MasqConfig.validate (enableIPv6 : Bool) (c : MasqConfig) : Option Error :=
  let n := c.NonMasqueradeCIDRs.length
  if n > 64 then some (Error.tooManyCIDRs n)
  else MasqConfig.validate.loop enableIPv6 c.NonMasqueradeCIDRs

/-! ## Merge -/

/-- The function `mergeCIDRs`: both slices are inserted into a map, and the keys
are appended to the result in the order `o` in which the map is ranged over. -/
def mergeCIDRs (o : MapOrder) (cidrs1 cidrs2 : List String) : List String :=
  let cidrsSet : StringSet := []
  let cidrsSet := cidrs1.foldl StringSet.insert cidrsSet
  let cidrsSet := cidrs2.foldl StringSet.insert cidrsSet
  (o.iter cidrsSet).foldl (fun cidrsList cidr => cidrsList ++ [cidr]) []

/-- The method `MasqConfig.merge`; the receiver is updated in place in the source and
returned here. -/
def MasqConfig.merge (o : MapOrder) (c newConfig : MasqConfig) : MasqConfig :=
  let c1 :=
    if newConfig.NonMasqueradeCIDRs.length > 0 then
      { c with NonMasqueradeCIDRs := mergeCIDRs o c.NonMasqueradeCIDRs newConfig.NonMasqueradeCIDRs }
    else c
  let c2 := { c1 with MasqLinkLocal := c1.MasqLinkLocal || newConfig.MasqLinkLocal }
  { c2 with MasqLinkLocalIPv6 := c2.MasqLinkLocalIPv6 || newConfig.MasqLinkLocalIPv6 }

/-- The configuration reached from `EmptyMasqConfig` by merging the fragments in turn,
each merge with its own map order. -/
def mergeAll (frags : List (MapOrder × MasqConfig)) : MasqConfig :=
  frags.foldl (fun c p => MasqConfig.merge p.1 c p.2) EmptyMasqConfig

/-! ## The daemon and its collaborators -/

/-- What `syncConfig` reads from outside the agent: the directory listing of
`os.ReadDir` (entry names, in listing order), `fs.ReadFile`, `filepath.Join`, the
decoders `utilyaml.ToJSON` and `utiljson.Unmarshal` (into a zero `MasqConfig`), and
the order in which the map of the `k`-th merge of a load is ranged over.
Collaborator errors are carried as their text. -/
structure World where
  ReadDir : String → Except String (List String)
  ReadFile : String → Except String String
  PathJoin : String → String → String
  ToJSON : String → Except String String
  Unmarshal : String → Except String MasqConfig
  mapOrder : Nat → MapOrder

/-- The interface `utiliptables.Interface` over applier states `σ`: each call
returns its results and the next state. `RestoreAll` takes the data and the
flush and restore-counters flags. -/
structure Iptables (σ : Type) where
  EnsureChain : σ → String → String → (Bool × Option String) × σ
  EnsureRule : σ → String → String → String → List String → (Bool × Option String) × σ
  RestoreAll : σ → String → Bool → Bool → Option String × σ

/-- The constant `utiliptables.TableNAT`. -/
def TableNAT : String := "nat"

/-- The constant `utiliptables.ChainPostrouting`. -/
def ChainPostrouting : String := "POSTROUTING"

/-- The constant `utiliptables.Append`. -/
def Append : String := "-A"

/-- The constant `utiliptables.NoFlushTables`. -/
def NoFlushTables : Bool := false

/-- The constant `utiliptables.NoRestoreCounters`. -/
def NoRestoreCounters : Bool := false

/-- The function `utiliptables.MakeChainLine`: `:%s - [0:0]`. -/
def MakeChainLine (chain : String) : String := ":" ++ chain ++ " - [0:0]"

/-- The type `MasqDaemon`: the active configuration and the states of the two
rule appliers. -/
structure MasqDaemon (σ : Type) where
  config : MasqConfig
  iptables : σ
  ip6tables : σ

/-- The loop `for _, file := range files` of `syncConfig`: `k` counts the merges done
so far (the `k`-th merge ranges over its map in the order `w.mapOrder k`), `c` is
the running configuration; returns it with `configAdded`. -/
def syncConfig.loop (w : World) : List String → Nat → MasqConfig → Bool →
    Except Error (MasqConfig × Bool)
  | [], _, c, configAdded => .ok (c, configAdded)
  | name :: rest, k, c, configAdded =>
    if HasPrefix name configFilePrefix then
      match w.ReadFile (w.PathJoin configPath name) with
      | .error err => .error (Error.readFile name err)
      | .ok yaml =>
        match w.ToJSON yaml with
        | .error err => .error (Error.toJSON name err)
        | .ok json =>
          match w.Unmarshal json with
          | .error err => .error (Error.unmarshal name err)
          | .ok newConfig =>
            syncConfig.loop w rest (k + 1) (MasqConfig.merge (w.mapOrder k) c newConfig) true
    else syncConfig.loop w rest k c configAdded

/-- The method `MasqDaemon.syncConfig`: the returned error (`none` is nil) and the
daemon after the call. -/
def MasqDaemon.syncConfig {σ : Type} (w : World) (flags : Flags) (m : MasqDaemon σ) :
    Option Error × MasqDaemon σ :=
  let c := EmptyMasqConfig
  match w.ReadDir configPath with
  | .error err => (some (Error.readDir err), m)
  | .ok files =>
    match syncConfig.loop w files 0 c false with
    | .error err => (some err, m)
    | .ok (c, configAdded) =>
      let c := if !configAdded then DefaultMasqConfig flags.noMasqueradeAllReservedRanges else c
      match c.validate flags.enableIPv6 with
      | some err => (some (Error.invalidConfig err), m)
      | none => (none, { m with config := c })

/-- The test of the loop of `syncConfig` on an entry name: `strings.HasPrefix(file.Name(),
configFilePrefix)`. -/
def isConfigFile (name : String) : Bool := HasPrefix name configFilePrefix

/-- What the body of the loop of `syncConfig` does with one matching entry before
the merge: read, convert, unmarshal; the fragment or the error returned. -/
def World.decodeFile (w : World) (name : String) : Except Error MasqConfig :=
  match w.ReadFile (w.PathJoin configPath name) with
  | .error err => .error (Error.readFile name err)
  | .ok yaml =>
    match w.ToJSON yaml with
    | .error err => .error (Error.toJSON name err)
    | .ok json =>
      match w.Unmarshal json with
      | .error err => .error (Error.unmarshal name err)
      | .ok newConfig => .ok newConfig

/-- A world whose configuration directory does not exist: `os.ReadDir` and `os.ReadFile`
fail with the `PathError` of the operating system for a missing path. -/
def World.notExist : World where
  ReadDir := fun name => .error ("open " ++ name ++ ": no such file or directory")
  ReadFile := fun name => .error ("open " ++ name ++ ": no such file or directory")
  PathJoin := fun dir name => dir ++ name
  ToJSON := fun yaml => .ok yaml
  Unmarshal := fun _ => .error "unexpected end of JSON input"
  mapOrder := fun _ => MapOrder.insertion

/-! ## Rule rendering -/

/-- The function `writeLine`: the words joined with spaces and a newline, written to
the buffer. -/
def writeLine (lines : String) (words : List String) : String :=
  lines ++ (Join words " " ++ "\n")

/-- The function `writeRule`. -/
def writeRule (lines : String) (position : String) (chain : String) (args : List String) :
    String :=
  let fullArgs := [position, chain] ++ args
  writeLine lines fullArgs

def nonMasqRuleComment : String :=
  "-m comment --comment \"ip-masq-agent: local traffic is not subject to MASQUERADE\""

/-- The function `writeNonMasqRule`. -/
def writeNonMasqRule (masqChain : String) (lines : String) (cidr : String) : String :=
  writeRule lines Append masqChain [nonMasqRuleComment, "-d", cidr, "-j", "RETURN"]

def masqRuleComment : String :=
  "-m comment --comment \"ip-masq-agent: outbound traffic is subject to MASQUERADE (must be last in chain)\""

/-- The function `writeMasqRule`. -/
def writeMasqRule (masqChain : String) (lines : String) : String :=
  writeRule lines Append masqChain [masqRuleComment, "-j", "MASQUERADE"]

/-- The function `postroutingJumpComment`. -/
def postroutingJumpComment (masqChain : String) : String :=
  "ip-masq-agent: ensure nat POSTROUTING directs all non-LOCAL destination traffic to our custom "
    ++ masqChain ++ " chain"

/-- The arguments both `ensurePostroutingJump` functions pass to `EnsureRule`. -/
def postroutingJumpArgs (masqChain : String) : List String :=
  ["-m", "comment", "--comment", postroutingJumpComment masqChain,
   "-m", "addrtype", "!", "--dst-type", "LOCAL", "-j", masqChain]

/-- The method `ensurePostroutingJump`. -/
def ensurePostroutingJump {σ : Type} (ipt : Iptables σ) (flags : Flags) (s : σ) :
    Option Error × σ :=
  match ipt.EnsureRule s Append TableNAT ChainPostrouting (postroutingJumpArgs flags.masqChain) with
  | ((_, some err), s1) => (some (Error.postroutingJump false TableNAT flags.masqChain err), s1)
  | ((_, none), s1) => (none, s1)

/-- The method `ensurePostroutingJumpIPv6`. -/
def ensurePostroutingJumpIPv6 {σ : Type} (ipt : Iptables σ) (flags : Flags) (s : σ) :
    Option Error × σ :=
  match ipt.EnsureRule s Append TableNAT ChainPostrouting (postroutingJumpArgs flags.masqChain) with
  | ((_, some err), s1) => (some (Error.postroutingJump true TableNAT flags.masqChain err), s1)
  | ((_, none), s1) => (none, s1)

/-- The method `MasqDaemon.syncMasqRules`: the returned error and the daemon after the
call (only the state of the IPv4 applier can change). -/
def MasqDaemon.syncMasqRules {σ : Type} (ipt : Iptables σ) (flags : Flags) (m : MasqDaemon σ) :
    Option Error × MasqDaemon σ :=
  let s1 := (ipt.EnsureChain m.iptables TableNAT flags.masqChain).2
  match ensurePostroutingJump ipt flags s1 with
  | (some err, s2) => (some err, { m with iptables := s2 })
  | (none, s2) =>
    let lines := ""
    let lines := writeLine lines ["*nat"]
    let lines := writeLine lines [MakeChainLine flags.masqChain]
    let lines :=
      if !m.config.MasqLinkLocal then writeNonMasqRule flags.masqChain lines linkLocalCIDR
      else lines
    let lines := m.config.NonMasqueradeCIDRs.foldl
      (fun lines cidr =>
        if !isIPv6CIDR cidr then writeNonMasqRule flags.masqChain lines cidr else lines)
      lines
    let lines := writeMasqRule flags.masqChain lines
    let lines := writeLine lines ["COMMIT"]
    match ipt.RestoreAll s2 lines NoFlushTables NoRestoreCounters with
    | (some err, s3) => (some (Error.iptables err), { m with iptables := s3 })
    | (none, s3) => (none, { m with iptables := s3 })

/-- The method `MasqDaemon.syncMasqRulesIPv6`: the returned error and the daemon after
the call (only the state of the IPv6 applier can change). -/
def MasqDaemon.syncMasqRulesIPv6 {σ : Type} (ipt6 : Iptables σ) (flags : Flags)
    (m : MasqDaemon σ) : Option Error × MasqDaemon σ :=
  let isIPv6Enabled := flags.enableIPv6
  if isIPv6Enabled then
    match ipt6.EnsureChain m.ip6tables TableNAT flags.masqChain with
    | ((_, some err), s1) => (some (Error.iptables err), { m with ip6tables := s1 })
    | ((_, none), s1) =>
      match ensurePostroutingJumpIPv6 ipt6 flags s1 with
      | (some err, s2) => (some err, { m with ip6tables := s2 })
      | (none, s2) =>
        let lines6 := ""
        let lines6 := writeLine lines6 ["*nat"]
        let lines6 := writeLine lines6 [MakeChainLine flags.masqChain]
        let lines6 :=
          if !m.config.MasqLinkLocalIPv6 then
            writeNonMasqRule flags.masqChain lines6 linkLocalCIDRIPv6
          else lines6
        let lines6 := m.config.NonMasqueradeCIDRs.foldl
          (fun lines6 cidr =>
            if isIPv6CIDR cidr then writeNonMasqRule flags.masqChain lines6 cidr else lines6)
          lines6
        let lines6 := writeMasqRule flags.masqChain lines6
        let lines6 := writeLine lines6 ["COMMIT"]
        match ipt6.RestoreAll s2 lines6 NoFlushTables NoRestoreCounters with
        | (some err, s3) => (some (Error.iptables err), { m with ip6tables := s3 })
        | (none, s3) => (none, { m with ip6tables := s3 })
  else (none, m)

/-- A rule applier whose every call succeeds and which keeps no state. -/
def Iptables.alwaysOK : Iptables Unit where
  EnsureChain := fun s _ _ => ((true, none), s)
  EnsureRule := fun s _ _ _ _ => ((true, none), s)
  RestoreAll := fun s _ _ _ => (none, s)

/-- Any rule applier, made to record: it answers as `ipt` does and keeps, next
to the state of `ipt`, the list of scripts handed to `RestoreAll`, oldest
first (as the test double `iptest.FakeIPTables` keeps the lines it was given). -/
def Iptables.recording {σ : Type} (ipt : Iptables σ) : Iptables (σ × List String) where
  EnsureChain := fun s table chain =>
    let r := ipt.EnsureChain s.1 table chain
    (r.1, (r.2, s.2))
  EnsureRule := fun s position table chain args =>
    let r := ipt.EnsureRule s.1 position table chain args
    (r.1, (r.2, s.2))
  RestoreAll := fun s data flush counters =>
    let r := ipt.RestoreAll s.1 data flush counters
    (r.1, (r.2, s.2 ++ [data]))

/-- A world in the manner of the test double `fakefs.StringFS`: the directory lists
the given files in order; the content of a file is stood in for by its name,
which the decoder looks up in the table to get the fragment the file holds. -/
def World.ofTable (files : List (String × MasqConfig)) : World where
  ReadDir := fun _ => .ok (files.map Prod.fst)
  ReadFile := fun path =>
    match files.find? (fun f => configPath ++ f.1 == path) with
    | some f => .ok f.1
    | none => .error ("open " ++ path ++ ": errno 2")
  PathJoin := fun dir name => dir ++ name
  ToJSON := fun yaml => .ok yaml
  Unmarshal := fun json =>
    match files.find? (fun f => f.1 == json) with
    | some f => .ok f.2
    | none => .error "unexpected end of JSON input"
  mapOrder := fun _ => MapOrder.insertion

/-! ## Auxiliary definitions for the proofs about the address parsers -/

/-- A byte sequence of `len` bytes. -/
def IsBytes (len : Nat) (b : List Nat) : Prop := b.length = len ∧ ∀ x ∈ b, x < 256

/-- A parsed address is well formed: four bytes for IPv4 notation, sixteen for
IPv6 notation. -/
def Addr.WF : Addr → Prop
  | .v4 f => IsBytes 4 f
  | .v6 b _ => IsBytes 16 b

/-- The text of `n` groups of `ip` from group `i` on, each preceded by a colon. -/
def colonGroups (ip : List Nat) : Nat → Nat → List Char
  | _, 0 => []
  | i, n + 1 => ':' :: (appendHex [] (v6u16 ip i) ++ colonGroups ip (i + 1) n)

/-- The bytes of `n` groups of `ip` from group `i` on, as `parseIPv6` stores them. -/
def groupBytes (ip : List Nat) : Nat → Nat → List Nat
  | _, 0 => []
  | i, n + 1 => v6u16 ip i / 256 :: v6u16 ip i % 256 :: groupBytes ip (i + 1) n

/-- What `appendTo6` prints after the `::` of a zero run ending before group `zeroEnd`. -/
def afterRun (ip : List Nat) (zeroEnd : Nat) : List Char :=
  if zeroEnd ≥ 8 then []
  else appendHex [] (v6u16 ip zeroEnd) ++ colonGroups ip (zeroEnd + 1) (7 - zeroEnd)

/-- The text after a group: the end of the string or a colon. -/
def GroupEnd (rest : List Char) : Prop := rest = [] ∨ ∃ r, rest = ':' :: r

/-- What one round of the loop of `parseIPv6` does after it stored a group: `rest` is
the unread text, `ip1` the bytes with the group stored. -/
def parseIPv6.afterGroup (fuel : Nat) (rest : List Char) (ip1 : List Nat) (ell : Option Nat) :
    Option (List Char × List Nat × Option Nat) :=
  match rest with
  | [] => some ([], ip1, ell)
  | c :: rest1 =>
    if c != ':' then none
    else
      match rest1 with
      | [] => none
      | c2 :: rest2 =>
        if c2 == ':' then
          if ell.isSome then none
          else
            match rest2 with
            | [] => some ([], ip1, some ip1.length)
            | _ :: _ => parseIPv6.loop fuel rest2 ip1 (some ip1.length)
        else parseIPv6.loop fuel rest1 ip1 ell

/-! ## Addresses and ranges as the specification speaks of them -/

/-- A byte sequence read as one big-endian number. -/
def bytesValue (b : List Nat) : Nat := b.foldl (fun acc x => acc * 256 + x) 0

/-- The address as a number of `BitLen` bits: 32 bits for an address written in
IPv4 notation, 128 bits for one written in IPv6 notation. -/
def Addr.value : Addr → Nat
  | .v4 f => bytesValue f
  | .v6 b _ => bytesValue b

/-- The range `s` decodes as `address/prefixLength` and the address is its own
network address: the address bits below the prefix length are all zero. -/
def AlignedCIDR (s : String) : Prop :=
  ∃ a n, ParseCIDR.parts s = some (a, n) ∧ a.value % 2 ^ (a.BitLen - n) = 0

/-- The range `s` decodes as `address/prefixLength` and its address is an IPv4
address: its `net.IP` has an IPv4 form (`To4` is not nil). -/
def IPv4CIDR (s : String) : Prop :=
  ∃ a n, ParseCIDR.parts s = some (a, n) ∧ IP.To4 a.As16 ≠ []

/-- The range `s` decodes as `address/prefixLength` and its address is an IPv6
address: its `net.IP` has no IPv4 form (`To4` is nil). -/
def IPv6CIDR (s : String) : Prop :=
  ∃ a n, ParseCIDR.parts s = some (a, n) ∧ IP.To4 a.As16 = []

/-- The line `-A <chain> <nonMasqRuleComment> -d <range> -j RETURN`. -/
def specReturnLine (chain range : String) : String :=
  "-A " ++ chain ++ " " ++ nonMasqRuleComment ++ " -d " ++ range ++ " -j RETURN"

/-- The line `-A <chain> <masqRuleComment> -j MASQUERADE`. -/
def specMasqueradeLine (chain : String) : String :=
  "-A " ++ chain ++ " " ++ masqRuleComment ++ " -j MASQUERADE"

/-- The ranges of one family, in configuration order; the family of a range is
the one `isIPv6CIDR` gives it. -/
def rangesOfFamily (v6 : Bool) (ranges : List String) : List String :=
  ranges.filter (fun cidr => isIPv6CIDR cidr == v6)

/-- The line sequence of the specification for one family: table header, chain
header, the link-local RETURN line unless link-local is masqueraded, one
RETURN line per range, the MASQUERADE line, `COMMIT`. -/
def specLines (chain : String) (masqLinkLocal : Bool) (linkLocal : String)
    (ranges : List String) : List String :=
  ["*nat", ":" ++ chain ++ " - [0:0]"]
    ++ (if masqLinkLocal then [] else [specReturnLine chain linkLocal])
    ++ ranges.map (specReturnLine chain)
    ++ [specMasqueradeLine chain, "COMMIT"]

/-- The script of the specification: every line newline-terminated, in one buffer. -/
def specScript (chain : String) (masqLinkLocal : Bool) (linkLocal : String)
    (ranges : List String) : String :=
  String.join ((specLines chain masqLinkLocal linkLocal ranges).map (fun l => l ++ "\n"))

/-- The script for IPv4: link-local `169.254.0.0/16`, the IPv4 ranges of the configuration. -/
def specScriptV4 (chain : String) (c : MasqConfig) : String :=
  specScript chain c.MasqLinkLocal linkLocalCIDR (rangesOfFamily false c.NonMasqueradeCIDRs)

/-- The script for IPv6: link-local `fe80::/10`, the IPv6 ranges of the configuration. -/
def specScriptV6 (chain : String) (c : MasqConfig) : String :=
  specScript chain c.MasqLinkLocalIPv6 linkLocalCIDRIPv6 (rangesOfFamily true c.NonMasqueradeCIDRs)

/-! ## The reconciliation loop -/

/-- A rule applier that counts the calls made to it, whichever they are.
`EnsureChain` and `EnsureRule` succeed; `RestoreAll` fails when `restoreFails`. -/
def Iptables.counting (restoreFails : Bool) : Iptables Nat where
  EnsureChain := fun s _ _ => ((true, none), s + 1)
  EnsureRule := fun s _ _ _ _ => ((true, none), s + 1)
  RestoreAll := fun s _ _ _ => (if restoreFails then some "exit status 1" else none, s + 1)

/-- What a cycle of `Run` does next to calling the methods of the daemon: the
lines it logs with `glog.Errorf`, and the call of `time.Sleep`. -/
inductive Event where
  /-- Log line `error syncing configuration: %v`. -/
  | errSyncConfig (err : Error)
  /-- Log line `error syncing masquerade rules: %v`. -/
  | errSyncRules (err : Error)
  /-- Log line `error syncing masquerade rules for ipv6: %v`. -/
  | errSyncRulesIPv6 (err : Error)
  /-- The call `time.Sleep(d)`, `d` in nanoseconds. -/
  | sleep (d : Int)
deriving DecidableEq

def Event.isSleep : Event → Bool
  | .sleep _ => true
  | _ => false

/-- Wrap-around of `int64` arithmetic. -/
def wrapInt64 (x : Int) : Int := (x + 2 ^ 63) % 2 ^ 64 - 2 ^ 63

/-- The constant `time.Second`, in nanoseconds. -/
def Second : Int := 1000000000

/-- The argument of the deferred `time.Sleep`:
`time.Duration(*resyncInterval) * time.Second`. -/
def sleepDuration (flags : Flags) : Int := wrapInt64 (flags.resyncInterval * Second)

/-- The body of the loop of `Run`, one reconciliation cycle: the function literal
with its deferred sleep. `w` is what the cycle finds on the file system. The
events of the cycle in order, and the daemon after it. -/
def Run.cycle {σ : Type} (w : World) (ipt ipt6 : Iptables σ) (flags : Flags)
    (m : MasqDaemon σ) : List Event × MasqDaemon σ :=
  let d := sleepDuration flags
  match m.syncConfig w flags with
  | (some err, m1) => ([Event.errSyncConfig err, Event.sleep d], m1)
  | (none, m1) =>
    match m1.syncMasqRules ipt flags with
    | (some err, m2) => ([Event.errSyncRules err, Event.sleep d], m2)
    | (none, m2) =>
      match m2.syncMasqRulesIPv6 ipt6 flags with
      | (some err, m3) => ([Event.errSyncRulesIPv6 err, Event.sleep d], m3)
      | (none, m3) => ([Event.sleep d], m3)

/-- The method `MasqDaemon.Run`. Its loop has no exit, so what is defined is every
finite run of it: one cycle for each world of the list (what successive cycles
find on the file system), the events in order and the daemon after the last
cycle. -/
def MasqDaemon.Run {σ : Type} (ipt ipt6 : Iptables σ) (flags : Flags) :
    List World → MasqDaemon σ → List Event × MasqDaemon σ
  | [], m => ([], m)
  | w :: rest, m =>
    let r := Run.cycle w ipt ipt6 flags m
    let r1 := MasqDaemon.Run ipt ipt6 flags rest r.2
    (r.1 ++ r1.1, r1.2)

/-! ## Auxiliary definitions on the text of ranges and scripts -/

/-- The characters a text `address/prefixLength` that decodes is made of:
hexadecimal digits, `.`, `:` and `/`. -/
def cidrChar (c : Char) : Bool := (hexVal c).isSome || c == '.' || c == ':' || c == '/'

/-- The newline character. -/
def newline : Char := Char.ofNat 10

/-- The loop of `textLines`: `cur` is the piece being read. -/
def textLines.go : List Char → List Char → List String
  | [], cur => [⟨cur⟩]
  | c :: rest, cur =>
    if c == newline then ⟨cur⟩ :: textLines.go rest [] else textLines.go rest (cur ++ [c])

/-- The lines of a text: the pieces between its newline characters, in the manner
of `strings.Split(text, "\n")`; a text that ends with a newline has a last,
empty piece. -/
def textLines (text : String) : List String := textLines.go text.toList []

/-! ## Error messages -/

/-- The method `ParseError.Error`: `"invalid " + e.Type + ": " + e.Text`. -/
def ParseError.Error (e : ParseError) : String := "invalid " ++ e.Typ ++ ": " ++ e.Text

/-- The loop of `net.uitoa`, writing digits from the right. -/
def uitoa.go : Nat → Nat → List Char → List Char
  | 0, _, acc => acc
  | fuel + 1, val, acc =>
    if val ≥ 10 then uitoa.go fuel (val / 10) (digitChar (val % 10) :: acc)
    else digitChar val :: acc

/-- The function `net.uitoa`: the decimal digits of an unsigned integer (its buffer of 20
digits is enough for every `uint`); the verb `%d` prints a non-negative `int` the
same way. -/
def uitoa (val : Nat) : String := if val == 0 then "0" else ⟨uitoa.go 20 val []⟩

/-- The inner loop `for v&0x80 != 0` of `net.simpleMaskLength` on the byte `v`: the
byte shifted and the count. -/
def simpleMaskLength.ones : Nat → Nat → Nat → Nat × Nat
  | 0, v, n => (v, n)
  | fuel + 1, v, n =>
    if Nat.land v 0x80 != 0 then simpleMaskLength.ones fuel (v * 2 % 256) (n + 1) else (v, n)

/-- The outer loop of `net.simpleMaskLength`. -/
def simpleMaskLength.go : List Nat → Nat → Option Nat
  | [], n => some n
  | v :: rest, n =>
    if v == 0xff then simpleMaskLength.go rest (n + 8)
    else
      let r := simpleMaskLength.ones 8 v n
      if r.1 != 0 then none
      else if rest.any (fun b => b != 0) then none
      else some r.2

/-- The function `net.simpleMaskLength`: the number of leading one bits of a mask made
of ones followed by zeros; `none` is the result -1. -/
def simpleMaskLength (mask : IPMask) : Option Nat := simpleMaskLength.go mask 0

/-- The function `net.networkNumberAndMask`; `none` is the result `nil, nil`. -/
def networkNumberAndMask (n : IPNet) : Option (IP × IPMask) :=
  let ip4 := IP.To4 n.IP
  if ip4.length == 0 && n.IP.length != IPv6len then none
  else
    let ip := if ip4.length == 0 then n.IP else ip4
    let m := n.Mask
    if m.length == IPv4len then
      if ip.length != IPv4len then none else some (ip, m)
    else if m.length == IPv6len then
      if ip.length == IPv4len then some (ip, m.drop 12) else some (ip, m)
    else none

/-- The method `IPMask.String`. -/
def IPMask.String (m : IPMask) : String :=
  if m.length == 0 then "<nil>" else ⟨hexString m⟩

/-- The method `IPNet.String` (of a network that is not the nil pointer). -/
def IPNet.String (n : IPNet) : String :=
  match networkNumberAndMask n with
  | none => "<nil>"
  | some (nn, m) =>
    match simpleMaskLength m with
    | none => IP.String nn ++ "/" ++ IPMask.String m
    | some l => IP.String nn ++ "/" ++ uitoa l

/-- The double quote character. -/
def quoteChar : Char := Char.ofNat 34

/-- The backslash character. -/
def backslash : Char := Char.ofNat 92

/-- The function `strconv.IsPrint`. Runes up to `0xFF` are decided as the source decides
them; for the others the source searches the Unicode tables of package
`strconv`, which stand here as the parameter `printable`. -/
def IsPrint (printable : Char → Bool) (r : Char) : Bool :=
  if r.toNat ≤ 0xFF then
    if 0x20 ≤ r.toNat ∧ r.toNat ≤ 0x7E then true
    else if 0xA1 ≤ r.toNat ∧ r.toNat ≤ 0xFF then r.toNat != 0xAD
    else false
  else printable r

/-- The function `strconv.appendEscapedRune` as `strconv.Quote` calls it: the quote is
`"`, neither ASCII-only nor graphic-only. Every `Char` is a valid rune. -/
def appendEscapedRune (printable : Char → Bool) (buf : List Char) (r : Char) : List Char :=
  if r == quoteChar || r == backslash then buf ++ [backslash, r]
  else if IsPrint printable r then buf ++ [r]
  else if r.toNat == 7 then buf ++ [backslash, 'a']
  else if r.toNat == 8 then buf ++ [backslash, 'b']
  else if r.toNat == 12 then buf ++ [backslash, 'f']
  else if r.toNat == 10 then buf ++ [backslash, 'n']
  else if r.toNat == 13 then buf ++ [backslash, 'r']
  else if r.toNat == 9 then buf ++ [backslash, 't']
  else if r.toNat == 11 then buf ++ [backslash, 'v']
  else if r.toNat < 0x20 || r.toNat == 0x7f then
    buf ++ [backslash, 'x', digitChar (r.toNat / 16), digitChar (r.toNat % 16)]
  else if r.toNat < 0x10000 then
    buf ++ [backslash, 'u', digitChar (r.toNat / 4096 % 16), digitChar (r.toNat / 256 % 16),
      digitChar (r.toNat / 16 % 16), digitChar (r.toNat % 16)]
  else
    buf ++ [backslash, 'U', digitChar (r.toNat / 268435456 % 16),
      digitChar (r.toNat / 16777216 % 16), digitChar (r.toNat / 1048576 % 16),
      digitChar (r.toNat / 65536 % 16), digitChar (r.toNat / 4096 % 16),
      digitChar (r.toNat / 256 % 16), digitChar (r.toNat / 16 % 16), digitChar (r.toNat % 16)]

/-- The function `strconv.Quote`, which the verb `%q` applies to a string (a Lean string
has no invalid byte sequences). -/
def Quote (printable : Char → Bool) (s : String) : String :=
  ⟨s.toList.foldl (appendEscapedRune printable) [quoteChar] ++ [quoteChar]⟩

/-- The method `Error` of the errors the agent builds: the format strings of the
`fmt.Errorf` calls with their arguments printed (`%s` and `%v` of a string as
it is, `%v` and `%w` of an error by its message, `%q` quoted, a
`net.IP` through its `String` method). -/
def Error.message (printable : Char → Bool) : Error → String
  | .readDir inner => "failed to read config directory, error: " ++ inner
  | .readFile name inner => "failed to read config file " ++ name ++ ", error: " ++ inner
  | .toJSON name inner =>
    "failed to convert config file " ++ name ++ " to JSON, error: " ++ inner
  | .unmarshal name inner =>
    "failed to unmarshal config file " ++ name ++ ", error: " ++ inner
  | .invalidConfig inner => "config is invalid, error: " ++ Error.message printable inner
  | .tooManyCIDRs n =>
    "the daemon can only accept up to 64 CIDRs (excluding link-local), but got " ++ uitoa n
      ++ " CIDRs (excluding link local)"
  | .cidrParse cidr inner =>
    "CIDR " ++ Quote printable cidr ++ " could not be parsed, " ++ inner.Error
  | .cidrAlign cidr ip network =>
    "CIDR " ++ Quote printable cidr ++ " is not aligned to a CIDR block, ip: "
      ++ Quote printable (IP.String ip) ++ " network: " ++ Quote printable (IPNet.String network)
  | .ipv6NotEnabled cidr =>
    "ipv6 is not enabled, but ipv6 cidr " ++ cidr
      ++ " provided. Enable ipv6 using --enable-ipv6 agent flag"
  | .postroutingJump v6 table chain inner =>
    "failed to ensure that " ++ table ++ " chain " ++ chain ++ " jumps to MASQUERADE: " ++ inner
      ++ (if v6 then " for ipv6" else "")
  | .iptables inner => inner

/-- The characters `strconv.Quote` leaves as they are whatever the Unicode tables:
printable ASCII other than the double quote and the backslash. -/
def plainChar (c : Char) : Bool :=
  decide (0x20 ≤ c.toNat) && decide (c.toNat ≤ 0x7E) && c != quoteChar && c != backslash

/-- A line is a RETURN rule: it ends with ` -j RETURN`. -/
def isReturnLine (line : String) : Bool := " -j RETURN".toList.isSuffixOf line.toList

/-! ## Lemmas on the key set and on merging -/

theorem foldl_snoc_eq (l acc : List String) :
    l.foldl (fun cidrsList cidr => cidrsList ++ [cidr]) acc = acc ++ l := by
  induction l generalizing acc with
  | nil => simp
  | cons a l ih => simp [ih]

theorem StringSet.mem_insert (m : StringSet) (k s : String) :
    s ∈ StringSet.insert m k ↔ s ∈ m ∨ s = k := by
  unfold StringSet.insert
  by_cases hk : k ∈ m
  · simp only [hk, if_true]
    constructor
    · intro h; exact Or.inl h
    · rintro (h | h)
      · exact h
      · subst h; exact hk
  · simp [hk]

theorem StringSet.nodup_insert (m : StringSet) (k : String) (h : m.Nodup) :
    (StringSet.insert m k).Nodup := by
  unfold StringSet.insert
  by_cases hk : k ∈ m
  · simpa [hk] using h
  · simp only [hk, if_false]
    exact List.Nodup.append h (List.nodup_singleton k) (by simpa using hk)

theorem StringSet.mem_foldl_insert (l : List String) (m : StringSet) (s : String) :
    s ∈ l.foldl StringSet.insert m ↔ s ∈ m ∨ s ∈ l := by
  induction l generalizing m with
  | nil => simp
  | cons a l ih =>
    simp only [List.foldl_cons, ih, StringSet.mem_insert, List.mem_cons]
    tauto

theorem StringSet.nodup_foldl_insert (l : List String) (m : StringSet) (h : m.Nodup) :
    (l.foldl StringSet.insert m).Nodup := by
  induction l generalizing m with
  | nil => simpa using h
  | cons a l ih => exact ih _ (StringSet.nodup_insert m a h)

theorem mergeCIDRs_perm (o : MapOrder) (cidrs1 cidrs2 : List String) :
    (mergeCIDRs o cidrs1 cidrs2).Perm
      (cidrs2.foldl StringSet.insert (cidrs1.foldl StringSet.insert [])) := by
  unfold mergeCIDRs
  simp only [foldl_snoc_eq, List.nil_append]
  exact o.perm _

theorem mem_mergeCIDRs (o : MapOrder) (cidrs1 cidrs2 : List String) (s : String) :
    s ∈ mergeCIDRs o cidrs1 cidrs2 ↔ s ∈ cidrs1 ∨ s ∈ cidrs2 := by
  rw [(mergeCIDRs_perm o cidrs1 cidrs2).mem_iff]
  simp [StringSet.mem_foldl_insert]

theorem nodup_mergeCIDRs (o : MapOrder) (cidrs1 cidrs2 : List String) :
    (mergeCIDRs o cidrs1 cidrs2).Nodup := by
  rw [(mergeCIDRs_perm o cidrs1 cidrs2).nodup_iff]
  exact StringSet.nodup_foldl_insert _ _ (StringSet.nodup_foldl_insert _ _ List.nodup_nil)

theorem merge_cidrs_of_nonempty (o : MapOrder) (c n : MasqConfig)
    (h : n.NonMasqueradeCIDRs ≠ []) :
    (c.merge o n).NonMasqueradeCIDRs = mergeCIDRs o c.NonMasqueradeCIDRs n.NonMasqueradeCIDRs := by
  have hl : n.NonMasqueradeCIDRs.length > 0 := List.length_pos.mpr h
  simp [MasqConfig.merge, hl]

theorem merge_cidrs_of_empty (o : MapOrder) (c n : MasqConfig)
    (h : n.NonMasqueradeCIDRs = []) :
    (c.merge o n).NonMasqueradeCIDRs = c.NonMasqueradeCIDRs := by
  simp [MasqConfig.merge, h]

theorem mem_merge_cidrs (o : MapOrder) (c n : MasqConfig) (s : String) :
    s ∈ (c.merge o n).NonMasqueradeCIDRs ↔
      s ∈ c.NonMasqueradeCIDRs ∨ s ∈ n.NonMasqueradeCIDRs := by
  by_cases h : n.NonMasqueradeCIDRs = []
  · rw [merge_cidrs_of_empty o c n h, h]; simp
  · rw [merge_cidrs_of_nonempty o c n h, mem_mergeCIDRs]

theorem merge_MasqLinkLocal (o : MapOrder) (c n : MasqConfig) :
    (c.merge o n).MasqLinkLocal = (c.MasqLinkLocal || n.MasqLinkLocal) := by
  unfold MasqConfig.merge
  split <;> rfl

theorem merge_MasqLinkLocalIPv6 (o : MapOrder) (c n : MasqConfig) :
    (c.merge o n).MasqLinkLocalIPv6 = (c.MasqLinkLocalIPv6 || n.MasqLinkLocalIPv6) := by
  unfold MasqConfig.merge
  split <;> rfl

/-! ## Lemmas on the script buffer -/

theorem writeNonMasqRule_eq (chain lines cidr : String) :
    writeNonMasqRule chain lines cidr = lines ++ (specReturnLine chain cidr ++ "\n") := by
  apply String.ext
  simp only [writeNonMasqRule, writeRule, writeLine, Join, specReturnLine, Append,
    String.data_append, List.cons_append, List.nil_append, List.append_assoc]

theorem writeMasqRule_eq (chain lines : String) :
    writeMasqRule chain lines = lines ++ (specMasqueradeLine chain ++ "\n") := by
  apply String.ext
  simp only [writeMasqRule, writeRule, writeLine, Join, specMasqueradeLine, Append,
    String.data_append, List.cons_append, List.nil_append, List.append_assoc]

theorem join_lines_append (a b : List String) :
    String.join (a ++ b) = String.join a ++ String.join b := by
  apply String.ext
  simp

theorem foldl_writeNonMasqRule (chain : String) (p : String → Bool) (cidrs : List String)
    (lines : String) :
    cidrs.foldl (fun lines cidr => if p cidr then writeNonMasqRule chain lines cidr else lines)
        lines
      = lines ++ String.join ((cidrs.filter p).map (fun l => specReturnLine chain l ++ "\n")) := by
  induction cidrs generalizing lines with
  | nil => simp [String.join]
  | cons c cs ih =>
    rw [List.foldl_cons, ih]
    by_cases hp : p c
    · simp only [hp, if_true, List.filter_cons_of_pos, List.map_cons, writeNonMasqRule_eq]
      apply String.ext
      simp
    · simp [hp]

/-- The buffer `syncMasqRules` and `syncMasqRulesIPv6` build, written once for both:
the family test `p`, the flag and the link-local range vary. -/
theorem built_buffer_eq (chain : String) (flag : Bool) (linkLocal : String)
    (p : String → Bool) (cidrs : List String) :
    writeLine
      (writeMasqRule chain
        (cidrs.foldl
          (fun lines cidr => if p cidr then writeNonMasqRule chain lines cidr else lines)
          (if (!flag) = true then
            writeNonMasqRule chain (writeLine (writeLine "" ["*nat"]) [MakeChainLine chain])
              linkLocal
          else writeLine (writeLine "" ["*nat"]) [MakeChainLine chain])))
      ["COMMIT"]
      = specScript chain flag linkLocal (cidrs.filter p) := by
  rw [foldl_writeNonMasqRule, writeMasqRule_eq]
  apply String.ext
  cases flag <;>
    simp [specScript, specLines, writeLine, Join, MakeChainLine, writeNonMasqRule_eq,
      Function.comp_def]
theorem filter_not_isIPv6CIDR (cidrs : List String) :
    cidrs.filter (fun cidr => !isIPv6CIDR cidr) = rangesOfFamily false cidrs := by
  unfold rangesOfFamily
  congr 1
  funext cidr
  cases isIPv6CIDR cidr <;> rfl

theorem filter_isIPv6CIDR (cidrs : List String) :
    cidrs.filter (fun cidr => isIPv6CIDR cidr) = rangesOfFamily true cidrs := by
  unfold rangesOfFamily
  congr 1
  funext cidr
  cases isIPv6CIDR cidr <;> rfl

/-- The scripts `syncMasqRules` hands to a recording applier: the script of the
specification for IPv4, once, unless ensuring the jump rule failed. -/
theorem syncMasqRules_recorded {σ : Type} (ipt : Iptables σ) (flags : Flags)
    (m : MasqDaemon (σ × List String)) :
    (m.syncMasqRules ipt.recording flags).2.iptables.2 =
      m.iptables.2 ++
        (if (ensurePostroutingJump ipt flags
              (ipt.EnsureChain m.iptables.1 TableNAT flags.masqChain).2).1.isNone
          then [specScriptV4 flags.masqChain m.config] else []) := by
  unfold MasqDaemon.syncMasqRules
  dsimp only
  rw [built_buffer_eq flags.masqChain m.config.MasqLinkLocal linkLocalCIDR
    (fun cidr => !isIPv6CIDR cidr) m.config.NonMasqueradeCIDRs, filter_not_isIPv6CIDR]
  unfold ensurePostroutingJump Iptables.recording
  dsimp only
  rcases hr : ipt.EnsureRule (ipt.EnsureChain m.iptables.1 TableNAT flags.masqChain).2 Append
    TableNAT ChainPostrouting (postroutingJumpArgs flags.masqChain) with ⟨⟨b, e⟩, s1⟩
  cases e with
  | some err => simp
  | none =>
    dsimp only
    rcases hres : ipt.RestoreAll s1 (specScript flags.masqChain m.config.MasqLinkLocal
      linkLocalCIDR (rangesOfFamily false m.config.NonMasqueradeCIDRs)) NoFlushTables
      NoRestoreCounters with ⟨e2, s3⟩
    cases e2 <;> simp [specScriptV4]
/-- The scripts `syncMasqRulesIPv6` hands to a recording applier: the script of the
specification for IPv6, once, when IPv6 is enabled and the chain and the
jump rule were ensured; nothing otherwise. -/
theorem syncMasqRulesIPv6_recorded {σ : Type} (ipt6 : Iptables σ) (flags : Flags)
    (m : MasqDaemon (σ × List String)) :
    (m.syncMasqRulesIPv6 ipt6.recording flags).2.ip6tables.2 =
      m.ip6tables.2 ++
        (if flags.enableIPv6
            && (ipt6.EnsureChain m.ip6tables.1 TableNAT flags.masqChain).1.2.isNone
            && (ensurePostroutingJumpIPv6 ipt6 flags
                (ipt6.EnsureChain m.ip6tables.1 TableNAT flags.masqChain).2).1.isNone
          then [specScriptV6 flags.masqChain m.config] else []) := by
  unfold MasqDaemon.syncMasqRulesIPv6
  dsimp only
  rw [built_buffer_eq flags.masqChain m.config.MasqLinkLocalIPv6 linkLocalCIDRIPv6
    (fun cidr => isIPv6CIDR cidr) m.config.NonMasqueradeCIDRs, filter_isIPv6CIDR]
  cases h6 : flags.enableIPv6 with
  | false => simp
  | true =>
    unfold ensurePostroutingJumpIPv6 Iptables.recording
    dsimp only
    rcases hc : ipt6.EnsureChain m.ip6tables.1 TableNAT flags.masqChain with ⟨⟨b0, e0⟩, s0⟩
    cases e0 with
    | some err => simp
    | none =>
      dsimp only
      rcases hr : ipt6.EnsureRule s0 Append TableNAT ChainPostrouting
        (postroutingJumpArgs flags.masqChain) with ⟨⟨b, e⟩, s1⟩
      cases e with
      | some err => simp
      | none =>
        dsimp only
        rcases hres : ipt6.RestoreAll s1 (specScript flags.masqChain m.config.MasqLinkLocalIPv6
          linkLocalCIDRIPv6 (rangesOfFamily true m.config.NonMasqueradeCIDRs)) NoFlushTables
          NoRestoreCounters with ⟨e2, s3⟩
        cases e2 <;> simp [specScriptV6]

theorem bytesValue_foldl (bs : List Nat) (acc : Nat) :
    bs.foldl (fun acc x => acc * 256 + x) acc = acc * 256 ^ bs.length + bytesValue bs := by
  induction bs generalizing acc with
  | nil => simp [bytesValue]
  | cons x bs ih =>
    simp only [List.foldl_cons, List.length_cons, bytesValue]
    rw [ih, ih (0 * 256 + x)]
    ring

theorem bytesValue_cons (x : Nat) (bs : List Nat) :
    bytesValue (x :: bs) = x * 256 ^ bs.length + bytesValue bs := by
  simp only [bytesValue, List.foldl_cons]
  rw [bytesValue_foldl]
  simp [bytesValue]

theorem bytesValue_lt (bs : List Nat) (hb : ∀ x ∈ bs, x < 256) :
    bytesValue bs < 256 ^ bs.length := by
  induction bs with
  | nil => simp [bytesValue]
  | cons x bs ih =>
    rw [bytesValue_cons, List.length_cons, pow_succ]
    have hx : x < 256 := hb x (List.mem_cons_self _ _)
    have hr := ih (fun y hy => hb y (List.mem_cons_of_mem _ hy))
    nlinarith

set_option maxRecDepth 1000000 in
theorem land_255 : ∀ x < 256, Nat.land x 255 = x := by decide

set_option maxRecDepth 1000000 in
theorem land_mask_iff : ∀ n < 8, ∀ x < 256,
    (Nat.land x (255 - 255 / 2 ^ n) = x ↔ x % 2 ^ (8 - n) = 0) := by decide
theorem CIDRMask_go_cons (l n : Nat) :
    CIDRMask.go (l + 1) n =
      (if n ≥ 8 then 255 else 255 - 255 / 2 ^ n) :: CIDRMask.go l (n - 8) := by
  by_cases h : n ≥ 8
  · simp [CIDRMask.go, h]
  · have h0 : n - 8 = 0 := by omega
    simp [CIDRMask.go, h, h0]

theorem CIDRMask_go_length (l n : Nat) : (CIDRMask.go l n).length = l := by
  induction l generalizing n with
  | zero => simp [CIDRMask.go]
  | succ l ih => rw [CIDRMask_go_cons]; simp [ih]

theorem mod_pow_split (x r a k : Nat) (hk : k ≤ a) :
    (x * 2 ^ a + r) % 2 ^ k = r % 2 ^ k := by
  have h : x * 2 ^ a = 2 ^ k * (x * 2 ^ (a - k)) := by
    have : 2 ^ a = 2 ^ k * 2 ^ (a - k) := by rw [← pow_add]; congr 1; omega
    rw [this]; ring
  rw [h, Nat.mul_add_mod]

theorem mod_pow_high (x r a j : Nat) (hr : r < 2 ^ a) :
    (x * 2 ^ a + r) % 2 ^ (a + j) = 0 ↔ x % 2 ^ j = 0 ∧ r = 0 := by
  constructor
  · intro h
    have hd : 2 ^ (a + j) ∣ x * 2 ^ a + r := Nat.dvd_of_mod_eq_zero h
    have ha : 2 ^ a ∣ x * 2 ^ a + r := Dvd.dvd.trans (pow_dvd_pow 2 (Nat.le_add_right a j)) hd
    have hr0 : 2 ^ a ∣ r := (Nat.dvd_add_right (Dvd.intro_left x rfl)).mp ha
    have hr1 : r = 0 := Nat.eq_zero_of_dvd_of_lt hr0 hr
    subst hr1
    refine ⟨?_, rfl⟩
    rw [Nat.add_zero, pow_add, Nat.mul_comm x] at hd
    exact Nat.mod_eq_zero_of_dvd ((Nat.mul_dvd_mul_iff_left (by positivity)).mp hd)
  · rintro ⟨hx, rfl⟩
    obtain ⟨q, hq⟩ := Nat.dvd_of_mod_eq_zero hx
    rw [Nat.add_zero, hq, pow_add]
    apply Nat.mod_eq_zero_of_dvd
    exact ⟨q, by ring⟩

/-- Masking an address with the mask of `n` ones leaves it unchanged exactly when
its bits below the first `n` are zero. -/
theorem mask_fixes_iff (b : List Nat) (hb : ∀ x ∈ b, x < 256) (n : Nat)
    (hn : n ≤ 8 * b.length) :
    List.zipWith (fun a m => Nat.land a m) b (CIDRMask.go b.length n) = b ↔
      bytesValue b % 2 ^ (8 * b.length - n) = 0 := by
  induction b generalizing n with
  | nil => simp [CIDRMask.go, bytesValue]
  | cons x bs ih =>
    have hx : x < 256 := hb x (List.mem_cons_self _ _)
    have hbs : ∀ y ∈ bs, y < 256 := fun y hy => hb y (List.mem_cons_of_mem _ hy)
    have hlt := bytesValue_lt bs hbs
    have hpow : (256 : Nat) ^ bs.length = 2 ^ (8 * bs.length) := by
      rw [pow_mul]; norm_num
    rw [List.length_cons, CIDRMask_go_cons, List.zipWith_cons_cons, List.cons.injEq,
      bytesValue_cons, hpow]
    rw [hpow] at hlt
    simp only [List.length_cons] at hn
    by_cases h8 : n ≥ 8
    · have ihn := ih hbs (n - 8) (by omega)
      simp only [h8, if_true, land_255 x hx, true_and]
      rw [ihn]
      have e1 : 8 * (bs.length + 1) - n = 8 * bs.length - (n - 8) := by omega
      rw [e1, mod_pow_split _ _ _ _ (Nat.sub_le _ _)]
    · have h0 : n - 8 = 0 := by omega
      have ihn := ih hbs 0 (by omega)
      simp only [h8, if_false, h0]
      rw [ihn, land_mask_iff n (by omega) x hx]
      have e1 : 8 * (bs.length + 1) - n = 8 * bs.length + (8 - n) := by omega
      rw [e1, mod_pow_high _ _ _ _ hlt, Nat.sub_zero, Nat.mod_eq_of_lt hlt]
/-! ## Lemmas on the address parsers: shape of the result -/

theorem parseIPv4Fields_go_shape (s : List Char) (first prevDot : Bool)
    (val digLen : Nat) (fields f : List Nat)
    (hl : fields.length ≤ 3) (hv : val < 256) (hf : ∀ x ∈ fields, x < 256)
    (h : parseIPv4Fields.go s first prevDot val digLen fields = some f) : IsBytes 4 f := by
  induction s generalizing first prevDot val digLen fields with
  | nil =>
    simp only [parseIPv4Fields.go] at h
    split at h
    · cases h
    · cases h
      refine ⟨by simp; omega, ?_⟩
      intro x hx
      rcases List.mem_append.mp hx with hx | hx
      · exact hf x hx
      · simp at hx; omega
  | cons c rest ih =>
    simp only [parseIPv4Fields.go] at h
    split at h
    · split at h
      · cases h
      · split at h
        · cases h
        · exact ih _ _ _ _ _ hl (by omega) hf h
    · split at h
      · split at h
        · cases h
        · split at h
          · cases h
          · rename_i h3
            refine ih _ _ _ _ _ ?_ (by omega) ?_ h
            · simp at h3 ⊢; omega
            · intro x hx
              rcases List.mem_append.mp hx with hx | hx
              · exact hf x hx
              · simp at hx; omega
      · cases h

theorem parseIPv4Fields_shape (s : List Char) (f : List Nat)
    (h : parseIPv4Fields s = some f) : IsBytes 4 f :=
  parseIPv4Fields_go_shape s true false 0 0 [] f (by simp) (by omega) (by simp) h

theorem hexGroup_bound (s : List Char) (off acc o a : Nat) (r : List Char)
    (hacc : acc ≤ 65535) (h : parseIPv6.hexGroup s off acc = some (o, a, r)) : a ≤ 65535 := by
  induction s generalizing off acc with
  | nil => simp only [parseIPv6.hexGroup] at h; cases h; exact hacc
  | cons c rest ih =>
    simp only [parseIPv6.hexGroup] at h
    split at h
    · cases h; exact hacc
    · split at h
      · cases h
      · split at h
        · cases h
        · exact ih _ _ (by omega) h

theorem parseIPv6_loop_shape (fuel : Nat) (s : List Char) (ip : List Nat) (ell : Option Nat)
    (r : List Char) (ip1 : List Nat) (ell1 : Option Nat)
    (he : Even ip.length) (hl : ip.length ≤ 16) (hb : ∀ x ∈ ip, x < 256)
    (h : parseIPv6.loop fuel s ip ell = some (r, ip1, ell1)) :
    ip1.length ≤ 16 ∧ ∀ x ∈ ip1, x < 256 := by
  induction fuel generalizing s ip ell with
  | zero => simp only [parseIPv6.loop] at h; cases h; exact ⟨hl, hb⟩
  | succ fuel ih =>
    simp only [parseIPv6.loop] at h
    split at h
    · cases h; exact ⟨hl, hb⟩
    · rename_i hlt
      have hlt14 : ip.length ≤ 14 := by
        obtain ⟨k, hk⟩ := he
        omega
      split at h
      · cases h
      · rename_i off acc rest hg
        have hacc := hexGroup_bound s 0 0 off acc rest (by omega) hg
        have hb1 : ∀ x ∈ ip ++ [acc / 256, acc % 256], x < 256 := by
          intro x hx
          rcases List.mem_append.mp hx with hx | hx
          · exact hb x hx
          · simp at hx; omega
        have he1 : Even (ip ++ [acc / 256, acc % 256]).length := by
          obtain ⟨k, hk⟩ := he
          exact ⟨k + 1, by simp; omega⟩
        have hl1 : (ip ++ [acc / 256, acc % 256]).length ≤ 16 := by simp; omega
        split at h
        · cases h
        · split at h
          · split at h
            · cases h
            · split at h
              · cases h
              · split at h
                · cases h
                · rename_i f hf4
                  cases h
                  have hs := parseIPv4Fields_shape s f hf4
                  refine ⟨by simp [hs.1]; omega, ?_⟩
                  intro x hx
                  rcases List.mem_append.mp hx with hx | hx
                  · exact hb x hx
                  · exact hs.2 x hx
          · split at h
            · cases h; exact ⟨hl1, hb1⟩
            · split at h
              · cases h
              · split at h
                · cases h
                · split at h
                  · split at h
                    · cases h
                    · split at h
                      · cases h; exact ⟨hl1, hb1⟩
                      · exact ih _ _ _ he1 hl1 hb1 h
                  · exact ih _ _ _ he1 hl1 hb1 h

theorem parseIPv6_finish_shape (s : List Char) (ell : Option Nat) (b : List Nat)
    (h : parseIPv6.finish s ell = some b) : IsBytes 16 b := by
  unfold parseIPv6.finish at h
  split at h
  · cases h
  · rename_i rest ip ell1 hloop
    have hs := parseIPv6_loop_shape 8 s [] ell rest ip ell1 ⟨0, rfl⟩ (by simp) (by simp) hloop
    split at h
    · cases h
    · split at h
      · split at h
        · cases h
        · cases h
          rename_i hlt e
          refine ⟨?_, ?_⟩
          · have : (List.take e ip).length + (List.drop e ip).length = ip.length := by
              rw [← List.length_append, List.take_append_drop]
            simp only [List.length_append, List.length_replicate]
            omega
          · intro x hx
            simp only [List.mem_append, List.mem_replicate] at hx
            rcases hx with (hx | hx) | hx
            · exact hs.2 x (List.mem_of_mem_take hx)
            · omega
            · exact hs.2 x (List.mem_of_mem_drop hx)
      · split at h
        · cases h
        · cases h
          exact ⟨by omega, hs.2⟩

theorem parseIPv6_shape (s : List Char) (a : Addr) (h : parseIPv6 s = some a) : a.WF := by
  unfold parseIPv6 at h
  dsimp only at h
  split at h
  · cases h
  · split at h
    · split at h
      · cases h
        exact ⟨by simp, by intro x hx; simp at hx; omega⟩
      · rcases hfin : parseIPv6.finish _ (some 0) with _ | b
        · rw [hfin] at h; cases h
        · rw [hfin] at h; cases h
          exact parseIPv6_finish_shape _ _ b hfin
    · rcases hfin : parseIPv6.finish _ none with _ | b
      · rw [hfin] at h; cases h
      · rw [hfin] at h; cases h
        exact parseIPv6_finish_shape _ _ b hfin

theorem ParseAddr_go_shape (whole s : List Char) (a : Addr)
    (h : ParseAddr.go whole s = some a) : a.WF := by
  induction s with
  | nil => simp [ParseAddr.go] at h
  | cons c rest ih =>
    simp only [ParseAddr.go] at h
    split at h
    · unfold parseIPv4 at h
      split at h
      · cases h
      · cases h
        rename_i f hf
        exact parseIPv4Fields_shape whole f hf
    · split at h
      · exact parseIPv6_shape whole a h
      · split at h
        · cases h
        · exact ih h

theorem ParseAddr_shape (s : List Char) (a : Addr) (h : ParseAddr s = some a) : a.WF :=
  ParseAddr_go_shape s s a h

theorem ParseCIDR_parts_shape (s : String) (a : Addr) (n : Nat)
    (h : ParseCIDR.parts s = some (a, n)) : a.WF ∧ n ≤ a.BitLen ∧ a.Zone = [] := by
  unfold ParseCIDR.parts at h
  split at h
  · cases h
  · split at h
    · cases h
    · rename_i ipAddr hpa
      split at h
      · cases h
      · rename_i hz
        dsimp only at h
        split at h
        · cases h
        · rename_i hc
          cases h
          refine ⟨ParseAddr_shape _ _ hpa, ?_, by simpa using hz⟩
          simp at hc
          omega
theorem IP_Mask_v6 (b m : List Nat) (hb : b.length = 16) (hm : m.length = 16) :
    IP.Mask b m = List.zipWith (fun a m => Nat.land a m) b m := by
  simp [IP.Mask, hb, hm, IPv4len, IPv6len]

theorem IP_Mask_v4 (f m : List Nat) (hf : f.length = 4) (hm : m.length = 4) :
    IP.Mask (v4InV6Prefix ++ f) m = List.zipWith (fun a m => Nat.land a m) f m := by
  simp [IP.Mask, hf, hm, IPv4len, IPv6len, v4InV6Prefix]

theorem IP_Equal_v6 (b x : List Nat) (hb : b.length = 16) (hx : x.length = 16) :
    IP.Equal b x = (b == x) := by
  simp [IP.Equal, hb, hx]

theorem IP_Equal_v4 (f x : List Nat) (hf : f.length = 4) (hx : x.length = 4) :
    IP.Equal (v4InV6Prefix ++ f) x = (f == x) := by
  simp [IP.Equal, hf, hx, IPv4len, IPv6len, v4InV6Prefix]

/-- The alignment test of `validateCIDR` on a decoded range: the parsed address
equals the network address exactly when the address bits below the prefix
length are zero. -/
theorem Equal_network_iff (a : Addr) (n : Nat) (hwf : a.WF) (hn : n ≤ a.BitLen) :
    IP.Equal a.As16 (IP.Mask a.As16 (CIDRMask n a.BitLen)) = true ↔
      a.value % 2 ^ (a.BitLen - n) = 0 := by
  cases a with
  | v4 f =>
    obtain ⟨hlen, hb⟩ := hwf
    simp only [Addr.BitLen] at hn
    have hm : CIDRMask n 32 = CIDRMask.go f.length n := by
      simp [CIDRMask, IPv4len, IPv6len, hlen]; omega
    have hml : (CIDRMask n 32).length = 4 := by rw [hm, CIDRMask_go_length, hlen]
    simp only [Addr.As16, Addr.BitLen, Addr.value]
    rw [IP_Mask_v4 f _ hlen hml, IP_Equal_v4 f _ hlen (by simp [hml, hlen]), hm]
    have key := mask_fixes_iff f hb n (by omega)
    rw [hlen] at key ⊢
    rw [← key]
    simp only [beq_iff_eq]
    exact eq_comm
  | v6 b z =>
    obtain ⟨hlen, hb⟩ := hwf
    simp only [Addr.BitLen] at hn
    have hm : CIDRMask n 128 = CIDRMask.go b.length n := by
      simp [CIDRMask, IPv4len, IPv6len, hlen]; omega
    have hml : (CIDRMask n 128).length = 16 := by rw [hm, CIDRMask_go_length, hlen]
    simp only [Addr.As16, Addr.BitLen, Addr.value]
    rw [IP_Mask_v6 b _ hlen hml, IP_Equal_v6 b _ hlen (by simp [hml, hlen]), hm]
    have key := mask_fixes_iff b hb n (by omega)
    rw [hlen] at key ⊢
    rw [← key]
    simp only [beq_iff_eq]
    exact eq_comm

theorem validateCIDR_of_parts (s : String) (a : Addr) (n : Nat)
    (h : ParseCIDR.parts s = some (a, n)) :
    validateCIDR s =
      if IP.Equal a.As16 (IP.Mask a.As16 (CIDRMask n a.BitLen)) then none
      else some (Error.cidrAlign s a.As16
        ⟨IP.Mask a.As16 (CIDRMask n a.BitLen), CIDRMask n a.BitLen⟩) := by
  simp only [validateCIDR, ParseCIDR, h]
  cases IP.Equal a.As16 (IP.Mask a.As16 (CIDRMask n a.BitLen)) <;> simp

theorem validateCIDR_of_parts_none (s : String) (h : ParseCIDR.parts s = none) :
    validateCIDR s = some (Error.cidrParse s ⟨"CIDR address", s⟩) := by
  simp only [validateCIDR, ParseCIDR, h]

theorem validateCIDR_none_iff_aligned (s : String) :
    validateCIDR s = none ↔ AlignedCIDR s := by
  unfold AlignedCIDR
  cases hp : ParseCIDR.parts s with
  | none => simp [validateCIDR_of_parts_none s hp]
  | some r =>
    obtain ⟨a, n⟩ := r
    obtain ⟨hwf, hn, _⟩ := ParseCIDR_parts_shape s a n hp
    rw [validateCIDR_of_parts s a n hp]
    have key := Equal_network_iff a n hwf hn
    constructor
    · intro h
      refine ⟨a, n, rfl, key.mp ?_⟩
      by_contra hne
      simp [hne] at h
    · rintro ⟨a1, n1, h1, h2⟩
      cases h1
      simp [key.mpr h2]

theorem splitSlash_none_of_no_slash (l : List Char) (h : '/' ∉ l) : splitSlash l = none := by
  induction l with
  | nil => rfl
  | cons c rest ih =>
    simp only [List.mem_cons, not_or] at h
    have hc : (c == '/') = false := by
      simp only [beq_eq_false_iff_ne, ne_eq]
      exact fun e => h.1 e.symm
    simp [splitSlash, hc, ih h.2]

/-! ## Lemmas: an IPv4 address printed by `IP.String` parses back -/

theorem digitChar_dec : ∀ d < 10, isDigit (digitChar d) = true ∧ (digitChar d).toNat - 48 = d
    ∧ (digitChar d == '.') = false ∧ (digitChar d == ':') = false
    ∧ (digitChar d == '%') = false := by decide

theorem appendDecimal_eq (b : List Char) (x : Nat) :
    appendDecimal b x = b ++ appendDecimal [] x := by
  unfold appendDecimal
  by_cases h1 : x ≥ 100 <;> by_cases h2 : x ≥ 10 <;> simp [h1, h2]

theorem appendDecimal_cases (x : Nat) :
    (x < 10 ∧ appendDecimal [] x = [digitChar x]) ∨
    (10 ≤ x ∧ x < 100 ∧ appendDecimal [] x = [digitChar (x / 10), digitChar (x % 10)]) ∨
    (100 ≤ x ∧ appendDecimal [] x
      = [digitChar (x / 100), digitChar (x / 10 % 10), digitChar (x % 10)]) := by
  unfold appendDecimal
  by_cases h1 : x ≥ 100
  · right; right
    have h2 : x ≥ 10 := by omega
    simp [h1, h2]
  · by_cases h2 : x ≥ 10
    · right; left
      have h3 : x / 10 % 10 = x / 10 := Nat.mod_eq_of_lt (by omega)
      simp [h1, h2, h3]
      omega
    · left
      have h3 : x % 10 = x := Nat.mod_eq_of_lt (by omega)
      simp [h1, h2, h3]
      omega

theorem appendDecimal_ne_nil (x : Nat) : appendDecimal [] x ≠ [] := by
  rcases appendDecimal_cases x with h | h | h
  · rw [h.2]; simp
  · rw [h.2.2]; simp
  · rw [h.2]; simp

theorem appendDecimal_digits (x : Nat) (hx : x < 256) :
    ∀ c ∈ appendDecimal [] x, (c == '.') = false ∧ (c == ':') = false ∧ (c == '%') = false := by
  intro c hc
  have key : ∀ d < 10, c = digitChar d →
      (c == '.') = false ∧ (c == ':') = false ∧ (c == '%') = false := by
    intro d hd e
    subst e
    exact (digitChar_dec d hd).2.2
  rcases appendDecimal_cases x with h | h | h
  · rw [h.2] at hc; simp at hc
    exact key x h.1 hc
  · rw [h.2.2] at hc; simp at hc
    rcases hc with hc | hc
    · exact key _ (by omega) hc
    · exact key _ (by omega) hc
  · rw [h.2] at hc; simp at hc
    rcases hc with hc | hc | hc
    · exact key _ (by omega) hc
    · exact key _ (by omega) hc
    · exact key _ (by omega) hc

theorem parseIPv4Fields_go_digit (d : Nat) (hd : d < 10) (rest : List Char)
    (first prevDot : Bool) (val digLen : Nat) (fields : List Nat)
    (h0 : ¬ (digLen = 1 ∧ val = 0)) (hv : val * 10 + d ≤ 255) :
    parseIPv4Fields.go (digitChar d :: rest) first prevDot val digLen fields =
      parseIPv4Fields.go rest false false (val * 10 + d) (digLen + 1) fields := by
  obtain ⟨h1, h2, _⟩ := digitChar_dec d hd
  have h3 : ¬ (val * 10 + d > 255) := by omega
  have h4 : (digLen == 1 && val == 0) = false := by
    simp only [Bool.and_eq_false_iff, beq_eq_false_iff_ne, ne_eq]
    by_cases hdl : digLen = 1
    · right; exact fun hv0 => h0 ⟨hdl, hv0⟩
    · left; exact hdl
  simp only [parseIPv4Fields.go, h1, h2, h4, h3, if_true, if_false, Bool.false_eq_true]

theorem parseIPv4Fields_go_decimal (x : Nat) (hx : x < 256) (rest : List Char)
    (first prevDot : Bool) (fields : List Nat) :
    ∃ k, parseIPv4Fields.go (appendDecimal [] x ++ rest) first prevDot 0 0 fields =
      parseIPv4Fields.go rest false false x k fields := by
  rcases appendDecimal_cases x with h | h | h
  · refine ⟨1, ?_⟩
    rw [h.2, List.singleton_append, parseIPv4Fields_go_digit x h.1 _ _ _ _ _ _ (by omega) (by omega)]
    simp
  · refine ⟨2, ?_⟩
    rw [h.2.2, List.cons_append, List.singleton_append,
      parseIPv4Fields_go_digit _ (by omega) _ _ _ _ _ _ (by omega) (by omega),
      parseIPv4Fields_go_digit _ (by omega) _ _ _ _ _ _ (by omega) (by omega)]
    have e : (0 * 10 + x / 10) * 10 + x % 10 = x := by omega
    rw [e]
  · refine ⟨3, ?_⟩
    rw [h.2, List.cons_append, List.cons_append, List.singleton_append,
      parseIPv4Fields_go_digit _ (by omega) _ _ _ _ _ _ (by omega) (by omega),
      parseIPv4Fields_go_digit _ (by omega) _ _ _ _ _ _ (by omega) (by omega),
      parseIPv4Fields_go_digit _ (by omega) _ _ _ _ _ _ (by omega) (by omega)]
    have e : ((0 * 10 + x / 100) * 10 + x / 10 % 10) * 10 + x % 10 = x := by omega
    rw [e]

theorem parseIPv4Fields_go_dot (x : Nat) (hx : x < 256) (rest : List Char)
    (val k : Nat) (fields : List Nat) (hl : fields.length < 3) :
    ∃ k1, parseIPv4Fields.go ('.' :: (appendDecimal [] x ++ rest)) false false val k fields =
      parseIPv4Fields.go rest false false x k1 (fields ++ [val]) := by
  obtain ⟨k1, hk1⟩ := parseIPv4Fields_go_decimal x hx rest false true (fields ++ [val])
  refine ⟨k1, ?_⟩
  rw [← hk1]
  have hne : (appendDecimal [] x ++ rest).isEmpty = false := by
    cases hd : appendDecimal [] x with
    | nil => exact absurd hd (appendDecimal_ne_nil x)
    | cons c cs => rfl
  have h3 : ¬ fields.length = 3 := by omega
  have hdig : isDigit '.' = false := by decide
  simp [parseIPv4Fields.go, hne, h3, hdig]

theorem appendTo4_eq (a b c d : Nat) :
    appendTo4 [] [a, b, c, d] =
      appendDecimal [] a ++ '.' :: (appendDecimal [] b ++ '.' :: (appendDecimal [] c
        ++ '.' :: (appendDecimal [] d ++ []))) := by
  simp only [appendTo4, List.getD_cons_zero, List.getD_cons_succ]
  rw [appendDecimal_eq (_ ++ ['.']) d, appendDecimal_eq (_ ++ ['.']) c,
    appendDecimal_eq (_ ++ ['.']) b]
  simp

theorem parseIPv4Fields_appendTo4 (a b c d : Nat) (ha : a < 256) (hb : b < 256)
    (hc : c < 256) (hd : d < 256) :
    parseIPv4Fields (appendTo4 [] [a, b, c, d]) = some [a, b, c, d] := by
  rw [appendTo4_eq, parseIPv4Fields]
  obtain ⟨k0, h0⟩ := parseIPv4Fields_go_decimal a ha
    ('.' :: (appendDecimal [] b ++ '.' :: (appendDecimal [] c
        ++ '.' :: (appendDecimal [] d ++ [])))) true false []
  obtain ⟨k1, h1⟩ := parseIPv4Fields_go_dot b hb
    ('.' :: (appendDecimal [] c ++ '.' :: (appendDecimal [] d ++ []))) a k0 [] (by simp)
  obtain ⟨k2, h2⟩ := parseIPv4Fields_go_dot c hc
    ('.' :: (appendDecimal [] d ++ [])) b k1 ([] ++ [a]) (by simp)
  obtain ⟨k3, h3⟩ := parseIPv4Fields_go_dot d hd [] c k2 ([] ++ [a] ++ [b]) (by simp)
  rw [h0, h1, h2, h3]
  simp [parseIPv4Fields.go]

theorem ParseAddr_go_dotted (whole s rest : List Char)
    (hs : ∀ c ∈ s, (c == '.') = false ∧ (c == ':') = false ∧ (c == '%') = false) :
    ParseAddr.go whole (s ++ '.' :: rest) = parseIPv4 whole := by
  induction s with
  | nil => simp [ParseAddr.go]
  | cons c cs ih =>
    obtain ⟨h1, h2, h3⟩ := hs c (List.mem_cons_self _ _)
    simp only [List.cons_append, ParseAddr.go, h1, h2, h3, Bool.false_eq_true, if_false]
    exact ih (fun x hx => hs x (List.mem_cons_of_mem _ hx))

theorem ParseIP_appendTo4 (a b c d : Nat) (ha : a < 256) (hb : b < 256)
    (hc : c < 256) (hd : d < 256) :
    ParseIP ⟨appendTo4 [] [a, b, c, d]⟩ = v4InV6Prefix ++ [a, b, c, d] := by
  have hp : ParseAddr (appendTo4 [] [a, b, c, d]) = some (Addr.v4 [a, b, c, d]) := by
    unfold ParseAddr
    conv => lhs; arg 2; rw [appendTo4_eq]
    rw [ParseAddr_go_dotted _ _ _ (appendDecimal_digits a ha), parseIPv4,
      parseIPv4Fields_appendTo4 a b c d ha hb hc hd]
  simp [ParseIP, hp, Addr.Zone, Addr.As16]

/-- An address with an IPv4 form is printed in dotted decimal and read back as
IPv4: `isIPv6` is false on its text. -/
theorem isIPv6_String_of_To4 (ip : IP) (hip : IsBytes 16 ip) (h4 : IP.To4 ip ≠ []) :
    isIPv6 (IP.String ip) = false := by
  obtain ⟨hlen, hb⟩ := hip
  match ip, hlen with
  | [b0, b1, b2, b3, b4, b5, b6, b7, b8, b9, b10, b11, a, b, c, d], _ =>
    have ha : a < 256 := hb a (by simp)
    have hb' : b < 256 := hb b (by simp)
    have hc : c < 256 := hb c (by simp)
    have hd : d < 256 := hb d (by simp)
    have hto : IP.To4 [b0, b1, b2, b3, b4, b5, b6, b7, b8, b9, b10, b11, a, b, c, d]
        = [a, b, c, d] := by
      have h4c := h4
      simp [IP.To4, IPv4len, IPv6len] at h4c ⊢
      exact h4c
    have hs : IP.String [b0, b1, b2, b3, b4, b5, b6, b7, b8, b9, b10, b11, a, b, c, d]
        = ⟨appendTo4 [] [a, b, c, d]⟩ := by
      unfold IP.String
      rw [hto]
      simp [IPv4len, IPv6len]
    rw [hs, isIPv6, ParseIP_appendTo4 a b c d ha hb' hc hd]
    simp [IP.To4, v4InV6Prefix, IPv4len, IPv6len]
/-! ## Lemmas: an IPv6 address printed by `IP.String` parses back -/

theorem digitChar_hex : ∀ d < 16, hexVal (digitChar d) = some d
    ∧ (digitChar d == '.') = false ∧ (digitChar d == ':') = false
    ∧ (digitChar d == '%') = false := by decide

theorem appendHex_eq (b : List Char) (x : Nat) : appendHex b x = b ++ appendHex [] x := by
  unfold appendHex
  by_cases h1 : x ≥ 0x1000 <;> by_cases h2 : x ≥ 0x100 <;> by_cases h3 : x ≥ 0x10 <;>
    simp [h1, h2, h3]

theorem appendHex_cases (x : Nat) :
    (x < 16 ∧ appendHex [] x = [digitChar x]) ∨
    (16 ≤ x ∧ x < 256 ∧ appendHex [] x = [digitChar (x / 16), digitChar (x % 16)]) ∨
    (256 ≤ x ∧ x < 4096 ∧ appendHex [] x
      = [digitChar (x / 256), digitChar (x / 16 % 16), digitChar (x % 16)]) ∨
    (4096 ≤ x ∧ appendHex [] x
      = [digitChar (x / 4096), digitChar (x / 256 % 16), digitChar (x / 16 % 16),
          digitChar (x % 16)]) := by
  unfold appendHex
  by_cases h1 : x ≥ 0x1000
  · right; right; right
    have h2 : x ≥ 0x100 := by omega
    have h3 : x ≥ 0x10 := by omega
    simp [h1, h2, h3]
  · by_cases h2 : x ≥ 0x100
    · right; right; left
      have h3 : x ≥ 0x10 := by omega
      have e : x / 256 % 16 = x / 256 := Nat.mod_eq_of_lt (by omega)
      simp [h1, h2, h3, e]
      omega
    · by_cases h3 : x ≥ 0x10
      · right; left
        have e : x / 16 % 16 = x / 16 := Nat.mod_eq_of_lt (by omega)
        simp [h1, h2, h3, e]
        omega
      · left
        have e : x % 16 = x := Nat.mod_eq_of_lt (by omega)
        simp [h1, h2, h3, e]
        omega

theorem appendHex_head (x : Nat) (hx : x < 65536) :
    ∃ d tl, d < 16 ∧ appendHex [] x = digitChar d :: tl := by
  rcases appendHex_cases x with h | h | h | h
  · exact ⟨_, _, h.1, h.2⟩
  · exact ⟨_, _, by omega, h.2.2⟩
  · exact ⟨_, _, by omega, h.2.2⟩
  · exact ⟨_, _, by omega, h.2⟩

theorem hexGroup_digit (d : Nat) (hd : d < 16) (rest : List Char) (off acc : Nat)
    (hoff : off ≤ 3) (hacc : acc * 16 + d ≤ 65535) :
    parseIPv6.hexGroup (digitChar d :: rest) off acc =
      parseIPv6.hexGroup rest (off + 1) (acc * 16 + d) := by
  have h1 := (digitChar_hex d hd).1
  have h2 : ¬ off > 3 := by omega
  have h3 : ¬ acc * 16 + d > 65535 := by omega
  simp only [parseIPv6.hexGroup, h1, h2, h3, if_false]

theorem hexGroup_end (rest : List Char) (hr : GroupEnd rest) (off acc : Nat) :
    parseIPv6.hexGroup rest off acc = some (off, acc, rest) := by
  rcases hr with rfl | ⟨r, rfl⟩
  · rfl
  · have h : hexVal ':' = none := by decide
    simp only [parseIPv6.hexGroup, h]

theorem hexGroup_appendHex (x : Nat) (hx : x < 65536) (rest : List Char) (hr : GroupEnd rest) :
    ∃ k, 0 < k ∧ parseIPv6.hexGroup (appendHex [] x ++ rest) 0 0 = some (k, x, rest) := by
  rcases appendHex_cases x with h | h | h | h
  · refine ⟨1, by omega, ?_⟩
    rw [h.2, List.singleton_append, hexGroup_digit _ h.1 _ _ _ (by omega) (by omega),
      hexGroup_end _ hr]
    simp
  · refine ⟨2, by omega, ?_⟩
    rw [h.2.2, List.cons_append, List.singleton_append,
      hexGroup_digit _ (by omega) _ _ _ (by omega) (by omega),
      hexGroup_digit _ (by omega) _ _ _ (by omega) (by omega), hexGroup_end _ hr]
    have e : (0 * 16 + x / 16) * 16 + x % 16 = x := by omega
    rw [e]
  · refine ⟨3, by omega, ?_⟩
    rw [h.2.2, List.cons_append, List.cons_append, List.singleton_append,
      hexGroup_digit _ (by omega) _ _ _ (by omega) (by omega),
      hexGroup_digit _ (by omega) _ _ _ (by omega) (by omega),
      hexGroup_digit _ (by omega) _ _ _ (by omega) (by omega), hexGroup_end _ hr]
    have e : ((0 * 16 + x / 256) * 16 + x / 16 % 16) * 16 + x % 16 = x := by omega
    rw [e]
  · refine ⟨4, by omega, ?_⟩
    rw [h.2, List.cons_append, List.cons_append, List.cons_append, List.singleton_append,
      hexGroup_digit _ (by omega) _ _ _ (by omega) (by omega),
      hexGroup_digit _ (by omega) _ _ _ (by omega) (by omega),
      hexGroup_digit _ (by omega) _ _ _ (by omega) (by omega),
      hexGroup_digit _ (by omega) _ _ _ (by omega) (by omega), hexGroup_end _ hr]
    have e : (((0 * 16 + x / 4096) * 16 + x / 256 % 16) * 16 + x / 16 % 16) * 16 + x % 16
        = x := by omega
    rw [e]

theorem getD_lt (ip : List Nat) (hb : ∀ x ∈ ip, x < 256) (i : Nat) : ip.getD i 0 < 256 := by
  rw [List.getD_eq_getElem?_getD]
  cases h : ip[i]? with
  | none => simp
  | some v =>
    simp only [Option.getD_some]
    exact hb v (List.getElem?_mem h)

theorem v6u16_lt (ip : List Nat) (hb : ∀ x ∈ ip, x < 256) (i : Nat) : v6u16 ip i < 65536 := by
  unfold v6u16
  have h1 := getD_lt ip hb (2 * i)
  have h2 := getD_lt ip hb (2 * i + 1)
  omega
theorem GroupEnd_colonGroups (ip : List Nat) (i n : Nat) : GroupEnd (colonGroups ip i n) := by
  cases n with
  | zero => left; rfl
  | succ n => right; exact ⟨_, rfl⟩

theorem GroupEnd_cons_colon (r : List Char) : GroupEnd (':' :: r) := Or.inr ⟨r, rfl⟩

theorem GroupEnd_head (rest : List Char) (hr : GroupEnd rest) :
    (rest.head? == some '.') = false := by
  rcases hr with rfl | ⟨r, rfl⟩
  · rfl
  · rfl

/-- One round of the loop of `parseIPv6` on a printed group followed by the end of
the string or a colon. -/
theorem parseIPv6_loop_step (fuel x : Nat) (hx : x < 65536) (rest : List Char)
    (hr : GroupEnd rest) (P : List Nat) (hP : P.length < 16) (ell : Option Nat) :
    parseIPv6.loop (fuel + 1) (appendHex [] x ++ rest) P ell =
      parseIPv6.afterGroup fuel rest (P ++ [x / 256, x % 256]) ell := by
  obtain ⟨k, hk, hg⟩ := hexGroup_appendHex x hx rest hr
  have hk0 : (k == 0) = false := by
    simp only [beq_eq_false_iff_ne, ne_eq]; omega
  have hnot : ¬ ¬ P.length < 16 := by omega
  rw [parseIPv6.loop]
  simp only [hnot, if_false, hg, hk0, GroupEnd_head rest hr, Bool.false_eq_true]
  rfl

/-- The loop of `parseIPv6` on printed groups up to the end of the string. -/
theorem parseIPv6_loop_groups (ip : List Nat) (hb : ∀ x ∈ ip, x < 256) (n : Nat) :
    ∀ (i fuel : Nat) (P : List Nat) (ell : Option Nat),
      P.length + 2 * (n + 1) ≤ 16 → n + 1 ≤ fuel →
      parseIPv6.loop fuel (appendHex [] (v6u16 ip i) ++ colonGroups ip (i + 1) n) P ell =
        some ([], P ++ groupBytes ip i (n + 1), ell) := by
  induction n with
  | zero =>
    intro i fuel P ell hP hf
    obtain ⟨f, rfl⟩ : ∃ f, fuel = f + 1 := ⟨fuel - 1, by omega⟩
    rw [parseIPv6_loop_step f _ (v6u16_lt ip hb i) _ (GroupEnd_colonGroups ip _ _) P
      (by omega) ell]
    simp [colonGroups, groupBytes, parseIPv6.afterGroup]
  | succ n ih =>
    intro i fuel P ell hP hf
    obtain ⟨f, rfl⟩ : ∃ f, fuel = f + 1 := ⟨fuel - 1, by omega⟩
    rw [parseIPv6_loop_step f _ (v6u16_lt ip hb i) _ (GroupEnd_colonGroups ip _ _) P
      (by omega) ell]
    obtain ⟨d, tl, hd, htl⟩ := appendHex_head (v6u16 ip (i + 1)) (v6u16_lt ip hb (i + 1))
    have hc := (digitChar_hex d hd).2.2.1
    have hcolon : colonGroups ip (i + 1) (n + 1)
        = ':' :: (appendHex [] (v6u16 ip (i + 1)) ++ colonGroups ip (i + 1 + 1) n) := rfl
    rw [hcolon]
    have ih1 := ih (i + 1) f (P ++ [v6u16 ip i / 256, v6u16 ip i % 256]) ell
      (by simp; omega) (by omega)
    rw [htl] at ih1 ⊢
    simp only [parseIPv6.afterGroup, List.cons_append, bne_self_eq_false, Bool.false_eq_true,
      if_false, hc]
    simp only [List.cons_append] at ih1
    rw [ih1]
    simp [groupBytes]

/-- The loop of `parseIPv6` on printed groups followed by `::`. -/
theorem parseIPv6_loop_groups_ellipsis (ip : List Nat) (hb : ∀ x ∈ ip, x < 256) (n : Nat) :
    ∀ (i fuel : Nat) (P : List Nat) (X : List Char),
      P.length + 2 * (n + 1) ≤ 16 → n + 1 ≤ fuel →
      parseIPv6.loop fuel
          (appendHex [] (v6u16 ip i) ++ (colonGroups ip (i + 1) n ++ ':' :: ':' :: X)) P none =
        match X with
        | [] => some ([], P ++ groupBytes ip i (n + 1),
            some (P ++ groupBytes ip i (n + 1)).length)
        | _ :: _ => parseIPv6.loop (fuel - (n + 1)) X (P ++ groupBytes ip i (n + 1))
            (some (P ++ groupBytes ip i (n + 1)).length) := by
  induction n with
  | zero =>
    intro i fuel P X hP hf
    obtain ⟨f, rfl⟩ : ∃ f, fuel = f + 1 := ⟨fuel - 1, by omega⟩
    rw [parseIPv6_loop_step f _ (v6u16_lt ip hb i) _
      (by simp only [colonGroups, List.nil_append]; exact GroupEnd_cons_colon _) P (by omega) none]
    cases X <;> simp [colonGroups, groupBytes, parseIPv6.afterGroup]
  | succ n ih =>
    intro i fuel P X hP hf
    obtain ⟨f, rfl⟩ : ∃ f, fuel = f + 1 := ⟨fuel - 1, by omega⟩
    have hcolon : colonGroups ip (i + 1) (n + 1) ++ ':' :: ':' :: X
        = ':' :: (appendHex [] (v6u16 ip (i + 1))
            ++ (colonGroups ip (i + 1 + 1) n ++ ':' :: ':' :: X)) := by
      simp [colonGroups]
    rw [hcolon, parseIPv6_loop_step f _ (v6u16_lt ip hb i) _ (GroupEnd_cons_colon _) P
      (by omega) none]
    obtain ⟨d, tl, hd, htl⟩ := appendHex_head (v6u16 ip (i + 1)) (v6u16_lt ip hb (i + 1))
    have hc := (digitChar_hex d hd).2.2.1
    have ih1 := ih (i + 1) f (P ++ [v6u16 ip i / 256, v6u16 ip i % 256]) X
      (by simp; omega) (by omega)
    rw [htl] at ih1 ⊢
    simp only [parseIPv6.afterGroup, List.cons_append, bne_self_eq_false, Bool.false_eq_true,
      if_false, hc]
    simp only [List.cons_append] at ih1
    rw [ih1]
    have e : f + 1 - (n + 1 + 1) = f - (n + 1) := by omega
    cases X <;> simp [groupBytes, e]
/-- The second loop of `appendTo6` past the zero run (or without one): the
remaining groups, each after a colon. -/
theorem appendTo6_go_tail (ip : List Nat) (zs ze : Nat) (n : Nat) :
    ∀ (fuel i : Nat) (ret : List Char), (zs < i ∨ 8 ≤ zs) → 0 < i → i + n = 8 → n ≤ fuel →
      appendTo6.go ip zs ze fuel i ret = ret ++ colonGroups ip i n := by
  induction n with
  | zero =>
    intro fuel i ret _ _ hi _
    have h8 : ¬ i < 8 := by omega
    cases fuel with
    | zero => simp [appendTo6.go, colonGroups]
    | succ f => simp [appendTo6.go, colonGroups, h8]
  | succ n ih =>
    intro fuel i ret hz h0 hi hf
    obtain ⟨f, rfl⟩ : ∃ f, fuel = f + 1 := ⟨fuel - 1, by omega⟩
    have h8 : ¬ ¬ i < 8 := by omega
    have hne : (i == zs) = false := by
      simp only [beq_eq_false_iff_ne, ne_eq]; omega
    have hpos : i > 0 := h0
    rw [appendTo6.go]
    simp only [h8, if_false, hne, Bool.false_eq_true, hpos, if_true]
    rw [ih f (i + 1) _ (by omega) (by omega) (by omega) (by omega), appendHex_eq]
    simp [colonGroups]

/-- The second loop of `appendTo6` before the zero run: the groups up to the run,
`::`, and what follows the run. -/
theorem appendTo6_go_head (ip : List Nat) (zs ze : Nat) (hz : zs < ze) (hz8 : zs < 8) (n : Nat) :
    ∀ (fuel i : Nat) (ret : List Char), 0 < i → i + n = zs → 8 - i ≤ fuel →
      appendTo6.go ip zs ze fuel i ret =
        ret ++ (colonGroups ip i n ++ ':' :: ':' :: afterRun ip ze) := by
  induction n with
  | zero =>
    intro fuel i ret h0 hi hf
    obtain ⟨f, rfl⟩ : ∃ f, fuel = f + 1 := ⟨fuel - 1, by omega⟩
    have h8 : ¬ ¬ i < 8 := by omega
    have he : (i == zs) = true := by simp; omega
    rw [appendTo6.go]
    simp only [h8, if_false, he, if_true]
    by_cases hze : ze ≥ 8
    · simp [hze, afterRun, colonGroups]
    · simp only [hze, if_false]
      rw [appendTo6_go_tail ip zs ze (7 - ze) f (ze + 1) _ (by omega) (by omega) (by omega)
        (by omega), appendHex_eq]
      simp [afterRun, hze, colonGroups]
  | succ n ih =>
    intro fuel i ret h0 hi hf
    obtain ⟨f, rfl⟩ : ∃ f, fuel = f + 1 := ⟨fuel - 1, by omega⟩
    have h8 : ¬ ¬ i < 8 := by omega
    have hne : (i == zs) = false := by
      simp only [beq_eq_false_iff_ne, ne_eq]; omega
    have hpos : i > 0 := h0
    rw [appendTo6.go]
    simp only [h8, if_false, hne, Bool.false_eq_true, hpos, if_true]
    rw [ih f (i + 1) _ (by omega) (by omega) (by omega), appendHex_eq]
    simp [colonGroups]

/-- The text `appendTo6` prints, by the position of the zero run. -/
theorem appendTo6_text (ip : List Nat) (zs ze : Nat) (hrun : zeroRun ip = (zs, ze))
    (hz : 8 ≤ zs ∨ zs < ze) :
    appendTo6 [] ip =
      if zs = 0 then ':' :: ':' :: afterRun ip ze
      else if zs < 8 then
        appendHex [] (v6u16 ip 0) ++ (colonGroups ip 1 (zs - 1) ++ ':' :: ':' :: afterRun ip ze)
      else appendHex [] (v6u16 ip 0) ++ colonGroups ip 1 7 := by
  unfold appendTo6
  rw [hrun]
  dsimp only
  by_cases h0 : zs = 0
  · subst h0
    have hlt : 0 < ze := by omega
    rw [appendTo6.go]
    simp only [if_true]
    by_cases hze : ze ≥ 8
    · simp [hze, afterRun]
    · simp only [hze, if_false]
      rw [appendTo6_go_tail ip 0 ze (7 - ze) 7 (ze + 1) _ (by omega) (by omega) (by omega)
        (by omega), appendHex_eq]
      simp [afterRun, hze]
  · have hne : ((0 : Nat) == zs) = false := by
      simp only [beq_eq_false_iff_ne, ne_eq]; omega
    rw [appendTo6.go]
    simp only [h0, if_false, hne, Bool.false_eq_true]
    by_cases h8 : zs < 8
    · have hlt : zs < ze := by omega
      simp only [h8, if_true]
      rw [appendTo6_go_head ip zs ze hlt h8 (zs - 1) 7 1 _ (by omega) (by omega) (by omega),
        appendHex_eq]
      simp
    · simp only [h8, if_false]
      rw [appendTo6_go_tail ip zs ze 7 7 1 _ (by omega) (by omega) (by omega) (by omega),
        appendHex_eq]
      simp

theorem zeroRunLen_spec (ip : List Nat) (fuel : Nat) :
    ∀ j, zeroRunLen ip fuel j ≤ fuel ∧
      ∀ k, j ≤ k → k < j + zeroRunLen ip fuel j → v6u16 ip k = 0 := by
  induction fuel with
  | zero =>
    intro j
    simp only [zeroRunLen]
    exact ⟨le_refl _, fun k h1 h2 => by omega⟩
  | succ f ih =>
    intro j
    by_cases h : v6u16 ip j = 0
    · obtain ⟨h1, h2⟩ := ih (j + 1)
      simp only [zeroRunLen, h, beq_self_eq_true, if_true]
      refine ⟨by omega, ?_⟩
      intro k hk1 hk2
      by_cases hkj : k = j
      · subst hkj; exact h
      · exact h2 k (by omega) (by omega)
    · have hb : (v6u16 ip j == 0) = false := by simpa using h
      simp only [zeroRunLen, hb, Bool.false_eq_true, if_false]
      refine ⟨by omega, ?_⟩
      intro k hk1 hk2
      omega

/-- The zero run `appendTo6` elides: none (both 255), or at least two groups, all
zero, inside the address. -/
theorem zeroRun_spec (ip : List Nat) :
    zeroRun ip = (255, 255) ∨
      ((zeroRun ip).1 + 2 ≤ (zeroRun ip).2 ∧ (zeroRun ip).2 ≤ 8 ∧
        ∀ k, (zeroRun ip).1 ≤ k → k < (zeroRun ip).2 → v6u16 ip k = 0) := by
  have key : ∀ (l : List Nat) (z : Nat × Nat),
      (∀ i ∈ l, i < 8) →
      (z = (255, 255) ∨ (z.1 + 2 ≤ z.2 ∧ z.2 ≤ 8 ∧ ∀ k, z.1 ≤ k → k < z.2 → v6u16 ip k = 0)) →
      (l.foldl (fun (z : Nat × Nat) i =>
          if zeroRunLen ip (8 - i) i ≥ 2 ∧ zeroRunLen ip (8 - i) i > z.2 - z.1
            then (i, i + zeroRunLen ip (8 - i) i) else z) z = (255, 255) ∨
        ((l.foldl (fun (z : Nat × Nat) i =>
          if zeroRunLen ip (8 - i) i ≥ 2 ∧ zeroRunLen ip (8 - i) i > z.2 - z.1
            then (i, i + zeroRunLen ip (8 - i) i) else z) z).1 + 2 ≤
          (l.foldl (fun (z : Nat × Nat) i =>
          if zeroRunLen ip (8 - i) i ≥ 2 ∧ zeroRunLen ip (8 - i) i > z.2 - z.1
            then (i, i + zeroRunLen ip (8 - i) i) else z) z).2 ∧
         (l.foldl (fun (z : Nat × Nat) i =>
          if zeroRunLen ip (8 - i) i ≥ 2 ∧ zeroRunLen ip (8 - i) i > z.2 - z.1
            then (i, i + zeroRunLen ip (8 - i) i) else z) z).2 ≤ 8 ∧
         ∀ k, (l.foldl (fun (z : Nat × Nat) i =>
          if zeroRunLen ip (8 - i) i ≥ 2 ∧ zeroRunLen ip (8 - i) i > z.2 - z.1
            then (i, i + zeroRunLen ip (8 - i) i) else z) z).1 ≤ k →
           k < (l.foldl (fun (z : Nat × Nat) i =>
          if zeroRunLen ip (8 - i) i ≥ 2 ∧ zeroRunLen ip (8 - i) i > z.2 - z.1
            then (i, i + zeroRunLen ip (8 - i) i) else z) z).2 → v6u16 ip k = 0)) := by
    intro l
    induction l with
    | nil => intro z _ hz; simpa using hz
    | cons i l ih =>
      intro z hl hz
      rw [List.foldl_cons]
      apply ih _ (fun j hj => hl j (List.mem_cons_of_mem _ hj))
      have hi : i < 8 := hl i (List.mem_cons_self _ _)
      obtain ⟨h1, h2⟩ := zeroRunLen_spec ip (8 - i) i
      split
      · rename_i hc
        right
        exact ⟨by simp; omega, by simp; omega, fun k hk1 hk2 => h2 k hk1 hk2⟩
      · exact hz
  unfold zeroRun
  exact key (List.range 8) (255, 255) (fun i hi => List.mem_range.mp hi) (Or.inl rfl)
theorem groupBytes_length (ip : List Nat) (n : Nat) :
    ∀ i, (groupBytes ip i n).length = 2 * n := by
  induction n with
  | zero => intro i; rfl
  | succ n ih => intro i; simp [groupBytes, ih]; omega

theorem groupBytes_add (ip : List Nat) (n m : Nat) :
    ∀ i, groupBytes ip i (n + m) = groupBytes ip i n ++ groupBytes ip (i + n) m := by
  induction n with
  | zero => intro i; simp [groupBytes]
  | succ n ih =>
    intro i
    have e : n + 1 + m = (n + m) + 1 := by omega
    rw [e]
    simp only [groupBytes, List.cons_append, ih (i + 1)]
    have e2 : i + 1 + n = i + (n + 1) := by omega
    rw [e2]

theorem groupBytes_zero (ip : List Nat) (n : Nat) :
    ∀ i, (∀ k, i ≤ k → k < i + n → v6u16 ip k = 0) →
      groupBytes ip i n = List.replicate (2 * n) 0 := by
  induction n with
  | zero => intro i _; rfl
  | succ n ih =>
    intro i h
    have h0 : v6u16 ip i = 0 := h i (le_refl _) (by omega)
    have e : 2 * (n + 1) = 2 * n + 1 + 1 := by omega
    rw [e]
    simp only [groupBytes, h0, List.replicate_succ]
    rw [ih (i + 1) (fun k hk1 hk2 => h k (by omega) (by omega))]

theorem groupBytes_all (ip : List Nat) (hip : IsBytes 16 ip) : groupBytes ip 0 8 = ip := by
  obtain ⟨hlen, hb⟩ := hip
  match ip, hlen with
  | [b0, b1, b2, b3, b4, b5, b6, b7, b8, b9, b10, b11, b12, b13, b14, b15], _ =>
    have key : ∀ a b : Nat, b < 256 → (a * 256 + b) / 256 = a ∧ (a * 256 + b) % 256 = b := by
      intro a b hb
      omega
    have h1 := hb b1 (by simp)
    have h3 := hb b3 (by simp)
    have h5 := hb b5 (by simp)
    have h7 := hb b7 (by simp)
    have h9 := hb b9 (by simp)
    have h11 := hb b11 (by simp)
    have h13 := hb b13 (by simp)
    have h15 := hb b15 (by simp)
    simp [groupBytes, v6u16, key _ _ h1, key _ _ h3, key _ _ h5, key _ _ h7, key _ _ h9,
      key _ _ h11, key _ _ h13, key _ _ h15]

/-- The address rebuilt from the groups outside the zero run and zeros inside it. -/
theorem groupBytes_rebuild (ip : List Nat) (hip : IsBytes 16 ip) (zs ze : Nat)
    (h1 : zs ≤ ze) (h2 : ze ≤ 8) (hz : ∀ k, zs ≤ k → k < ze → v6u16 ip k = 0) :
    groupBytes ip 0 zs ++ (List.replicate (2 * (ze - zs)) 0 ++ groupBytes ip ze (8 - ze)) = ip := by
  have e : 8 = zs + ((ze - zs) + (8 - ze)) := by omega
  have hall := groupBytes_all ip hip
  rw [e, groupBytes_add, groupBytes_add] at hall
  rw [groupBytes_zero ip (ze - zs) (0 + zs) (fun k hk1 hk2 => hz k (by omega) (by omega))] at hall
  have e2 : 0 + zs + (ze - zs) = ze := by omega
  rw [e2] at hall
  exact hall

theorem appendHex_chars (x : Nat) (hx : x < 65536) :
    ∀ c ∈ appendHex [] x, (c == '.') = false ∧ (c == '%') = false := by
  intro c hc
  have key : ∀ d < 16, c = digitChar d → (c == '.') = false ∧ (c == '%') = false := by
    intro d hd e
    subst e
    exact ⟨(digitChar_hex d hd).2.1, (digitChar_hex d hd).2.2.2⟩
  rcases appendHex_cases x with h | h | h | h
  · rw [h.2] at hc; simp at hc
    exact key _ h.1 hc
  · rw [h.2.2] at hc; simp at hc
    rcases hc with hc | hc
    · exact key _ (by omega) hc
    · exact key _ (by omega) hc
  · rw [h.2.2] at hc; simp at hc
    rcases hc with hc | hc | hc
    · exact key _ (by omega) hc
    · exact key _ (by omega) hc
    · exact key _ (by omega) hc
  · rw [h.2] at hc; simp at hc
    rcases hc with hc | hc | hc | hc
    · exact key _ (by omega) hc
    · exact key _ (by omega) hc
    · exact key _ (by omega) hc
    · exact key _ (by omega) hc

theorem colonGroups_chars (ip : List Nat) (hb : ∀ x ∈ ip, x < 256) (n : Nat) :
    ∀ i, ∀ c ∈ colonGroups ip i n, (c == '.') = false ∧ (c == '%') = false := by
  induction n with
  | zero => intro i c hc; simp [colonGroups] at hc
  | succ n ih =>
    intro i c hc
    simp only [colonGroups, List.mem_cons, List.mem_append] at hc
    rcases hc with hc | hc | hc
    · subst hc; exact ⟨by decide, by decide⟩
    · exact appendHex_chars _ (v6u16_lt ip hb i) c hc
    · exact ih (i + 1) c hc

theorem afterRun_chars (ip : List Nat) (hb : ∀ x ∈ ip, x < 256) (ze : Nat) :
    ∀ c ∈ afterRun ip ze, (c == '.') = false ∧ (c == '%') = false := by
  intro c hc
  unfold afterRun at hc
  split at hc
  · simp at hc
  · rcases List.mem_append.mp hc with hc | hc
    · exact appendHex_chars _ (v6u16_lt ip hb ze) c hc
    · exact colonGroups_chars ip hb _ _ c hc

theorem splitZone_of_no_zone (l : List Char) (h : ∀ c ∈ l, (c == '%') = false) :
    splitZone l = (l, none) := by
  induction l with
  | nil => rfl
  | cons c cs ih =>
    have hc := h c (List.mem_cons_self _ _)
    have ih1 := ih (fun x hx => h x (List.mem_cons_of_mem _ hx))
    simp [splitZone, hc, ih1]

theorem ParseAddr_go_colon (whole s : List Char)
    (hs : ∀ c ∈ s, (c == '.') = false ∧ (c == '%') = false) (hc : ':' ∈ s) :
    ParseAddr.go whole s = parseIPv6 whole := by
  induction s with
  | nil => simp at hc
  | cons c cs ih =>
    obtain ⟨h1, h2⟩ := hs c (List.mem_cons_self _ _)
    by_cases hcc : c = ':'
    · subst hcc
      simp [ParseAddr.go]
    · have h3 : (c == ':') = false := by simpa using hcc
      simp only [ParseAddr.go, h1, h2, h3, Bool.false_eq_true, if_false]
      apply ih (fun x hx => hs x (List.mem_cons_of_mem _ hx))
      rcases List.mem_cons.mp hc with hc | hc
      · exact absurd hc.symm hcc
      · exact hc

theorem parseIPv6_finish_of_loop (s : List Char) (ell : Option Nat) (P : List Nat)
    (ell1 : Option Nat) (h : parseIPv6.loop 8 s [] ell = some ([], P, ell1)) :
    parseIPv6.finish s ell =
      if P.length < 16 then
        ell1.map (fun e => P.take e ++ List.replicate (16 - P.length) 0 ++ P.drop e)
      else if ell1.isSome then none
      else some P := by
  unfold parseIPv6.finish
  rw [h]
  cases ell1 <;> simp
theorem afterRun_eq_nil (ip : List Nat) (ze : Nat) (h : ze ≥ 8) : afterRun ip ze = [] := by
  simp [afterRun, h]

theorem afterRun_eq (ip : List Nat) (ze : Nat) (h : ze < 8) :
    afterRun ip ze = appendHex [] (v6u16 ip ze) ++ colonGroups ip (ze + 1) (7 - ze) := by
  have h8 : ¬ ze ≥ 8 := by omega
  simp [afterRun, h8]

/-- The text of `parseIPv6` after a leading `::`, or the whole text when there is
none: groups, possibly `::`, groups. -/
theorem parseIPv6_finish_text (ip : List Nat) (hip : IsBytes 16 ip) (zs ze : Nat)
    (hrun : 8 ≤ zs ∨ (zs + 2 ≤ ze ∧ ze ≤ 8 ∧ ∀ k, zs ≤ k → k < ze → v6u16 ip k = 0)) :
    (zs = 0 → ze < 8 → parseIPv6.finish (afterRun ip ze) (some 0) = some ip) ∧
    (0 < zs → zs < 8 →
      parseIPv6.finish (appendHex [] (v6u16 ip 0)
        ++ (colonGroups ip 1 (zs - 1) ++ ':' :: ':' :: afterRun ip ze)) none = some ip) ∧
    (8 ≤ zs →
      parseIPv6.finish (appendHex [] (v6u16 ip 0) ++ colonGroups ip 1 7) none = some ip) := by
  have hb := hip.2
  refine ⟨?_, ?_, ?_⟩
  · intro h0 hze
    subst h0
    rcases hrun with hrun | ⟨hr1, hr2, hr3⟩
    · omega
    · have hloop := parseIPv6_loop_groups ip hb (7 - ze) ze 8 [] (some 0)
        (by simp; omega) (by omega)
      have e1 : ze + 1 = ze + 1 := rfl
      rw [← afterRun_eq ip ze hze] at hloop
      rw [parseIPv6_finish_of_loop _ _ _ _ hloop]
      have e2 : 7 - ze + 1 = 8 - ze := by omega
      simp only [List.nil_append, e2, groupBytes_length]
      have hlt : 2 * (8 - ze) < 16 := by omega
      simp only [hlt, if_true, Option.map_some', List.take_zero, List.drop_zero, List.nil_append]
      have hreb := groupBytes_rebuild ip hip 0 ze (by omega) hr2 hr3
      simp only [groupBytes, List.nil_append, Nat.sub_zero] at hreb
      have e3 : 16 - 2 * (8 - ze) = 2 * ze := by omega
      rw [e3]
      exact congrArg some hreb
  · intro h0 h8
    rcases hrun with hrun | ⟨hr1, hr2, hr3⟩
    · omega
    · have hstep := parseIPv6_loop_groups_ellipsis ip hb (zs - 1) 0 8 [] (afterRun ip ze)
        (by simp; omega) (by omega)
      have e1 : zs - 1 + 1 = zs := by omega
      simp only [List.nil_append, e1, Nat.zero_add, groupBytes_length] at hstep
      have hreb := groupBytes_rebuild ip hip zs ze (by omega) hr2 hr3
      by_cases hze : ze < 8
      · have hloop := parseIPv6_loop_groups ip hb (7 - ze) ze (8 - zs) (groupBytes ip 0 zs)
          (some (2 * zs)) (by rw [groupBytes_length]; omega) (by omega)
        rw [← afterRun_eq ip ze hze] at hloop
        have hne : afterRun ip ze ≠ [] := by
          rw [afterRun_eq ip ze hze]
          obtain ⟨d, tl, _, htl⟩ := appendHex_head (v6u16 ip ze) (v6u16_lt ip hb ze)
          rw [htl]; simp
        have hstep2 : parseIPv6.loop 8 (appendHex [] (v6u16 ip 0)
            ++ (colonGroups ip 1 (zs - 1) ++ ':' :: ':' :: afterRun ip ze)) [] none
            = some ([], groupBytes ip 0 zs ++ groupBytes ip ze (7 - ze + 1), some (2 * zs)) := by
          rw [hstep]
          cases hX : afterRun ip ze with
          | nil => exact absurd hX hne
          | cons c cs =>
            simp only
            rw [← hX, hloop]
        rw [parseIPv6_finish_of_loop _ _ _ _ hstep2]
        have e2 : 7 - ze + 1 = 8 - ze := by omega
        simp only [e2, List.length_append, groupBytes_length]
        have hlt : 2 * zs + 2 * (8 - ze) < 16 := by omega
        simp only [hlt, if_true, Option.map_some']
        have ht : List.take (2 * zs) (groupBytes ip 0 zs ++ groupBytes ip ze (8 - ze))
            = groupBytes ip 0 zs := by
          rw [List.take_append_of_le_length (by rw [groupBytes_length])]
          exact List.take_of_length_le (by rw [groupBytes_length])
        have hd : List.drop (2 * zs) (groupBytes ip 0 zs ++ groupBytes ip ze (8 - ze))
            = groupBytes ip ze (8 - ze) := by
          rw [List.drop_append_of_le_length (by rw [groupBytes_length])]
          rw [List.drop_of_length_le (by rw [groupBytes_length])]
          simp
        have e3 : 16 - (2 * zs + 2 * (8 - ze)) = 2 * (ze - zs) := by omega
        rw [ht, hd, e3, List.append_assoc]
        exact congrArg some hreb
      · have hnil : afterRun ip ze = [] := afterRun_eq_nil ip ze (by omega)
        have hstep2 : parseIPv6.loop 8 (appendHex [] (v6u16 ip 0)
            ++ (colonGroups ip 1 (zs - 1) ++ ':' :: ':' :: afterRun ip ze)) [] none
            = some ([], groupBytes ip 0 zs, some (2 * zs)) := by
          rw [hstep, hnil]
        rw [parseIPv6_finish_of_loop _ _ _ _ hstep2]
        simp only [groupBytes_length]
        have hlt : 2 * zs < 16 := by omega
        simp only [hlt, if_true, Option.map_some']
        have ht : List.take (2 * zs) (groupBytes ip 0 zs) = groupBytes ip 0 zs :=
          List.take_of_length_le (by rw [groupBytes_length])
        have hd : List.drop (2 * zs) (groupBytes ip 0 zs) = [] :=
          List.drop_of_length_le (by rw [groupBytes_length])
        have e8 : ze = 8 := by omega
        subst e8
        have e3 : 16 - 2 * zs = 2 * (8 - zs) := by omega
        rw [ht, hd, e3]
        simp only [Nat.sub_self, groupBytes, List.append_nil] at hreb ⊢
        exact congrArg some hreb
  · intro h8
    have hloop := parseIPv6_loop_groups ip hb 7 0 8 [] none (by simp) (by omega)
    simp only [List.nil_append, Nat.zero_add] at hloop
    rw [parseIPv6_finish_of_loop _ _ _ _ hloop]
    simp [groupBytes_length, groupBytes_all ip hip, hip.1]
/-- The text `appendTo6` prints has a colon and neither `.` nor `%`. -/
theorem appendTo6_chars (ip : List Nat) (hip : IsBytes 16 ip) :
    (∀ c ∈ appendTo6 [] ip, (c == '.') = false ∧ (c == '%') = false) ∧
      ':' ∈ appendTo6 [] ip := by
  have hb := hip.2
  have hcolon : ∀ c : Char, c = ':' → (c == '.') = false ∧ (c == '%') = false := by
    intro c hc; subst hc; exact ⟨by decide, by decide⟩
  have hrun := zeroRun_spec ip
  have htext := appendTo6_text ip (zeroRun ip).1 (zeroRun ip).2 rfl
    (by rcases hrun with h | h
        · left; rw [h]; decide
        · right; omega)
  rw [htext]
  split
  · refine ⟨?_, by simp⟩
    intro c hc
    simp only [List.mem_cons] at hc
    rcases hc with hc | hc | hc
    · exact hcolon c hc
    · exact hcolon c hc
    · exact afterRun_chars ip hb _ c hc
  · split
    · refine ⟨?_, by simp⟩
      intro c hc
      simp only [List.mem_append, List.mem_cons] at hc
      rcases hc with hc | hc | hc | hc | hc
      · exact appendHex_chars _ (v6u16_lt ip hb 0) c hc
      · exact colonGroups_chars ip hb _ _ c hc
      · exact hcolon c hc
      · exact hcolon c hc
      · exact afterRun_chars ip hb _ c hc
    · refine ⟨?_, by simp [colonGroups]⟩
      intro c hc
      rcases List.mem_append.mp hc with hc | hc
      · exact appendHex_chars _ (v6u16_lt ip hb 0) c hc
      · exact colonGroups_chars ip hb _ _ c hc

/-- A 16-byte address printed by `appendTo6` is read back by `parseIPv6` as the same
address, without zone. -/
theorem parseIPv6_appendTo6 (ip : List Nat) (hip : IsBytes 16 ip) :
    parseIPv6 (appendTo6 [] ip) = some (Addr.v6 ip []) := by
  have hb := hip.2
  have hchars := (appendTo6_chars ip hip).1
  have hsz := splitZone_of_no_zone (appendTo6 [] ip) (fun c hc => (hchars c hc).2)
  have hrun := zeroRun_spec ip
  have hrun1 : 8 ≤ (zeroRun ip).1 ∨ ((zeroRun ip).1 + 2 ≤ (zeroRun ip).2 ∧ (zeroRun ip).2 ≤ 8 ∧
      ∀ k, (zeroRun ip).1 ≤ k → k < (zeroRun ip).2 → v6u16 ip k = 0) := by
    rcases hrun with h | h
    · left; rw [h]; decide
    · right; exact h
  have htext := appendTo6_text ip (zeroRun ip).1 (zeroRun ip).2 rfl
    (by rcases hrun1 with h | h
        · left; exact h
        · right; omega)
  obtain ⟨hf0, hf1, hf2⟩ := parseIPv6_finish_text ip hip (zeroRun ip).1 (zeroRun ip).2 hrun1
  unfold parseIPv6
  rw [hsz]
  dsimp only
  obtain ⟨d, tl, hd, htl⟩ := appendHex_head (v6u16 ip 0) (v6u16_lt ip hb 0)
  have hdc : digitChar d ≠ ':' := by
    have := (digitChar_hex d hd).2.2.1
    simpa using this
  by_cases h0 : (zeroRun ip).1 = 0
  · rw [htext]
    simp only [h0, if_true, Option.getD_none]
    by_cases hze : (zeroRun ip).2 < 8
    · have hne : afterRun ip (zeroRun ip).2 ≠ [] := by
        rw [afterRun_eq ip _ hze]
        obtain ⟨d1, tl1, _, htl1⟩ := appendHex_head (v6u16 ip (zeroRun ip).2)
          (v6u16_lt ip hb _)
        rw [htl1]; simp
      have hemp : (afterRun ip (zeroRun ip).2).isEmpty = false := by
        cases hX : afterRun ip (zeroRun ip).2 with
        | nil => exact absurd hX hne
        | cons c cs => rfl
      simp only [hemp, Bool.false_eq_true, if_false, hf0 h0 hze, Option.map_some']
    · have hnil := afterRun_eq_nil ip (zeroRun ip).2 (by omega)
      rcases hrun1 with h | ⟨h1, h2, h3⟩
      · omega
      · have e8 : (zeroRun ip).2 = 8 := by omega
        have hreb := groupBytes_rebuild ip hip 0 8 (by omega) (by omega)
          (fun k hk1 hk2 => h3 k (by omega) (by omega))
        simp only [groupBytes, Nat.sub_zero, Nat.sub_self, List.nil_append,
          List.append_nil] at hreb
        simp only [hnil, List.isEmpty_nil, if_true]
        rw [← hreb]
  · by_cases h8 : (zeroRun ip).1 < 8
    · have hfin := hf1 (by omega) h8
      rw [htext]
      simp only [h0, if_false, h8, if_true, Option.getD_none]
      rw [htl] at hfin ⊢
      simp only [List.cons_append] at hfin ⊢
      split
      · rename_i heq
        simp only [List.cons.injEq] at heq
        exact absurd heq.1 hdc
      · rw [hfin]; rfl
    · have hfin := hf2 (by omega)
      rw [htext]
      simp only [h0, if_false, h8, Option.getD_none]
      rw [htl] at hfin ⊢
      simp only [List.cons_append] at hfin ⊢
      split
      · rename_i heq
        simp only [List.cons.injEq] at heq
        exact absurd heq.1 hdc
      · rw [hfin]; rfl

theorem ParseIP_appendTo6 (ip : List Nat) (hip : IsBytes 16 ip) :
    ParseIP ⟨appendTo6 [] ip⟩ = ip := by
  obtain ⟨h1, h2⟩ := appendTo6_chars ip hip
  have hp : ParseAddr (appendTo6 [] ip) = some (Addr.v6 ip []) := by
    unfold ParseAddr
    rw [ParseAddr_go_colon _ _ h1 h2, parseIPv6_appendTo6 ip hip]
  simp [ParseIP, hp, Addr.Zone, Addr.As16]

theorem To4_length (ip : IP) (hlen : ip.length = 16) :
    (IP.To4 ip).length = 4 ∨ IP.To4 ip = [] := by
  unfold IP.To4
  simp only [hlen, IPv4len, IPv6len]
  split
  · rename_i h; simp at h
  · split
    · left; simp [hlen]
    · right; rfl

theorem Is4In6_of_To4_nil (ip : IP) (hlen : ip.length = 16) (h : IP.To4 ip = []) :
    Is4In6 ip = false := by
  match ip, hlen with
  | [b0, b1, b2, b3, b4, b5, b6, b7, b8, b9, b10, b11, a, b, c, d], _ =>
    simp [IP.To4, IPv4len, IPv6len] at h
    simp [Is4In6, v4InV6Prefix]
    exact h

/-- An address without IPv4 form is printed in IPv6 notation and read back as
itself: `isIPv6` is true on its text. -/
theorem isIPv6_String_of_not_To4 (ip : IP) (hip : IsBytes 16 ip) (h4 : IP.To4 ip = []) :
    isIPv6 (IP.String ip) = true := by
  have hs : IP.String ip = ⟨appendTo6 [] ip⟩ := by
    unfold IP.String
    simp [hip.1, h4, IPv4len, IPv6len, Is4In6_of_To4_nil ip hip.1 h4]
  rw [hs, isIPv6, ParseIP_appendTo6 ip hip, h4]
  rfl

theorem As16_isBytes (a : Addr) (hwf : a.WF) : IsBytes 16 a.As16 := by
  cases a with
  | v4 f =>
    obtain ⟨hl, hb⟩ := hwf
    refine ⟨by simp [Addr.As16, v4InV6Prefix, hl], ?_⟩
    intro x hx
    simp only [Addr.As16, List.mem_append] at hx
    rcases hx with hx | hx
    · simp [v4InV6Prefix] at hx
      rcases hx with hx | hx <;> omega
    · exact hb x hx
  | v6 b z => exact hwf

/-- On a decoded range `isIPv6CIDR` is true exactly when the parsed address has no
IPv4 form. -/
theorem isIPv6CIDR_of_parts (s : String) (a : Addr) (n : Nat)
    (h : ParseCIDR.parts s = some (a, n)) :
    isIPv6CIDR s = decide (IP.To4 a.As16 = []) := by
  obtain ⟨hwf, _, _⟩ := ParseCIDR_parts_shape s a n h
  have hip := As16_isBytes a hwf
  simp only [isIPv6CIDR, ParseCIDR, h]
  by_cases h4 : IP.To4 a.As16 = []
  · rw [isIPv6_String_of_not_To4 _ hip h4]; simp [h4]
  · rw [isIPv6_String_of_To4 _ hip h4]; simp [h4]

theorem isIPv6CIDR_of_IPv6CIDR (s : String) (h : IPv6CIDR s) : isIPv6CIDR s = true := by
  obtain ⟨a, n, hp, h4⟩ := h
  rw [isIPv6CIDR_of_parts s a n hp]
  simp [h4]

theorem isIPv6CIDR_of_IPv4CIDR (s : String) (h : IPv4CIDR s) : isIPv6CIDR s = false := by
  obtain ⟨a, n, hp, h4⟩ := h
  rw [isIPv6CIDR_of_parts s a n hp]
  simp [h4]
/-! ## Lemmas on `validate` -/

theorem validate_loop_none (enableIPv6 : Bool) (l : List String)
    (h : ∀ s ∈ l, validateCIDR s = none ∧ (enableIPv6 = true ∨ isIPv6CIDR s = false)) :
    MasqConfig.validate.loop enableIPv6 l = none := by
  induction l with
  | nil => rfl
  | cons s rest ih =>
    obtain ⟨h1, h2⟩ := h s (List.mem_cons_self _ _)
    have hc : (!enableIPv6 && isIPv6CIDR s) = false := by
      rcases h2 with h2 | h2 <;> simp [h2]
    simp only [MasqConfig.validate.loop, h1, hc, Bool.false_eq_true, if_false]
    exact ih (fun t ht => h t (List.mem_cons_of_mem _ ht))

theorem syncConfig_loop_skip (w : World) (name : String) (rest : List String) (k : Nat)
    (c : MasqConfig) (a : Bool) (h : isConfigFile name = false) :
    syncConfig.loop w (name :: rest) k c a = syncConfig.loop w rest k c a := by
  unfold isConfigFile at h
  simp [syncConfig.loop, h]

theorem syncConfig_loop_match (w : World) (name : String) (rest : List String) (k : Nat)
    (c : MasqConfig) (a : Bool) (h : isConfigFile name = true) :
    syncConfig.loop w (name :: rest) k c a =
      match w.decodeFile name with
      | .error err => .error err
      | .ok newConfig =>
        syncConfig.loop w rest (k + 1) (MasqConfig.merge (w.mapOrder k) c newConfig) true := by
  unfold isConfigFile at h
  rw [syncConfig.loop]
  simp only [h, if_true, World.decodeFile]
  cases w.ReadFile (w.PathJoin configPath name) with
  | error e => rfl
  | ok yaml =>
    dsimp only
    cases w.ToJSON yaml with
    | error e => rfl
    | ok json =>
      dsimp only
      cases w.Unmarshal json with
      | error e => rfl
      | ok n => rfl

/-- The loop of `syncConfig` sees only the entries whose name has the prefix. -/
theorem syncConfig_loop_filter (w : World) (files : List String) :
    ∀ (k : Nat) (c : MasqConfig) (a : Bool),
      syncConfig.loop w files k c a = syncConfig.loop w (files.filter isConfigFile) k c a := by
  induction files with
  | nil => intro k c a; rfl
  | cons name rest ih =>
    intro k c a
    cases h : isConfigFile name with
    | false =>
      rw [syncConfig_loop_skip w name rest k c a h, List.filter_cons_of_neg (by simp [h])]
      exact ih k c a
    | true =>
      rw [List.filter_cons_of_pos h, syncConfig_loop_match w name rest k c a h,
        syncConfig_loop_match w name _ k c a h]
      cases w.decodeFile name with
      | error e => rfl
      | ok n => exact ih _ _ _

theorem syncConfig_loop_nil (w : World) (k : Nat) (c : MasqConfig) (a : Bool) :
    syncConfig.loop w [] k c a = .ok (c, a) := rfl

/-- Two worlds that decode every matching entry alike and range over maps alike
run the loop alike. -/
theorem syncConfig_loop_congr (w w1 : World) (files : List String)
    (hdec : ∀ name ∈ files, isConfigFile name = true → w.decodeFile name = w1.decodeFile name)
    (hord : w.mapOrder = w1.mapOrder) :
    ∀ (k : Nat) (c : MasqConfig) (a : Bool),
      syncConfig.loop w files k c a = syncConfig.loop w1 files k c a := by
  induction files with
  | nil => intro k c a; rfl
  | cons name rest ih =>
    intro k c a
    have ih1 := ih (fun n hn hm => hdec n (List.mem_cons_of_mem _ hn) hm)
    cases h : isConfigFile name with
    | false =>
      rw [syncConfig_loop_skip w name rest k c a h, syncConfig_loop_skip w1 name rest k c a h]
      exact ih1 k c a
    | true =>
      rw [syncConfig_loop_match w name rest k c a h, syncConfig_loop_match w1 name rest k c a h,
        ← hdec name (List.mem_cons_self _ _) h, ← hord]
      cases w.decodeFile name with
      | error e => rfl
      | ok n => exact ih1 _ _ _

/-- The result of `syncConfig` from the listing and the result of the loop. -/
theorem syncConfig_eq {σ : Type} (w : World) (flags : Flags) (m : MasqDaemon σ)
    (files : List String) (h : w.ReadDir configPath = .ok files) :
    m.syncConfig w flags =
      match syncConfig.loop w files 0 EmptyMasqConfig false with
      | .error err => (some err, m)
      | .ok (c, configAdded) =>
        match (if !configAdded then DefaultMasqConfig flags.noMasqueradeAllReservedRanges
            else c).validate flags.enableIPv6 with
        | some err => (some (Error.invalidConfig err), m)
        | none => (none, { m with config :=
            if !configAdded then DefaultMasqConfig flags.noMasqueradeAllReservedRanges else c }) := by
  unfold MasqDaemon.syncConfig
  simp only [h]

theorem syncConfig_readDir_error {σ : Type} (w : World) (flags : Flags) (m : MasqDaemon σ)
    (e : String) (h : w.ReadDir configPath = .error e) :
    m.syncConfig w flags = (some (Error.readDir e), m) := by
  unfold MasqDaemon.syncConfig
  simp only [h]

/-- After `syncConfig` the daemon differs from the one before at most in its
configuration, which is the old one or one that `validate` accepted. -/
theorem syncConfig_config_cases {σ : Type} (w : World) (flags : Flags) (m : MasqDaemon σ) :
    ((m.syncConfig w flags).1 ≠ none ∧ (m.syncConfig w flags).2 = m) ∨
    ((m.syncConfig w flags).1 = none ∧
      (m.syncConfig w flags).2.config.validate flags.enableIPv6 = none) := by
  cases hd : w.ReadDir configPath with
  | error e => left; rw [syncConfig_readDir_error w flags m e hd]; simp
  | ok files =>
    rw [syncConfig_eq w flags m files hd]
    cases syncConfig.loop w files 0 EmptyMasqConfig false with
    | error e => left; simp
    | ok r =>
      obtain ⟨c, a⟩ := r
      dsimp only
      cases hv : (if (!a) = true then DefaultMasqConfig flags.noMasqueradeAllReservedRanges
          else c).validate flags.enableIPv6 with
      | some e => left; simp
      | none => right; exact ⟨rfl, hv⟩

theorem validate_loop_spec (enableIPv6 : Bool) (l : List String)
    (h : MasqConfig.validate.loop enableIPv6 l = none) :
    ∀ s ∈ l, validateCIDR s = none ∧ (enableIPv6 = true ∨ isIPv6CIDR s = false) := by
  induction l with
  | nil => intro s hs; simp at hs
  | cons t rest ih =>
    simp only [MasqConfig.validate.loop] at h
    cases hv : validateCIDR t with
    | some e => rw [hv] at h; cases h
    | none =>
      rw [hv] at h
      dsimp only at h
      split at h
      · cases h
      · rename_i hc
        intro s hs
        rcases List.mem_cons.mp hs with hs | hs
        · subst hs
          refine ⟨hv, ?_⟩
          cases enableIPv6 <;> cases h6 : isIPv6CIDR s <;> simp [h6] at hc ⊢
        · exact ih h s hs

/-- What `validate` accepting a configuration means. -/
theorem validate_none_spec (enableIPv6 : Bool) (c : MasqConfig)
    (h : c.validate enableIPv6 = none) :
    c.NonMasqueradeCIDRs.length ≤ 64 ∧
    ∀ s ∈ c.NonMasqueradeCIDRs,
      validateCIDR s = none ∧ (enableIPv6 = true ∨ isIPv6CIDR s = false) := by
  unfold MasqConfig.validate at h
  dsimp only at h
  split at h
  · cases h
  · exact ⟨by omega, validate_loop_spec enableIPv6 _ h⟩

theorem IPv4CIDR_of_aligned_not_v6 (s : String) (hal : AlignedCIDR s)
    (h : isIPv6CIDR s = false) : IPv4CIDR s := by
  obtain ⟨a, n, hp, _⟩ := hal
  refine ⟨a, n, hp, ?_⟩
  rw [isIPv6CIDR_of_parts s a n hp] at h
  simpa using h

theorem not_IPv6CIDR_of_IPv4CIDR (s : String) (h : IPv4CIDR s) : ¬ IPv6CIDR s := by
  intro h6
  have h1 := isIPv6CIDR_of_IPv4CIDR s h
  have h2 := isIPv6CIDR_of_IPv6CIDR s h6
  rw [h1] at h2
  cases h2

/-- The invariants of an accepted configuration, in the words of the specification. -/
theorem validate_none_invariants (enableIPv6 : Bool) (c : MasqConfig)
    (h : c.validate enableIPv6 = none) :
    c.NonMasqueradeCIDRs.length ≤ 64 ∧
    (∀ s ∈ c.NonMasqueradeCIDRs, AlignedCIDR s) ∧
    (enableIPv6 = false → ∀ s ∈ c.NonMasqueradeCIDRs, IPv4CIDR s ∧ ¬ IPv6CIDR s) := by
  obtain ⟨hlen, hall⟩ := validate_none_spec enableIPv6 c h
  refine ⟨hlen, fun s hs => (validateCIDR_none_iff_aligned s).mp (hall s hs).1, ?_⟩
  intro he s hs
  obtain ⟨hv, hf⟩ := hall s hs
  have h6 : isIPv6CIDR s = false := by
    rcases hf with hf | hf
    · rw [he] at hf; cases hf
    · exact hf
  have h4 := IPv4CIDR_of_aligned_not_v6 s ((validateCIDR_none_iff_aligned s).mp hv) h6
  exact ⟨h4, not_IPv6CIDR_of_IPv4CIDR s h4⟩

set_option maxRecDepth 100000 in
theorem DefaultMasqConfig_validate (masqAllReservedRanges enableIPv6 : Bool) :
    (DefaultMasqConfig masqAllReservedRanges).validate enableIPv6 = none := by
  cases masqAllReservedRanges <;> cases enableIPv6 <;> decide
theorem syncConfig_loop_keeps (w : World) (s : String) (files : List String) :
    ∀ (k : Nat) (c : MasqConfig) (a : Bool) (r : MasqConfig × Bool),
      syncConfig.loop w files k c a = .ok r →
      (s ∈ c.NonMasqueradeCIDRs → s ∈ r.1.NonMasqueradeCIDRs) ∧ (a = true → r.2 = true) := by
  induction files with
  | nil =>
    intro k c a r h
    rw [syncConfig_loop_nil] at h
    cases h
    exact ⟨id, id⟩
  | cons name rest ih =>
    intro k c a r h
    cases hm : isConfigFile name with
    | false =>
      rw [syncConfig_loop_skip w name rest k c a hm] at h
      exact ih k c a r h
    | true =>
      rw [syncConfig_loop_match w name rest k c a hm] at h
      cases hd : w.decodeFile name with
      | error e => rw [hd] at h; cases h
      | ok n =>
        rw [hd] at h
        obtain ⟨h1, h2⟩ := ih _ _ _ r h
        exact ⟨fun hs => h1 ((mem_merge_cidrs _ c n s).mpr (Or.inl hs)), fun _ => h2 rfl⟩

/-- A range of a matching fragment that decodes is in the configuration the loop
ends with, and `configAdded` is set. -/
theorem syncConfig_loop_collects (w : World) (s name : String) (n : MasqConfig)
    (hmatch : isConfigFile name = true) (hdec : w.decodeFile name = .ok n)
    (hs : s ∈ n.NonMasqueradeCIDRs) (files : List String) :
    ∀ (k : Nat) (c : MasqConfig) (a : Bool) (r : MasqConfig × Bool),
      name ∈ files → syncConfig.loop w files k c a = .ok r →
      s ∈ r.1.NonMasqueradeCIDRs ∧ r.2 = true := by
  induction files with
  | nil => intro k c a r hn; simp at hn
  | cons f rest ih =>
    intro k c a r hn h
    by_cases hf : f = name
    · subst hf
      rw [syncConfig_loop_match w f rest k c a hmatch, hdec] at h
      obtain ⟨h1, h2⟩ := syncConfig_loop_keeps w s rest _ _ _ r h
      exact ⟨h1 ((mem_merge_cidrs _ c n s).mpr (Or.inr hs)), h2 rfl⟩
    · have hn1 : name ∈ rest := by
        rcases List.mem_cons.mp hn with hn | hn
        · exact absurd hn.symm hf
        · exact hn
      cases hm : isConfigFile f with
      | false =>
        rw [syncConfig_loop_skip w f rest k c a hm] at h
        exact ih k c a r hn1 h
      | true =>
        rw [syncConfig_loop_match w f rest k c a hm] at h
        cases hd : w.decodeFile f with
        | error e => rw [hd] at h; cases h
        | ok n1 =>
          rw [hd] at h
          exact ih _ _ _ r hn1 h

/-- The loop succeeds when every matching entry decodes. -/
theorem syncConfig_loop_ok (w : World) (files : List String)
    (hall : ∀ p ∈ files, isConfigFile p = true → ∃ cfg, w.decodeFile p = .ok cfg) :
    ∀ (k : Nat) (c : MasqConfig) (a : Bool), ∃ r, syncConfig.loop w files k c a = .ok r := by
  induction files with
  | nil => intro k c a; exact ⟨(c, a), rfl⟩
  | cons f rest ih =>
    intro k c a
    have ih1 := ih (fun p hp hm => hall p (List.mem_cons_of_mem _ hp) hm)
    cases hm : isConfigFile f with
    | false =>
      rw [syncConfig_loop_skip w f rest k c a hm]
      exact ih1 k c a
    | true =>
      obtain ⟨cfg, hcfg⟩ := hall f (List.mem_cons_self _ _) hm
      rw [syncConfig_loop_match w f rest k c a hm, hcfg]
      exact ih1 _ _ _

/-- The loop stops with the error of the first matching entry that does not decode. -/
theorem syncConfig_loop_first_error (w : World) (name : String) (err : Error)
    (hmatch : isConfigFile name = true) (hdec : w.decodeFile name = .error err)
    (post : List String) (pre : List String)
    (hpre : ∀ p ∈ pre, isConfigFile p = true → ∃ cfg, w.decodeFile p = .ok cfg) :
    ∀ (k : Nat) (c : MasqConfig) (a : Bool),
      syncConfig.loop w (pre ++ name :: post) k c a = .error err := by
  induction pre with
  | nil =>
    intro k c a
    rw [List.nil_append, syncConfig_loop_match w name post k c a hmatch, hdec]
  | cons f rest ih =>
    intro k c a
    have ih1 := ih (fun p hp hm => hpre p (List.mem_cons_of_mem _ hp) hm)
    rw [List.cons_append]
    cases hm : isConfigFile f with
    | false =>
      rw [syncConfig_loop_skip w f _ k c a hm]
      exact ih1 k c a
    | true =>
      obtain ⟨cfg, hcfg⟩ := hpre f (List.mem_cons_self _ _) hm
      rw [syncConfig_loop_match w f _ k c a hm, hcfg]
      exact ih1 _ _ _

/-- The loop fails when some matching entry does not decode. -/
theorem syncConfig_loop_error (w : World) (name : String) (err : Error)
    (hmatch : isConfigFile name = true) (hdec : w.decodeFile name = .error err)
    (files : List String) :
    ∀ (k : Nat) (c : MasqConfig) (a : Bool), name ∈ files →
      ∃ err1, syncConfig.loop w files k c a = .error err1 := by
  induction files with
  | nil => intro k c a hn; simp at hn
  | cons f rest ih =>
    intro k c a hn
    by_cases hf : f = name
    · subst hf
      rw [syncConfig_loop_match w f rest k c a hmatch, hdec]
      exact ⟨err, rfl⟩
    · have hn1 : name ∈ rest := by
        rcases List.mem_cons.mp hn with hn | hn
        · exact absurd hn.symm hf
        · exact hn
      cases hm : isConfigFile f with
      | false =>
        rw [syncConfig_loop_skip w f rest k c a hm]
        exact ih k c a hn1
      | true =>
        rw [syncConfig_loop_match w f rest k c a hm]
        cases hd : w.decodeFile f with
        | error e => exact ⟨e, rfl⟩
        | ok n1 => exact ih _ _ _ hn1

theorem validateCIDR_empty :
    validateCIDR "" = some (Error.cidrParse "" ⟨"CIDR address", ""⟩) := by decide

theorem validate_rejects_empty_range (enableIPv6 : Bool) (c : MasqConfig)
    (h : "" ∈ c.NonMasqueradeCIDRs) : c.validate enableIPv6 ≠ none := by
  intro hv
  have h1 := ((validate_none_spec enableIPv6 c hv).2 "" h).1
  rw [validateCIDR_empty] at h1
  cases h1

theorem decodeFile_of_read_error (w : World) (name e : String)
    (h : w.ReadFile (w.PathJoin configPath name) = .error e) :
    w.decodeFile name = .error (Error.readFile name e) := by
  simp only [World.decodeFile, h]

theorem decodeFile_congr (w w1 : World) (name : String)
    (hread : w.ReadFile (w.PathJoin configPath name) = w1.ReadFile (w1.PathJoin configPath name))
    (hjson : w.ToJSON = w1.ToJSON) (hun : w.Unmarshal = w1.Unmarshal) :
    w.decodeFile name = w1.decodeFile name := by
  simp only [World.decodeFile, hread, hjson, hun]

/-! ## Lemmas on the families of ranges and on the lines of the script -/

theorem isIPv6CIDR_of_parts_none (s : String) (h : ParseCIDR.parts s = none) :
    isIPv6CIDR s = true := by
  simp only [isIPv6CIDR, ParseCIDR, h]
  decide

theorem isIPv6CIDR_false_iff (s : String) : isIPv6CIDR s = false ↔ IPv4CIDR s := by
  constructor
  · intro h
    cases hp : ParseCIDR.parts s with
    | none => rw [isIPv6CIDR_of_parts_none s hp] at h; cases h
    | some r =>
      obtain ⟨a, n⟩ := r
      refine ⟨a, n, hp, ?_⟩
      rw [isIPv6CIDR_of_parts s a n hp] at h
      simpa using h
  · exact isIPv6CIDR_of_IPv4CIDR s

theorem mem_rangesOfFamily (v6 : Bool) (ranges : List String) (s : String) :
    s ∈ rangesOfFamily v6 ranges ↔ s ∈ ranges ∧ isIPv6CIDR s = v6 := by
  simp [rangesOfFamily]

theorem specReturnLine_inj (chain s t : String)
    (h : specReturnLine chain s = specReturnLine chain t) : s = t := by
  have h1 := congrArg String.data h
  simp [specReturnLine] at h1
  exact String.ext h1

theorem specReturnLine_ne_masquerade (chain s : String) :
    specReturnLine chain s ≠ specMasqueradeLine chain := by
  intro h
  have h1 := congrArg String.data h
  simp [specReturnLine, specMasqueradeLine, nonMasqRuleComment, masqRuleComment] at h1

theorem specReturnLine_ne_fixed (chain s : String) :
    specReturnLine chain s ≠ "*nat" ∧ specReturnLine chain s ≠ ":" ++ chain ++ " - [0:0]" ∧
      specReturnLine chain s ≠ "COMMIT" := by
  refine ⟨?_, ?_, ?_⟩ <;>
  · intro h
    have h1 := congrArg String.data h
    simp [specReturnLine] at h1

/-- The RETURN lines of the script: the link-local line unless link-local is
masqueraded, and the lines of the ranges. -/
theorem specReturnLine_mem_specLines (chain : String) (flag : Bool) (linkLocal : String)
    (ranges : List String) (s : String) :
    specReturnLine chain s ∈ specLines chain flag linkLocal ranges ↔
      (flag = false ∧ s = linkLocal) ∨ s ∈ ranges := by
  obtain ⟨h1, h2, h3⟩ := specReturnLine_ne_fixed chain s
  have h4 := specReturnLine_ne_masquerade chain s
  have hinj : ∀ t, specReturnLine chain s = specReturnLine chain t ↔ s = t :=
    fun t => ⟨specReturnLine_inj chain s t, fun e => by rw [e]⟩
  have hinj1 : ∀ t, specReturnLine chain t = specReturnLine chain s ↔ t = s :=
    fun t => ⟨specReturnLine_inj chain t s, fun e => by rw [e]⟩
  cases flag <;>
    simp [specLines, h1, h2, h3, h4, hinj, hinj1]

theorem syncMasqRules_alwaysOK (flags : Flags) (m : MasqDaemon (Unit × List String)) :
    m.syncMasqRules Iptables.alwaysOK.recording flags =
      (none, { m with iptables := ((), m.iptables.2 ++ [specScriptV4 flags.masqChain m.config]) })
      := by
  have hlog := syncMasqRules_recorded Iptables.alwaysOK flags m
  have h1 : (m.syncMasqRules Iptables.alwaysOK.recording flags).1 = none := rfl
  have h2 : (m.syncMasqRules Iptables.alwaysOK.recording flags).2.config = m.config := rfl
  have h3 : (m.syncMasqRules Iptables.alwaysOK.recording flags).2.ip6tables = m.ip6tables := rfl
  have hlog1 : (m.syncMasqRules Iptables.alwaysOK.recording flags).2.iptables.2
      = m.iptables.2 ++ [specScriptV4 flags.masqChain m.config] := by
    rw [hlog]; rfl
  rcases hr : m.syncMasqRules Iptables.alwaysOK.recording flags with ⟨e, ⟨c, ⟨u, l⟩, i6⟩⟩
  rw [hr] at h1 h2 h3 hlog1
  simp only at h1 h2 h3 hlog1
  subst h1 h2 h3 hlog1
  rfl

theorem syncMasqRulesIPv6_alwaysOK (flags : Flags) (m : MasqDaemon (Unit × List String))
    (h6 : flags.enableIPv6 = true) :
    m.syncMasqRulesIPv6 Iptables.alwaysOK.recording flags =
      (none, { m with ip6tables :=
        ((), m.ip6tables.2 ++ [specScriptV6 flags.masqChain m.config]) }) := by
  have hlog := syncMasqRulesIPv6_recorded Iptables.alwaysOK flags m
  have h1 : (m.syncMasqRulesIPv6 Iptables.alwaysOK.recording flags).1 = none := by
    simp only [MasqDaemon.syncMasqRulesIPv6, h6]; rfl
  have h2 : (m.syncMasqRulesIPv6 Iptables.alwaysOK.recording flags).2.config = m.config := by
    simp only [MasqDaemon.syncMasqRulesIPv6, h6]; rfl
  have h3 : (m.syncMasqRulesIPv6 Iptables.alwaysOK.recording flags).2.iptables = m.iptables := by
    simp only [MasqDaemon.syncMasqRulesIPv6, h6]; rfl
  have hlog1 : (m.syncMasqRulesIPv6 Iptables.alwaysOK.recording flags).2.ip6tables.2
      = m.ip6tables.2 ++ [specScriptV6 flags.masqChain m.config] := by
    rw [hlog, h6]; rfl
  rcases hr : m.syncMasqRulesIPv6 Iptables.alwaysOK.recording flags with ⟨e, ⟨c, i4, ⟨u, l⟩⟩⟩
  rw [hr] at h1 h2 h3 hlog1
  simp only at h1 h2 h3 hlog1
  subst h1 h2 h3 hlog1
  rfl

theorem nodup_merge_cidrs (o : MapOrder) (c n : MasqConfig) (h : n.NonMasqueradeCIDRs ≠ []) :
    (c.merge o n).NonMasqueradeCIDRs.Nodup := by
  rw [merge_cidrs_of_nonempty o c n h]
  exact nodup_mergeCIDRs o _ _

theorem merge_cidrs_ne_nil (o : MapOrder) (c n : MasqConfig) (h : n.NonMasqueradeCIDRs ≠ []) :
    (c.merge o n).NonMasqueradeCIDRs ≠ [] := by
  intro hnil
  obtain ⟨s, rest, hs⟩ := List.exists_cons_of_ne_nil h
  have hmem : s ∈ (c.merge o n).NonMasqueradeCIDRs :=
    (mem_merge_cidrs o c n s).mpr (Or.inr (by rw [hs]; exact List.mem_cons_self _ _))
  rw [hnil] at hmem
  exact List.not_mem_nil _ hmem

/-- Merging `B` and then `C` into `A` gives the ranges of merging into `A` the merge
of `C` into `B`, up to order, with the same multiplicities. -/
theorem merge_assoc_perm (o1 o2 o3 o4 : MapOrder) (A B C : MasqConfig) :
    ((A.merge o1 B).merge o2 C).NonMasqueradeCIDRs.Perm
      (A.merge o4 (B.merge o3 C)).NonMasqueradeCIDRs := by
  by_cases hC : C.NonMasqueradeCIDRs = []
  · by_cases hB : B.NonMasqueradeCIDRs = []
    · rw [merge_cidrs_of_empty o2 _ C hC, merge_cidrs_of_empty o1 A B hB,
        merge_cidrs_of_empty o4 A _ (by rw [merge_cidrs_of_empty o3 B C hC]; exact hB)]
    · rw [merge_cidrs_of_empty o2 _ C hC]
      have hBC : (B.merge o3 C).NonMasqueradeCIDRs ≠ [] := by
        rw [merge_cidrs_of_empty o3 B C hC]; exact hB
      rw [List.perm_ext_iff_of_nodup (nodup_merge_cidrs o1 A B hB)
        (nodup_merge_cidrs o4 A _ hBC)]
      intro s
      simp only [mem_merge_cidrs, hC, List.not_mem_nil, or_false]
  · have hBC : (B.merge o3 C).NonMasqueradeCIDRs ≠ [] := merge_cidrs_ne_nil o3 B C hC
    rw [List.perm_ext_iff_of_nodup (nodup_merge_cidrs o2 _ C hC)
      (nodup_merge_cidrs o4 A _ hBC)]
    intro s
    simp only [mem_merge_cidrs, or_assoc]

/-- Merging a fragment a second time gives the ranges of merging it once, up to
order, with the same multiplicities. -/
theorem merge_twice_perm (o1 o2 o3 : MapOrder) (c n : MasqConfig) :
    ((c.merge o1 n).merge o2 n).NonMasqueradeCIDRs.Perm (c.merge o3 n).NonMasqueradeCIDRs := by
  by_cases hn : n.NonMasqueradeCIDRs = []
  · rw [merge_cidrs_of_empty o2 _ n hn, merge_cidrs_of_empty o1 c n hn,
      merge_cidrs_of_empty o3 c n hn]
  · rw [List.perm_ext_iff_of_nodup (nodup_merge_cidrs o2 _ n hn) (nodup_merge_cidrs o3 c n hn)]
    intro s
    simp only [mem_merge_cidrs, or_assoc, or_self]

/-! ## Lemmas on what the rule calls leave alone -/

theorem syncMasqRulesIPv6_disabled {σ : Type} (ipt6 : Iptables σ) (flags : Flags)
    (m : MasqDaemon σ) (h : flags.enableIPv6 = false) :
    m.syncMasqRulesIPv6 ipt6 flags = (none, m) := by
  simp [MasqDaemon.syncMasqRulesIPv6, h]

theorem syncMasqRules_frame {σ : Type} (ipt : Iptables σ) (flags : Flags) (m : MasqDaemon σ) :
    (m.syncMasqRules ipt flags).2.config = m.config ∧
    (m.syncMasqRules ipt flags).2.ip6tables = m.ip6tables := by
  unfold MasqDaemon.syncMasqRules
  dsimp only
  split
  · exact ⟨rfl, rfl⟩
  · split <;> exact ⟨rfl, rfl⟩

theorem syncMasqRulesIPv6_frame {σ : Type} (ipt6 : Iptables σ) (flags : Flags)
    (m : MasqDaemon σ) :
    (m.syncMasqRulesIPv6 ipt6 flags).2.config = m.config ∧
    (m.syncMasqRulesIPv6 ipt6 flags).2.iptables = m.iptables := by
  unfold MasqDaemon.syncMasqRulesIPv6
  dsimp only
  split
  · split
    · exact ⟨rfl, rfl⟩
    · split
      · exact ⟨rfl, rfl⟩
      · split <;> exact ⟨rfl, rfl⟩
  · exact ⟨rfl, rfl⟩
/-! ## Lemmas on the place of the MASQUERADE line -/

theorem specMasqueradeLine_ne_fixed (chain : String) :
    specMasqueradeLine chain ≠ "*nat" ∧ specMasqueradeLine chain ≠ ":" ++ chain ++ " - [0:0]" ∧
      specMasqueradeLine chain ≠ "COMMIT" := by
  refine ⟨?_, ?_, ?_⟩ <;>
  · intro h
    have h1 := congrArg String.data h
    simp [specMasqueradeLine] at h1

/-- The lines of a script: what stands before the MASQUERADE line, that line, `COMMIT`. -/
theorem specLines_split (chain : String) (flag : Bool) (linkLocal : String)
    (ranges : List String) :
    specLines chain flag linkLocal ranges =
      (["*nat", ":" ++ chain ++ " - [0:0]"]
        ++ (if flag then [] else [specReturnLine chain linkLocal])
        ++ ranges.map (specReturnLine chain))
      ++ [specMasqueradeLine chain, "COMMIT"] := rfl

theorem specMasqueradeLine_not_mem_head (chain : String) (flag : Bool) (linkLocal : String)
    (ranges : List String) :
    specMasqueradeLine chain ∉
      (["*nat", ":" ++ chain ++ " - [0:0]"]
        ++ (if flag then [] else [specReturnLine chain linkLocal])
        ++ ranges.map (specReturnLine chain)) := by
  obtain ⟨h1, h2, _⟩ := specMasqueradeLine_ne_fixed chain
  have h4 : ∀ s, specMasqueradeLine chain ≠ specReturnLine chain s :=
    fun s h => specReturnLine_ne_masquerade chain s h.symm
  have h5 : ∀ s, specReturnLine chain s ≠ specMasqueradeLine chain :=
    fun s => specReturnLine_ne_masquerade chain s
  cases flag <;> simp [h1, h2, h4, h5]

theorem specLines_count_masquerade (chain : String) (flag : Bool) (linkLocal : String)
    (ranges : List String) :
    (specLines chain flag linkLocal ranges).count (specMasqueradeLine chain) = 1 := by
  rw [specLines_split, List.count_append,
    List.count_eq_zero_of_not_mem (specMasqueradeLine_not_mem_head chain flag linkLocal ranges)]
  have h3 := (specMasqueradeLine_ne_fixed chain).2.2
  simp [List.count_cons, h3.symm]

/-- In a list `P ++ [a, b]` where `a` is not in `P` and differs from `b`, what
differs from `a` and `b` comes before `a`. -/
theorem index_before_last_two (P : List String) (a b x : String) (i j : Nat)
    (hxa : x ≠ a) (hxb : x ≠ b) (ha : a ∉ P) (hab : b ≠ a)
    (hi : (P ++ [a, b])[i]? = some x) (hj : (P ++ [a, b])[j]? = some a) :
    i < P.length ∧ j = P.length := by
  have hjP : j = P.length := by
    rcases Nat.lt_trichotomy j P.length with h | h | h
    · rw [List.getElem?_append_left h] at hj
      exact absurd (List.getElem?_mem hj) ha
    · exact h
    · rw [List.getElem?_append_right (Nat.le_of_lt h)] at hj
      obtain ⟨k, hk⟩ : ∃ k, j - P.length = k + 1 := ⟨j - P.length - 1, by omega⟩
      rw [hk] at hj
      cases k with
      | zero => simp at hj; exact absurd hj hab
      | succ k => simp at hj
  refine ⟨?_, hjP⟩
  by_contra hge
  rw [List.getElem?_append_right (Nat.le_of_not_lt hge)] at hi
  rcases hk : i - P.length with _ | k
  · rw [hk] at hi; simp at hi; exact hxa hi.symm
  · rw [hk] at hi
    cases k with
    | zero => simp at hi; exact hxb hi.symm
    | succ k => simp at hi

/-- In the lines of a script every RETURN line stands before the MASQUERADE
line, which is the last line but one. -/
theorem specLines_return_before_masquerade (chain : String) (flag : Bool)
    (linkLocal : String) (ranges : List String) (i j : Nat) (r : String)
    (hi : (specLines chain flag linkLocal ranges)[i]? = some (specReturnLine chain r))
    (hj : (specLines chain flag linkLocal ranges)[j]? = some (specMasqueradeLine chain)) :
    i < j ∧ j + 2 = (specLines chain flag linkLocal ranges).length := by
  rw [specLines_split] at hi hj ⊢
  obtain ⟨h1, h2⟩ := index_before_last_two _ _ _ _ i j
    (specReturnLine_ne_masquerade chain r) (specReturnLine_ne_fixed chain r).2.2
    (specMasqueradeLine_not_mem_head chain flag linkLocal ranges)
    (specMasqueradeLine_ne_fixed chain).2.2.symm hi hj
  refine ⟨by omega, ?_⟩
  rw [List.length_append, h2]
  rfl

/-- The buffer ends with the MASQUERADE line and then `COMMIT`, each with its newline. -/
theorem specScript_tail (chain : String) (flag : Bool) (linkLocal : String)
    (ranges : List String) :
    specScript chain flag linkLocal ranges =
      String.join
          ((["*nat", ":" ++ chain ++ " - [0:0]"]
            ++ (if flag then [] else [specReturnLine chain linkLocal])
            ++ ranges.map (specReturnLine chain)).map (fun l => l ++ "\n"))
        ++ (specMasqueradeLine chain ++ "\n") ++ "COMMIT\n" := by
  rw [specScript, specLines_split, List.map_append, join_lines_append]
  apply String.ext
  simp [String.join]

/-! ## Lemmas on families -/

theorem isIPv6CIDR_linkLocal :
    isIPv6CIDR linkLocalCIDR = false ∧ isIPv6CIDR linkLocalCIDRIPv6 = true := by
  decide

/-- A configured range has its RETURN line in the script of its family and not
in the other script. -/
theorem line_in_own_script_only (chain : String) (c : MasqConfig) (s : String)
    (hs : s ∈ c.NonMasqueradeCIDRs) :
    (isIPv6CIDR s = false →
      specReturnLine chain s ∈ specLines chain c.MasqLinkLocal linkLocalCIDR
          (rangesOfFamily false c.NonMasqueradeCIDRs) ∧
      specReturnLine chain s ∉ specLines chain c.MasqLinkLocalIPv6 linkLocalCIDRIPv6
          (rangesOfFamily true c.NonMasqueradeCIDRs)) ∧
    (isIPv6CIDR s = true →
      specReturnLine chain s ∈ specLines chain c.MasqLinkLocalIPv6 linkLocalCIDRIPv6
          (rangesOfFamily true c.NonMasqueradeCIDRs) ∧
      specReturnLine chain s ∉ specLines chain c.MasqLinkLocal linkLocalCIDR
          (rangesOfFamily false c.NonMasqueradeCIDRs)) := by
  obtain ⟨hl4, hl6⟩ := isIPv6CIDR_linkLocal
  constructor
  · intro h
    refine ⟨(specReturnLine_mem_specLines _ _ _ _ s).mpr
      (Or.inr ((mem_rangesOfFamily _ _ _).mpr ⟨hs, h⟩)), ?_⟩
    rw [specReturnLine_mem_specLines, mem_rangesOfFamily]
    rintro (⟨_, he⟩ | ⟨_, h6⟩)
    · rw [he, hl6] at h; exact absurd h (by decide)
    · rw [h] at h6; exact absurd h6 (by decide)
  · intro h
    refine ⟨(specReturnLine_mem_specLines _ _ _ _ s).mpr
      (Or.inr ((mem_rangesOfFamily _ _ _).mpr ⟨hs, h⟩)), ?_⟩
    rw [specReturnLine_mem_specLines, mem_rangesOfFamily]
    rintro (⟨_, he⟩ | ⟨_, h4⟩)
    · rw [he, hl4] at h; exact absurd h (by decide)
    · rw [h] at h4; exact absurd h4 (by decide)
/-! ## Lemmas on the characters of a range that decodes -/

theorem splitSlash_eq (l a m : List Char) (h : splitSlash l = some (a, m)) :
    l = a ++ '/' :: m := by
  induction l generalizing a m with
  | nil => simp [splitSlash] at h
  | cons c rest ih =>
    rw [splitSlash] at h
    by_cases hc : c = '/'
    · subst hc
      simp at h
      obtain ⟨rfl, rfl⟩ := h
      rfl
    · have hc1 : (c == '/') = false := by simpa using hc
      rw [hc1] at h
      simp only [Bool.false_eq_true, if_false] at h
      cases hr : splitSlash rest with
      | none => rw [hr] at h; simp at h
      | some p =>
        obtain ⟨a1, m1⟩ := p
        rw [hr] at h
        simp only [Option.some.injEq, Prod.mk.injEq] at h
        obtain ⟨rfl, rfl⟩ := h
        rw [ih a1 m1 hr]
        rfl

theorem isDigit_cidrChar (c : Char) (h : isDigit c = true) : cidrChar c = true := by
  simp only [isDigit, Bool.and_eq_true, decide_eq_true_eq] at h
  simp [cidrChar, hexVal, h.1, h.2]

theorem dtoi_go_all_digits (s : List Char) :
    ∀ (n i v j : Nat), dtoi.go s n i = (v, j, true) → j = i + s.length →
      ∀ c ∈ s, isDigit c = true := by
  induction s with
  | nil => intro n i v j _ _ c hc; exact absurd hc (List.not_mem_nil _)
  | cons d rest ih =>
    intro n i v j h hj c hc
    rw [dtoi.go] at h
    by_cases hd : isDigit d = true
    · rw [if_pos hd] at h
      dsimp only at h
      split at h
      · simp at h
      · rcases List.mem_cons.mp hc with rfl | hc
        · exact hd
        · exact ih _ _ v j h (by simp at hj; omega) c hc
    · rw [if_neg hd] at h
      split at h
      · simp at h
      · simp only [Prod.mk.injEq] at h
        simp at hj
        omega

theorem parseIPv4Fields_go_chars (s : List Char) :
    ∀ (first prevDot : Bool) (val digLen : Nat) (fields f : List Nat),
      parseIPv4Fields.go s first prevDot val digLen fields = some f →
      ∀ c ∈ s, cidrChar c = true := by
  induction s with
  | nil => intro _ _ _ _ _ _ _ c hc; exact absurd hc (List.not_mem_nil _)
  | cons d rest ih =>
    intro first prevDot val digLen fields f h c hc
    rw [parseIPv4Fields.go] at h
    by_cases hd : isDigit d = true
    · rw [if_pos hd] at h
      split at h
      · simp at h
      · dsimp only at h
        split at h
        · simp at h
        · rcases List.mem_cons.mp hc with rfl | hc
          · exact isDigit_cidrChar _ hd
          · exact ih _ _ _ _ _ f h c hc
    · rw [if_neg hd] at h
      by_cases hdot : (d == '.') = true
      · rw [if_pos hdot] at h
        split at h
        · simp at h
        · split at h
          · simp at h
          · rcases List.mem_cons.mp hc with rfl | hc
            · simp [cidrChar, hdot]
            · exact ih _ _ _ _ _ f h c hc
      · rw [if_neg hdot] at h
        simp at h

theorem hexGroup_split (s : List Char) :
    ∀ (off acc o a : Nat) (rest : List Char),
      parseIPv6.hexGroup s off acc = some (o, a, rest) →
      ∃ pre, s = pre ++ rest ∧ ∀ c ∈ pre, cidrChar c = true := by
  induction s with
  | nil =>
    intro off acc o a rest h
    simp only [parseIPv6.hexGroup, Option.some.injEq, Prod.mk.injEq] at h
    exact ⟨[], by rw [← h.2.2]; rfl, fun c hc => absurd hc (List.not_mem_nil _)⟩
  | cons d tl ih =>
    intro off acc o a rest h
    rw [parseIPv6.hexGroup] at h
    cases hv : hexVal d with
    | none =>
      rw [hv] at h
      simp only [Option.some.injEq, Prod.mk.injEq] at h
      exact ⟨[], by rw [← h.2.2]; rfl, fun c hc => absurd hc (List.not_mem_nil _)⟩
    | some x =>
      rw [hv] at h
      dsimp only at h
      split at h
      · simp at h
      · split at h
        · simp at h
        · obtain ⟨pre, hpre, hall⟩ := ih _ _ o a rest h
          refine ⟨d :: pre, by rw [hpre]; rfl, ?_⟩
          intro c hc
          rcases List.mem_cons.mp hc with rfl | hc
          · simp [cidrChar, hv]
          · exact hall c hc
theorem parseIPv6_loop_chars (fuel : Nat) :
    ∀ (s : List Char) (ip : List Nat) (ell : Option Nat) (rest : List Char) (ip1 : List Nat)
      (ell1 : Option Nat),
      parseIPv6.loop fuel s ip ell = some (rest, ip1, ell1) →
      ∃ pre, s = pre ++ rest ∧ ∀ c ∈ pre, cidrChar c = true := by
  induction fuel with
  | zero =>
    intro s ip ell rest ip1 ell1 h
    simp only [parseIPv6.loop, Option.some.injEq, Prod.mk.injEq] at h
    exact ⟨[], by rw [← h.1]; rfl, fun c hc => absurd hc (List.not_mem_nil _)⟩
  | succ fuel ih =>
    intro s ip ell rest ip1 ell1 h
    rw [parseIPv6.loop] at h
    split at h
    · simp only [Option.some.injEq, Prod.mk.injEq] at h
      exact ⟨[], by rw [← h.1]; rfl, fun c hc => absurd hc (List.not_mem_nil _)⟩
    · cases hg : parseIPv6.hexGroup s 0 0 with
      | none => rw [hg] at h; simp at h
      | some r =>
        obtain ⟨off, acc, rest0⟩ := r
        rw [hg] at h
        dsimp only at h
        obtain ⟨pre0, hpre0, hall0⟩ := hexGroup_split s 0 0 off acc rest0 hg
        split at h
        · simp at h
        · split at h
          · split at h
            · simp at h
            · split at h
              · simp at h
              · cases hf : parseIPv4Fields s with
                | none => rw [hf] at h; simp at h
                | some f =>
                  rw [hf] at h
                  simp only [Option.some.injEq, Prod.mk.injEq] at h
                  refine ⟨s, by rw [← h.1]; simp, ?_⟩
                  exact parseIPv4Fields_go_chars s _ _ _ _ _ f hf
          · cases rest0 with
            | nil =>
              simp only [Option.some.injEq, Prod.mk.injEq] at h
              refine ⟨pre0, by rw [← h.1]; exact hpre0, hall0⟩
            | cons c rest1 =>
              dsimp only at h
              split at h
              · simp at h
              · rename_i hc
                have hc1 : c = ':' := by simpa using hc
                subst hc1
                cases rest1 with
                | nil => simp at h
                | cons c2 rest2 =>
                  dsimp only at h
                  split at h
                  · rename_i hc2
                    have hc21 : c2 = ':' := by simpa using hc2
                    subst hc21
                    split at h
                    · simp at h
                    · cases rest2 with
                      | nil =>
                        simp only [Option.some.injEq, Prod.mk.injEq] at h
                        refine ⟨pre0 ++ [':', ':'], by rw [← h.1, hpre0]; simp, ?_⟩
                        intro x hx
                        rcases List.mem_append.mp hx with hx | hx
                        · exact hall0 x hx
                        · simp at hx; subst hx; decide
                      | cons c3 rest3 =>
                        dsimp only at h
                        obtain ⟨pre1, hpre1, hall1⟩ := ih _ _ _ _ _ _ h
                        refine ⟨pre0 ++ ':' :: ':' :: pre1, by rw [hpre0, hpre1]; simp, ?_⟩
                        intro x hx
                        rcases List.mem_append.mp hx with hx | hx
                        · exact hall0 x hx
                        · rcases List.mem_cons.mp hx with rfl | hx
                          · decide
                          · rcases List.mem_cons.mp hx with rfl | hx
                            · decide
                            · exact hall1 x hx
                  · obtain ⟨pre1, hpre1, hall1⟩ := ih _ _ _ _ _ _ h
                    refine ⟨pre0 ++ ':' :: pre1, by rw [hpre0, hpre1]; simp, ?_⟩
                    intro x hx
                    rcases List.mem_append.mp hx with hx | hx
                    · exact hall0 x hx
                    · rcases List.mem_cons.mp hx with rfl | hx
                      · decide
                      · exact hall1 x hx

theorem parseIPv6_finish_chars (s : List Char) (ell : Option Nat) (b : List Nat)
    (h : parseIPv6.finish s ell = some b) : ∀ c ∈ s, cidrChar c = true := by
  rw [parseIPv6.finish] at h
  cases hl : parseIPv6.loop 8 s [] ell with
  | none => rw [hl] at h; simp at h
  | some r =>
    obtain ⟨rest, ip, ell1⟩ := r
    rw [hl] at h
    dsimp only at h
    obtain ⟨pre, hpre, hall⟩ := parseIPv6_loop_chars 8 s [] ell rest ip ell1 hl
    split at h
    · simp at h
    · rename_i hrest
      have hr : rest = [] := by simpa using hrest
      rw [hr, List.append_nil] at hpre
      rw [hpre]
      exact hall

theorem splitZone_no_zone (l : List Char) (h : (splitZone l).2 = none) : (splitZone l).1 = l := by
  induction l with
  | nil => rfl
  | cons c rest ih =>
    rw [splitZone] at h ⊢
    split at h
    · simp at h
    · rename_i hc
      rw [if_neg hc]
      dsimp only at h ⊢
      rw [ih h]

theorem parseIPv6_chars (input : List Char) (a : Addr) (h : parseIPv6 input = some a)
    (hz : a.Zone = []) : ∀ c ∈ input, cidrChar c = true := by
  rw [parseIPv6] at h
  dsimp only at h
  have hnone : (splitZone input).2 = none := by
    cases hsz : (splitZone input).2 with
    | none => rfl
    | some z =>
      rw [hsz] at h
      cases z with
      | nil => simp at h
      | cons z0 zs =>
        exfalso
        dsimp only at h
        split at h
        · split at h
          · simp only [Option.some.injEq] at h
            rw [← h] at hz
            simp [Addr.Zone] at hz
          · cases hf : parseIPv6.finish _ (some 0) with
            | none => rw [hf] at h; simp at h
            | some b =>
              rw [hf] at h
              simp only [Option.map_some', Option.some.injEq] at h
              rw [← h] at hz
              simp [Addr.Zone] at hz
        · cases hf : parseIPv6.finish (splitZone input).1 none with
          | none => rw [hf] at h; simp at h
          | some b =>
            rw [hf] at h
            simp only [Option.map_some', Option.some.injEq] at h
            rw [← h] at hz
            simp [Addr.Zone] at hz
  have hin := splitZone_no_zone input hnone
  rw [hnone, hin] at h
  dsimp only at h
  split at h
  · rename_i rest
    split at h
    · rename_i hre
      have : rest = [] := by simpa using hre
      subst this
      intro c hc
      simp at hc
      subst hc
      decide
    · cases hf : parseIPv6.finish rest (some 0) with
      | none => rw [hf] at h; simp at h
      | some b =>
        intro c hc
        rcases List.mem_cons.mp hc with rfl | hc
        · decide
        · rcases List.mem_cons.mp hc with rfl | hc
          · decide
          · exact parseIPv6_finish_chars rest _ b hf c hc
  · cases hf : parseIPv6.finish input none with
    | none => rw [hf] at h; simp at h
    | some b => exact parseIPv6_finish_chars input _ b hf

theorem ParseAddr_go_cases (whole : List Char) (s : List Char) (a : Addr)
    (h : ParseAddr.go whole s = some a) : parseIPv4 whole = some a ∨ parseIPv6 whole = some a := by
  induction s with
  | nil => simp [ParseAddr.go] at h
  | cons c rest ih =>
    rw [ParseAddr.go] at h
    split at h
    · exact Or.inl h
    · split at h
      · exact Or.inr h
      · split at h
        · simp at h
        · exact ih h

theorem ParseAddr_chars (s : List Char) (a : Addr) (h : ParseAddr s = some a)
    (hz : a.Zone = []) : ∀ c ∈ s, cidrChar c = true := by
  rcases ParseAddr_go_cases s s a h with h4 | h6
  · rw [parseIPv4] at h4
    cases hf : parseIPv4Fields s with
    | none => rw [hf] at h4; simp at h4
    | some f => exact parseIPv4Fields_go_chars s _ _ _ _ _ f hf
  · exact parseIPv6_chars s a h6 hz

/-- A range that decodes is made of hexadecimal digits, `.`, `:` and `/` only. -/
theorem ParseCIDR_parts_chars (s : String) (a : Addr) (n : Nat)
    (h : ParseCIDR.parts s = some (a, n)) : ∀ c ∈ s.toList, cidrChar c = true := by
  rw [ParseCIDR.parts] at h
  cases hs : splitSlash s.toList with
  | none => rw [hs] at h; simp at h
  | some p =>
    obtain ⟨addr, mask⟩ := p
    rw [hs] at h
    dsimp only at h
    cases ha : ParseAddr addr with
    | none => rw [ha] at h; simp at h
    | some ipAddr =>
      rw [ha] at h
      dsimp only at h
      split at h
      · simp at h
      · rename_i hzone
        split at h
        · simp at h
        · rename_i hcond
          simp only [Bool.or_eq_true, Bool.not_eq_true', bne_iff_ne, ne_eq, decide_eq_true_eq,
            not_or, Bool.not_eq_false, not_not, not_lt] at hcond
          have hz : ipAddr.Zone = [] := by simpa using hzone
          have haddr := ParseAddr_chars addr ipAddr ha hz
          have hd : dtoi.go mask 0 0 = ((dtoi mask).1, (dtoi mask).2.1, true) := by
            have : (dtoi mask).2.2 = true := hcond.1.1
            rw [← this]; rfl
          have hmask := dtoi_go_all_digits mask 0 0 _ _ hd (by rw [hcond.1.2]; simp)
          rw [splitSlash_eq _ _ _ hs]
          intro c hc
          rcases List.mem_append.mp hc with hc | hc
          · exact haddr c hc
          · rcases List.mem_cons.mp hc with rfl | hc
            · decide
            · exact isDigit_cidrChar c (hmask c hc)
/-! ## Lemmas on the lines of the script text -/

theorem textLines_go_line (l : List Char) (hl : newline ∉ l) (rest : List Char) :
    ∀ cur, textLines.go (l ++ newline :: rest) cur = ⟨cur ++ l⟩ :: textLines.go rest [] := by
  induction l with
  | nil =>
    intro cur
    simp [textLines.go]
  | cons c tl ih =>
    intro cur
    have hc : (c == newline) = false := by
      have : c ≠ newline := fun e => hl (by rw [e]; exact List.mem_cons_self _ _)
      simpa using this
    have htl : newline ∉ tl := fun h => hl (List.mem_cons_of_mem _ h)
    rw [List.cons_append, textLines.go, hc]
    simp only [Bool.false_eq_true, if_false]
    rw [ih htl]
    simp

theorem join_cons (a : String) (rest : List String) :
    String.join (a :: rest) = a ++ String.join rest := by
  have := join_lines_append [a] rest
  simpa [String.join] using this

/-- A text made of lines without newline, each followed by a newline, has
these lines, and a last empty piece. -/
theorem textLines_join (lines : List String) (h : ∀ l ∈ lines, newline ∉ l.toList) :
    textLines (String.join (lines.map (fun l => l ++ "\n"))) = lines ++ [""] := by
  unfold textLines
  induction lines with
  | nil => rfl
  | cons a rest ih =>
    rw [List.map_cons, join_cons]
    have hd : (a ++ "\n" ++ String.join (rest.map (fun l => l ++ "\n"))).toList
        = a.toList ++ newline :: (String.join (rest.map (fun l => l ++ "\n"))).toList := by
      simp [String.toList, newline]
    rw [hd, textLines_go_line _ (h a (List.mem_cons_self _ _)),
      ih (fun l hl => h l (List.mem_cons_of_mem _ hl))]
    simp

theorem cidrChar_ne_newline (l : List Char) (h : ∀ c ∈ l, cidrChar c = true) : newline ∉ l := by
  intro hn
  have := h newline hn
  revert this
  decide

theorem no_newline_of_parts (s : String) (h : ParseCIDR.parts s ≠ none) :
    newline ∉ s.toList := by
  cases hp : ParseCIDR.parts s with
  | none => exact absurd hp h
  | some p =>
    obtain ⟨a, n⟩ := p
    exact cidrChar_ne_newline _ (ParseCIDR_parts_chars s a n hp)

theorem no_newline_specReturnLine (chain s : String) (hc : newline ∉ chain.toList)
    (hs : newline ∉ s.toList) : newline ∉ (specReturnLine chain s).toList := by
  have h1 : newline ∉ "-A ".toList := by decide
  have h2 : newline ∉ (" " ++ nonMasqRuleComment ++ " -d ").toList := by decide
  have h3 : newline ∉ " -j RETURN".toList := by decide
  have he : (specReturnLine chain s).toList
      = "-A ".toList ++ chain.toList ++ (" " ++ nonMasqRuleComment ++ " -d ").toList
        ++ s.toList ++ " -j RETURN".toList := by
    simp [specReturnLine, String.toList]
  rw [he]
  simp only [List.mem_append, not_or]
  exact ⟨⟨⟨⟨h1, hc⟩, h2⟩, hs⟩, h3⟩

theorem no_newline_specLines (chain : String) (flag : Bool) (linkLocal : String)
    (ranges : List String) (hc : newline ∉ chain.toList) (hl : newline ∉ linkLocal.toList)
    (hr : ∀ s ∈ ranges, newline ∉ s.toList) :
    ∀ l ∈ specLines chain flag linkLocal ranges, newline ∉ l.toList := by
  have h1 : newline ∉ "*nat".toList := by decide
  have h2 : newline ∉ (":" ++ chain ++ " - [0:0]").toList := by
    have ha : newline ∉ ":".toList := by decide
    have hb : newline ∉ " - [0:0]".toList := by decide
    have he : (":" ++ chain ++ " - [0:0]").toList
        = ":".toList ++ chain.toList ++ " - [0:0]".toList := by
      simp [String.toList]
    rw [he]
    simp only [List.mem_append, not_or]
    exact ⟨⟨ha, hc⟩, hb⟩
  have h3 : newline ∉ (specMasqueradeLine chain).toList := by
    have ha : newline ∉ "-A ".toList := by decide
    have hb : newline ∉ (" " ++ masqRuleComment ++ " -j MASQUERADE").toList := by decide
    have he : (specMasqueradeLine chain).toList
        = "-A ".toList ++ chain.toList ++ (" " ++ masqRuleComment ++ " -j MASQUERADE").toList := by
      simp [specMasqueradeLine, String.toList]
    rw [he]
    simp only [List.mem_append, not_or]
    exact ⟨⟨ha, hc⟩, hb⟩
  have h4 : newline ∉ "COMMIT".toList := by decide
  intro l hl1
  rw [specLines_split] at hl1
  simp only [List.mem_append, List.mem_cons, List.mem_singleton, List.mem_map,
    List.not_mem_nil, or_false] at hl1
  rcases hl1 with ((((rfl | rfl) | hll) | ⟨s, hs, rfl⟩) | (rfl | rfl))
  · exact h1
  · exact h2
  · cases flag with
    | true => simp at hll
    | false =>
      simp at hll
      rw [hll]
      exact no_newline_specReturnLine chain linkLocal hc hl
  · exact no_newline_specReturnLine chain s hc (hr s hs)
  · exact h3
  · exact h4

/-- The text of the IPv4 script has the lines of the specification, whatever
the configuration, when the chain name has no newline. -/
theorem textLines_specScriptV4 (chain : String) (c : MasqConfig)
    (hc : newline ∉ chain.toList) :
    textLines (specScriptV4 chain c) =
      specLines chain c.MasqLinkLocal linkLocalCIDR (rangesOfFamily false c.NonMasqueradeCIDRs)
        ++ [""] := by
  apply textLines_join
  apply no_newline_specLines chain _ _ _ hc (by decide)
  intro s hs
  have h4 : IPv4CIDR s := (isIPv6CIDR_false_iff s).mp ((mem_rangesOfFamily _ _ _).mp hs).2
  obtain ⟨a, n, hp, _⟩ := h4
  exact no_newline_of_parts s (by rw [hp]; simp)

/-- The text of the IPv6 script has the lines of the specification when the
chain name and the ranges have no newline. -/
theorem textLines_specScriptV6 (chain : String) (c : MasqConfig)
    (hc : newline ∉ chain.toList) (hr : ∀ s ∈ c.NonMasqueradeCIDRs, newline ∉ s.toList) :
    textLines (specScriptV6 chain c) =
      specLines chain c.MasqLinkLocalIPv6 linkLocalCIDRIPv6
          (rangesOfFamily true c.NonMasqueradeCIDRs)
        ++ [""] := by
  apply textLines_join
  apply no_newline_specLines chain _ _ _ hc (by decide)
  intro s hs
  exact hr s ((mem_rangesOfFamily _ _ _).mp hs).1
/-! ## Lemmas on the reconciliation loop -/

theorem syncConfig_frame {σ : Type} (w : World) (flags : Flags) (m : MasqDaemon σ) :
    (m.syncConfig w flags).2.iptables = m.iptables ∧
    (m.syncConfig w flags).2.ip6tables = m.ip6tables := by
  unfold MasqDaemon.syncConfig
  dsimp only
  split
  · exact ⟨rfl, rfl⟩
  · split
    · exact ⟨rfl, rfl⟩
    · split <;> exact ⟨rfl, rfl⟩

theorem syncConfig_error_unchanged {σ : Type} (w : World) (flags : Flags) (m : MasqDaemon σ)
    (err : Error) (h : (m.syncConfig w flags).1 = some err) : (m.syncConfig w flags).2 = m := by
  rcases syncConfig_config_cases w flags m with ⟨_, h2⟩ | ⟨h1, _⟩
  · exact h2
  · rw [h1] at h; exact absurd h (by simp)

theorem cycle_of_config_error {σ : Type} (w : World) (ipt ipt6 : Iptables σ) (flags : Flags)
    (m : MasqDaemon σ) (err : Error) (h : (m.syncConfig w flags).1 = some err) :
    Run.cycle w ipt ipt6 flags m
      = ([Event.errSyncConfig err, Event.sleep (sleepDuration flags)], m) := by
  have hm := syncConfig_error_unchanged w flags m err h
  rcases hr : m.syncConfig w flags with ⟨e, m1⟩
  rw [hr] at h hm
  simp only at h hm
  subst h hm
  simp only [Run.cycle, hr]

theorem cycle_of_rules_error {σ : Type} (w : World) (ipt ipt6 : Iptables σ) (flags : Flags)
    (m : MasqDaemon σ) (err : Error) (h : (m.syncConfig w flags).1 = none)
    (h4 : ((m.syncConfig w flags).2.syncMasqRules ipt flags).1 = some err) :
    Run.cycle w ipt ipt6 flags m
      = ([Event.errSyncRules err, Event.sleep (sleepDuration flags)],
          ((m.syncConfig w flags).2.syncMasqRules ipt flags).2) := by
  rcases hr : m.syncConfig w flags with ⟨e, m1⟩
  rw [hr] at h h4
  simp only at h h4
  subst h
  rcases hr4 : m1.syncMasqRules ipt flags with ⟨e4, m2⟩
  rw [hr4] at h4
  simp only at h4
  subst h4
  simp only [Run.cycle, hr, hr4]

theorem cycle_of_rules6_error {σ : Type} (w : World) (ipt ipt6 : Iptables σ) (flags : Flags)
    (m : MasqDaemon σ) (err : Error) (h : (m.syncConfig w flags).1 = none)
    (h4 : ((m.syncConfig w flags).2.syncMasqRules ipt flags).1 = none)
    (h6 : (((m.syncConfig w flags).2.syncMasqRules ipt flags).2.syncMasqRulesIPv6 ipt6 flags).1
      = some err) :
    Run.cycle w ipt ipt6 flags m
      = ([Event.errSyncRulesIPv6 err, Event.sleep (sleepDuration flags)],
          (((m.syncConfig w flags).2.syncMasqRules ipt flags).2.syncMasqRulesIPv6
            ipt6 flags).2) := by
  rcases hr : m.syncConfig w flags with ⟨e, m1⟩
  rw [hr] at h h4 h6
  simp only at h h4 h6
  subst h
  rcases hr4 : m1.syncMasqRules ipt flags with ⟨e4, m2⟩
  rw [hr4] at h4 h6
  simp only at h4 h6
  subst h4
  rcases hr6 : m2.syncMasqRulesIPv6 ipt6 flags with ⟨e6, m3⟩
  rw [hr6] at h6
  simp only at h6
  subst h6
  simp only [Run.cycle, hr, hr4, hr6]

/-- Every cycle ends with the sleep, after at most one log line. -/
theorem cycle_ends_with_sleep {σ : Type} (w : World) (ipt ipt6 : Iptables σ) (flags : Flags)
    (m : MasqDaemon σ) :
    ∃ log, (Run.cycle w ipt ipt6 flags m).1 = log ++ [Event.sleep (sleepDuration flags)] ∧
      log.length ≤ 1 ∧ ∀ e ∈ log, e.isSleep = false := by
  unfold Run.cycle
  dsimp only
  split
  · exact ⟨[_], rfl, by simp, by simp [Event.isSleep]⟩
  · split
    · exact ⟨[_], rfl, by simp, by simp [Event.isSleep]⟩
    · split
      · exact ⟨[_], rfl, by simp, by simp [Event.isSleep]⟩
      · exact ⟨[], rfl, by simp, by simp⟩

theorem cycle_sleeps_once {σ : Type} (w : World) (ipt ipt6 : Iptables σ) (flags : Flags)
    (m : MasqDaemon σ) :
    ((Run.cycle w ipt ipt6 flags m).1.filter Event.isSleep).length = 1 := by
  obtain ⟨log, hlog, _, hno⟩ := cycle_ends_with_sleep w ipt ipt6 flags m
  rw [hlog, List.filter_append]
  have : log.filter Event.isSleep = [] := by
    rw [List.filter_eq_nil_iff]
    intro e he
    rw [hno e he]
    simp
  rw [this]
  rfl

theorem Run_sleeps {σ : Type} (ipt ipt6 : Iptables σ) (flags : Flags) (worlds : List World) :
    ∀ m : MasqDaemon σ,
      ((MasqDaemon.Run ipt ipt6 flags worlds m).1.filter Event.isSleep).length
        = worlds.length := by
  induction worlds with
  | nil => intro m; rfl
  | cons w rest ih =>
    intro m
    simp only [MasqDaemon.Run, List.filter_append, List.length_append, List.length_cons]
    rw [cycle_sleeps_once, ih]
    omega

theorem Run_snoc {σ : Type} (ipt ipt6 : Iptables σ) (flags : Flags) (worlds : List World)
    (w1 : World) :
    ∀ m : MasqDaemon σ,
      MasqDaemon.Run ipt ipt6 flags (worlds ++ [w1]) m =
        ((MasqDaemon.Run ipt ipt6 flags worlds m).1
            ++ (Run.cycle w1 ipt ipt6 flags (MasqDaemon.Run ipt ipt6 flags worlds m).2).1,
          (Run.cycle w1 ipt ipt6 flags (MasqDaemon.Run ipt ipt6 flags worlds m).2).2) := by
  induction worlds with
  | nil => intro m; simp [MasqDaemon.Run]
  | cons w rest ih =>
    intro m
    have hstep : ∀ (ws : List World) (d : MasqDaemon σ),
        MasqDaemon.Run ipt ipt6 flags (w :: ws) d =
          ((Run.cycle w ipt ipt6 flags d).1
              ++ (MasqDaemon.Run ipt ipt6 flags ws (Run.cycle w ipt ipt6 flags d).2).1,
            (MasqDaemon.Run ipt ipt6 flags ws (Run.cycle w ipt ipt6 flags d).2).2) :=
      fun _ _ => rfl
    rw [List.cons_append, hstep, hstep, ih]
    simp
/-! ## Lemmas on what a load merges -/

theorem nodup_merge_of_nodup (o : MapOrder) (c n : MasqConfig)
    (h : c.NonMasqueradeCIDRs.Nodup) : (c.merge o n).NonMasqueradeCIDRs.Nodup := by
  by_cases hn : n.NonMasqueradeCIDRs = []
  · rw [merge_cidrs_of_empty o c n hn]; exact h
  · exact nodup_merge_cidrs o c n hn

/-- The loop of `syncConfig` over matching entries that decode to the fragments `frs`:
it ends without error, with the ranges of the start and of all fragments, kept
duplicate-free, and the flags OR-ed. -/
theorem syncConfig_loop_merged (w : World) (names : List String) (frs : List MasqConfig)
    (hmatch : ∀ name ∈ names, isConfigFile name = true)
    (hfr : List.Forall₂ (fun name cfg => w.decodeFile name = .ok cfg) names frs) :
    ∀ (k : Nat) (c : MasqConfig) (a : Bool),
      ∃ c1, syncConfig.loop w names k c a = .ok (c1, a || !frs.isEmpty) ∧
        (∀ s, s ∈ c1.NonMasqueradeCIDRs ↔
          s ∈ c.NonMasqueradeCIDRs ∨ s ∈ frs.flatMap MasqConfig.NonMasqueradeCIDRs) ∧
        (c.NonMasqueradeCIDRs.Nodup → c1.NonMasqueradeCIDRs.Nodup) ∧
        c1.MasqLinkLocal = (c.MasqLinkLocal || frs.any MasqConfig.MasqLinkLocal) ∧
        c1.MasqLinkLocalIPv6 = (c.MasqLinkLocalIPv6 || frs.any MasqConfig.MasqLinkLocalIPv6) := by
  induction hfr with
  | nil =>
    intro k c a
    exact ⟨c, by simp [syncConfig_loop_nil], by simp, fun h => h, by simp, by simp⟩
  | @cons name cfg names frs hdec _ ih =>
    intro k c a
    have hm : isConfigFile name = true := hmatch name (List.mem_cons_self _ _)
    obtain ⟨c1, hloop, hmem, hnd, hl4, hl6⟩ :=
      ih (fun x hx => hmatch x (List.mem_cons_of_mem _ hx)) (k + 1)
        (MasqConfig.merge (w.mapOrder k) c cfg) true
    refine ⟨c1, ?_, ?_, ?_, ?_, ?_⟩
    · rw [syncConfig_loop_match w name names k c a hm, hdec]
      simp only [hloop]
      simp
    · intro s
      rw [hmem s, mem_merge_cidrs, List.flatMap_cons, List.mem_append, or_assoc]
    · intro h
      exact hnd (nodup_merge_of_nodup _ c cfg h)
    · rw [hl4, merge_MasqLinkLocal, List.any_cons, Bool.or_assoc]
    · rw [hl6, merge_MasqLinkLocalIPv6, List.any_cons, Bool.or_assoc]

/-- A duplicate-free list drawn from `all` is no longer than `all` without its duplicates. -/
theorem length_le_dedup (l all : List String) (hl : l.Nodup) (hsub : ∀ s ∈ l, s ∈ all) :
    l.length ≤ all.dedup.length := by
  apply List.Subperm.length_le
  apply List.subperm_of_subset hl
  intro s hs
  exact List.mem_dedup.mpr (hsub s hs)

theorem validate_of_valid_ranges (enableIPv6 : Bool) (c : MasqConfig)
    (hlen : c.NonMasqueradeCIDRs.length ≤ 64)
    (hall : ∀ s ∈ c.NonMasqueradeCIDRs,
      AlignedCIDR s ∧ (IPv4CIDR s ∨ (IPv6CIDR s ∧ enableIPv6 = true))) :
    c.validate enableIPv6 = none := by
  have hn : ¬ c.NonMasqueradeCIDRs.length > 64 := by omega
  simp only [MasqConfig.validate, hn, if_false]
  apply validate_loop_none
  intro s hs
  obtain ⟨hal, hfam⟩ := hall s hs
  refine ⟨(validateCIDR_none_iff_aligned s).mpr hal, ?_⟩
  rcases hfam with h4 | ⟨_, he⟩
  · right; exact isIPv6CIDR_of_IPv4CIDR s h4
  · left; exact he

/-- The result of a load in which every matching entry decodes. -/
theorem syncConfig_of_fragments {σ : Type} (w : World) (flags : Flags) (m : MasqDaemon σ)
    (files : List String) (frs : List MasqConfig)
    (hdir : w.ReadDir configPath = .ok files)
    (hfr : List.Forall₂ (fun name cfg => w.decodeFile name = .ok cfg)
      (files.filter isConfigFile) frs) :
    ∃ c1, (∀ s, s ∈ c1.NonMasqueradeCIDRs ↔ s ∈ frs.flatMap MasqConfig.NonMasqueradeCIDRs) ∧
      c1.NonMasqueradeCIDRs.Nodup ∧
      c1.MasqLinkLocal = frs.any MasqConfig.MasqLinkLocal ∧
      c1.MasqLinkLocalIPv6 = frs.any MasqConfig.MasqLinkLocalIPv6 ∧
      m.syncConfig w flags =
        match (if frs.isEmpty then DefaultMasqConfig flags.noMasqueradeAllReservedRanges
            else c1).validate flags.enableIPv6 with
        | some err => (some (Error.invalidConfig err), m)
        | none => (none, { m with config :=
            if frs.isEmpty then DefaultMasqConfig flags.noMasqueradeAllReservedRanges else c1 }) := by
  obtain ⟨c1, hloop, hmem, hnd, hl4, hl6⟩ :=
    syncConfig_loop_merged w (files.filter isConfigFile) frs
      (fun name hn => (List.mem_filter.mp hn).2) hfr 0 EmptyMasqConfig false
  refine ⟨c1, ?_, hnd List.nodup_nil, by rw [hl4]; rfl, by rw [hl6]; rfl, ?_⟩
  · intro s
    rw [hmem s]
    simp [EmptyMasqConfig]
  · rw [syncConfig_eq w flags m files hdir, syncConfig_loop_filter, hloop]
    cases frs with
    | nil =>
      simp only [List.isEmpty_nil, Bool.not_true, Bool.or_self, Bool.not_false, if_true]
    | cons f rest =>
      simp only [List.isEmpty_cons, Bool.not_false, Bool.or_true, Bool.not_true,
        Bool.false_eq_true, if_false]

theorem aligned_v4_ten : AlignedCIDR "10.0.0.0/8" ∧ IPv4CIDR "10.0.0.0/8" :=
  ⟨⟨Addr.v4 [10, 0, 0, 0], 8, by decide, by decide⟩,
   ⟨Addr.v4 [10, 0, 0, 0], 8, by decide, by decide⟩⟩

set_option maxRecDepth 100000 in
/-- One fragment that lists the range `10.0.0.0/8` sixty-five times. -/
theorem repeated_range_fragment :
    List.Forall₂
        (fun name cfg =>
          (World.ofTable
            [("ip-masq-config-0", ⟨List.replicate 65 "10.0.0.0/8", false, false⟩)]).decodeFile name
            = .ok cfg)
        (["ip-masq-config-0"].filter (fun name => HasPrefix name configFilePrefix))
        [⟨List.replicate 65 "10.0.0.0/8", false, false⟩] ∧
    ([(⟨List.replicate 65 "10.0.0.0/8", false, false⟩ : MasqConfig)].flatMap
        MasqConfig.NonMasqueradeCIDRs).length = 65 ∧
    ([(⟨List.replicate 65 "10.0.0.0/8", false, false⟩ : MasqConfig)].flatMap
        MasqConfig.NonMasqueradeCIDRs).dedup.length ≤ 64 ∧
    (MasqDaemon.syncConfig
        (World.ofTable [("ip-masq-config-0", ⟨List.replicate 65 "10.0.0.0/8", false, false⟩)])
        Flags.default (⟨⟨["1.0.0.0/8"], true, true⟩, (), ()⟩ : MasqDaemon Unit)).2.config
      = ⟨["10.0.0.0/8"], false, false⟩ := by
  decide

/-! ## Lemmas on error messages -/

theorem appendEscapedRune_plain (printable : Char → Bool) (buf : List Char) (c : Char)
    (h : plainChar c = true) : appendEscapedRune printable buf c = buf ++ [c] := by
  simp only [plainChar, Bool.and_eq_true, decide_eq_true_eq, bne_iff_ne, ne_eq] at h
  obtain ⟨⟨⟨h1, h2⟩, h3⟩, h4⟩ := h
  have hq : (c == quoteChar) = false := by simpa using h3
  have hb : (c == backslash) = false := by simpa using h4
  have hp : IsPrint printable c = true := by
    have h5 : c.toNat ≤ 0xFF := by omega
    simp [IsPrint, h5, h1, h2]
  simp [appendEscapedRune, hq, hb, hp]

theorem foldl_appendEscapedRune_plain (printable : Char → Bool) (l : List Char)
    (h : ∀ c ∈ l, plainChar c = true) :
    ∀ buf, l.foldl (appendEscapedRune printable) buf = buf ++ l := by
  induction l with
  | nil => intro buf; simp
  | cons c rest ih =>
    intro buf
    rw [List.foldl_cons, appendEscapedRune_plain printable buf c (h c (List.mem_cons_self _ _)),
      ih (fun x hx => h x (List.mem_cons_of_mem _ hx))]
    simp

/-- A string of printable ASCII characters without quote and backslash is quoted
by putting it between double quotes. -/
theorem Quote_plain (printable : Char → Bool) (s : String)
    (h : ∀ c ∈ s.toList, plainChar c = true) :
    Quote printable s = "\"" ++ s ++ "\"" := by
  apply String.ext
  rw [Quote, foldl_appendEscapedRune_plain printable _ h]
  rfl

theorem plainChar_of_cidrChar (c : Char) (h : cidrChar c = true) : plainChar c = true := by
  have hr : (48 ≤ c.toNat ∧ c.toNat ≤ 57) ∨ (97 ≤ c.toNat ∧ c.toNat ≤ 102) ∨
      (65 ≤ c.toNat ∧ c.toNat ≤ 70) ∨ c.toNat = 46 ∨ c.toNat = 58 ∨ c.toNat = 47 := by
    simp only [cidrChar, Bool.or_eq_true, beq_iff_eq] at h
    rcases h with ((h | h) | h) | h
    · unfold hexVal at h
      split at h
      · left; assumption
      · split at h
        · right; left; assumption
        · split at h
          · right; right; left; assumption
          · simp at h
    · subst h; right; right; right; left; rfl
    · subst h; right; right; right; right; left; rfl
    · subst h; right; right; right; right; right; rfl
  have hq : c ≠ quoteChar := by
    intro e
    have : c.toNat = 34 := by rw [e]; rfl
    omega
  have hb : c ≠ backslash := by
    intro e
    have : c.toNat = 92 := by rw [e]; rfl
    omega
  simp only [plainChar, Bool.and_eq_true, decide_eq_true_eq, bne_iff_ne, ne_eq]
  exact ⟨⟨⟨by omega, by omega⟩, hq⟩, hb⟩

/-- A range that decodes is quoted by putting it between double quotes. -/
theorem Quote_of_parts (printable : Char → Bool) (s : String) (a : Addr) (n : Nat)
    (h : ParseCIDR.parts s = some (a, n)) : Quote printable s = "\"" ++ s ++ "\"" :=
  Quote_plain printable s
    (fun c hc => plainChar_of_cidrChar c (ParseCIDR_parts_chars s a n h c hc))

/-- The loop of `validate` that fails stopped at a range: the ranges before it
passed both tests, and the error is that of the range. -/
theorem validate_loop_some (enableIPv6 : Bool) (l : List String) (err : Error)
    (h : MasqConfig.validate.loop enableIPv6 l = some err) :
    ∃ pre s post, l = pre ++ s :: post ∧
      (∀ t ∈ pre, validateCIDR t = none ∧ (enableIPv6 = true ∨ isIPv6CIDR t = false)) ∧
      (validateCIDR s = some err ∨
        (validateCIDR s = none ∧ enableIPv6 = false ∧ isIPv6CIDR s = true ∧
          err = Error.ipv6NotEnabled s)) := by
  induction l with
  | nil => simp [MasqConfig.validate.loop] at h
  | cons c rest ih =>
    rw [MasqConfig.validate.loop] at h
    cases hv : validateCIDR c with
    | some e1 =>
      rw [hv] at h
      simp only [Option.some.injEq] at h
      subst h
      exact ⟨[], c, rest, rfl, fun t ht => absurd ht (List.not_mem_nil _), Or.inl hv⟩
    | none =>
      rw [hv] at h
      dsimp only at h
      by_cases h6 : (!enableIPv6 && isIPv6CIDR c) = true
      · rw [if_pos h6] at h
        simp only [Option.some.injEq] at h
        simp only [Bool.and_eq_true, Bool.not_eq_true'] at h6
        exact ⟨[], c, rest, rfl, fun t ht => absurd ht (List.not_mem_nil _),
          Or.inr ⟨hv, h6.1, h6.2, h.symm⟩⟩
      · rw [if_neg h6] at h
        obtain ⟨pre, s, post, hl, hpre, hs⟩ := ih h
        refine ⟨c :: pre, s, post, by rw [hl]; rfl, ?_, hs⟩
        intro t ht
        rcases List.mem_cons.mp ht with rfl | ht
        · refine ⟨hv, ?_⟩
          cases enableIPv6 with
          | true => exact Or.inl rfl
          | false =>
            right
            simpa using h6
        · exact hpre t ht

/-- The error of `validateCIDR`: the parse error of a range that does not decode, the
alignment error of one that decodes with address bits below the prefix length. -/
theorem validateCIDR_some (s : String) (err : Error) (h : validateCIDR s = some err) :
    (ParseCIDR.parts s = none ∧ err = Error.cidrParse s ⟨"CIDR address", s⟩) ∨
    (∃ a n, ParseCIDR.parts s = some (a, n) ∧ a.value % 2 ^ (a.BitLen - n) ≠ 0 ∧
      err = Error.cidrAlign s a.As16
        ⟨IP.Mask a.As16 (CIDRMask n a.BitLen), CIDRMask n a.BitLen⟩) := by
  cases hp : ParseCIDR.parts s with
  | none =>
    rw [validateCIDR_of_parts_none s hp] at h
    simp only [Option.some.injEq] at h
    exact Or.inl ⟨rfl, h.symm⟩
  | some p =>
    obtain ⟨a, n⟩ := p
    right
    rw [validateCIDR_of_parts s a n hp] at h
    obtain ⟨hwf, hn, _⟩ := ParseCIDR_parts_shape s a n hp
    split at h
    · simp at h
    · rename_i hne
      simp only [Option.some.injEq] at h
      refine ⟨a, n, rfl, ?_, h.symm⟩
      intro hz
      exact hne ((Equal_network_iff a n hwf hn).mpr hz)

/-- The loop of `validate` on a list that holds the empty string and whose other
ranges pass both tests: the parse error of the empty string. -/
theorem validate_loop_empty_range (enableIPv6 : Bool) (l : List String) (hl : "" ∈ l)
    (hothers : ∀ s ∈ l, s ≠ "" →
      validateCIDR s = none ∧ (enableIPv6 = true ∨ isIPv6CIDR s = false)) :
    MasqConfig.validate.loop enableIPv6 l
      = some (Error.cidrParse "" ⟨"CIDR address", ""⟩) := by
  induction l with
  | nil => exact absurd hl (List.not_mem_nil _)
  | cons c rest ih =>
    rw [MasqConfig.validate.loop]
    by_cases hc : c = ""
    · subst hc
      rw [validateCIDR_empty]
    · obtain ⟨hv, h6⟩ := hothers c (List.mem_cons_self _ _) hc
      rw [hv]
      dsimp only
      have hcond : ¬ (!enableIPv6 && isIPv6CIDR c) = true := by
        rcases h6 with h | h <;> simp [h]
      rw [if_neg hcond]
      apply ih
      · rcases List.mem_cons.mp hl with h | h
        · exact absurd h.symm hc
        · exact h
      · intro s hs
        exact hothers s (List.mem_cons_of_mem _ hs)

theorem message_cidrParse (printable : Char → Bool) (s : String) :
    (Error.cidrParse s ⟨"CIDR address", s⟩).message printable
      = "CIDR " ++ Quote printable s ++ " could not be parsed, invalid CIDR address: " ++ s := by
  apply String.ext
  simp [Error.message, ParseError.Error]

theorem message_cidrAlign (printable : Char → Bool) (s : String) (ip : IP) (network : IPNet) :
    (Error.cidrAlign s ip network).message printable
      = "CIDR " ++ Quote printable s ++ " is not aligned to a CIDR block, ip: "
        ++ Quote printable (IP.String ip) ++ " network: "
        ++ Quote printable (IPNet.String network) := rfl

theorem message_ipv6NotEnabled (printable : Char → Bool) (s : String) :
    (Error.ipv6NotEnabled s).message printable
      = "ipv6 is not enabled, but ipv6 cidr " ++ s
        ++ " provided. Enable ipv6 using --enable-ipv6 agent flag" := rfl

theorem Quote_empty (printable : Char → Bool) : Quote printable "" = "\"\"" := rfl

/-- The message of the error `syncConfig` returns for an empty range. -/
theorem message_invalid_empty_range (printable : Char → Bool) :
    (Error.invalidConfig (Error.cidrParse "" ⟨"CIDR address", ""⟩)).message printable
      = "config is invalid, error: CIDR \"\" could not be parsed, invalid CIDR address: " := by
  have h : (Error.invalidConfig (Error.cidrParse "" ⟨"CIDR address", ""⟩)).message printable
      = "config is invalid, error: " ++ ("CIDR " ++ Quote printable ""
        ++ " could not be parsed, invalid CIDR address: " ++ "") := by
    rw [← message_cidrParse]; rfl
  rw [h, Quote_empty]
  decide

/-- The two errors of the test `TestConfigValidate` and their messages. -/
theorem validate_test_messages (printable : Char → Bool) :
    MasqConfig.validate false ⟨["10.0.0.0/8", "abcdefg"], false, false⟩
      = some (Error.cidrParse "abcdefg" ⟨"CIDR address", "abcdefg"⟩) ∧
    (Error.cidrParse "abcdefg" ⟨"CIDR address", "abcdefg"⟩).message printable
      = "CIDR \"abcdefg\" could not be parsed, invalid CIDR address: abcdefg" ∧
    MasqConfig.validate false ⟨["10.0.0.1/8"], false, false⟩
      = some (Error.cidrAlign "10.0.0.1/8"
          [0, 0, 0, 0, 0, 0, 0, 0, 0, 0, 255, 255, 10, 0, 0, 1]
          ⟨[10, 0, 0, 0], [255, 0, 0, 0]⟩) ∧
    (Error.cidrAlign "10.0.0.1/8" [0, 0, 0, 0, 0, 0, 0, 0, 0, 0, 255, 255, 10, 0, 0, 1]
        ⟨[10, 0, 0, 0], [255, 0, 0, 0]⟩).message printable
      = "CIDR \"10.0.0.1/8\" is not aligned to a CIDR block, ip: \"10.0.0.1\" network: \"10.0.0.0/8\"" := by
  refine ⟨by decide, ?_, by decide, ?_⟩
  · rw [message_cidrParse, Quote_plain printable "abcdefg" (by decide)]
    decide
  · have e1 : IP.String [0, 0, 0, 0, 0, 0, 0, 0, 0, 0, 255, 255, 10, 0, 0, 1] = "10.0.0.1" := by
      decide
    have e2 : IPNet.String ⟨[10, 0, 0, 0], [255, 0, 0, 0]⟩ = "10.0.0.0/8" := by decide
    rw [message_cidrAlign, e1, e2, Quote_plain printable "10.0.0.1/8" (by decide),
      Quote_plain printable "10.0.0.1" (by decide),
      Quote_plain printable "10.0.0.0/8" (by decide)]
    decide

set_option maxRecDepth 100000 in
/-- The listings of the tests `single invalid yaml file, empty entry` and `multiple
json files, but one has empty CIDR`: what `syncConfig` returns. -/
theorem empty_range_test_loads :
    (MasqDaemon.syncConfig (World.ofTable [("ip-masq-config-0", ⟨[""], false, false⟩)])
        ⟨"IP-MASQ-AGENT", false, true, 60⟩ (⟨DefaultMasqConfig false, (), ()⟩ : MasqDaemon Unit)).1
      = some (Error.invalidConfig (Error.cidrParse "" ⟨"CIDR address", ""⟩)) ∧
    (MasqDaemon.syncConfig
        (World.ofTable
          [("ip-masq-config-0", ⟨["111.254.0.0/15", "8.0.0.0/8"], false, false⟩),
           ("ip-masq-config-1", ⟨["", "172.168.0.0/16"], true, true⟩)])
        ⟨"IP-MASQ-AGENT", false, true, 60⟩ (⟨DefaultMasqConfig false, (), ()⟩ : MasqDaemon Unit)).1
      = some (Error.invalidConfig (Error.cidrParse "" ⟨"CIDR address", ""⟩)) ∧
    "config is invalid, error: CIDR \"\" could not be parsed, invalid CIDR address: "
      ≠ "config ip-masq-config-0 is invalid: CIDR \"\" could not be parsed, invalid CIDR address: " ∧
    "config is invalid, error: CIDR \"\" could not be parsed, invalid CIDR address: "
      ≠ "config ip-masq-config-1 is invalid: CIDR \"\" could not be parsed, invalid CIDR address: " := by
  decide

set_option maxRecDepth 100000 in
/-- The fragments of the test `multiple json files, but one has empty CIDR`. -/
theorem empty_range_test_fragments :
    List.Forall₂
        (fun name cfg =>
          (World.ofTable
            [("ip-masq-config-0", ⟨["111.254.0.0/15", "8.0.0.0/8"], false, false⟩),
             ("ip-masq-config-1", ⟨["", "172.168.0.0/16"], true, true⟩)]).decodeFile name
            = .ok cfg)
        (["ip-masq-config-0", "ip-masq-config-1"].filter
          (fun name => HasPrefix name configFilePrefix))
        [⟨["111.254.0.0/15", "8.0.0.0/8"], false, false⟩,
         ⟨["", "172.168.0.0/16"], true, true⟩] ∧
    "" ∈ [(⟨["111.254.0.0/15", "8.0.0.0/8"], false, false⟩ : MasqConfig),
          ⟨["", "172.168.0.0/16"], true, true⟩].flatMap MasqConfig.NonMasqueradeCIDRs ∧
    (∀ s ∈ [(⟨["111.254.0.0/15", "8.0.0.0/8"], false, false⟩ : MasqConfig),
          ⟨["", "172.168.0.0/16"], true, true⟩].flatMap MasqConfig.NonMasqueradeCIDRs,
      s ≠ "" → validateCIDR s = none ∧ (true = true ∨ isIPv6CIDR s = false)) ∧
    ([(⟨["111.254.0.0/15", "8.0.0.0/8"], false, false⟩ : MasqConfig),
          ⟨["", "172.168.0.0/16"], true, true⟩].flatMap
        MasqConfig.NonMasqueradeCIDRs).dedup.length ≤ 64 := by
  decide

/-! ## Lemmas on the RETURN lines of a script -/

theorem isReturnLine_specReturnLine (chain s : String) :
    isReturnLine (specReturnLine chain s) = true := by
  rw [isReturnLine, List.isSuffixOf_iff_suffix]
  have he : (specReturnLine chain s).toList
      = ("-A ".toList ++ chain.toList ++ (" " ++ nonMasqRuleComment ++ " -d ").toList
        ++ s.toList) ++ " -j RETURN".toList := by
    simp [specReturnLine, String.toList]
  rw [he]
  exact List.suffix_append _ _

/-- A text that ends with a closed text whose last character is not `N` is not a
RETURN rule. -/
theorem not_isReturnLine_of_last (pre : List Char) (c : Char) (hc : (c == 'N') = false)
    (line : String) (h : line.toList = pre ++ [c]) : isReturnLine line = false := by
  rw [isReturnLine, List.isSuffixOf, h]
  have hr : " -j RETURN".toList.reverse = 'N' :: "RUTER j- ".toList := by decide
  rw [hr, List.reverse_append]
  simp only [List.reverse_cons, List.reverse_nil, List.nil_append, List.singleton_append,
    List.isPrefixOf]
  have : ('N' == c) = false := by
    have h1 : c ≠ 'N' := by simpa using hc
    simpa using fun e => h1 e.symm
  rw [this]
  rfl

theorem not_isReturnLine_fixed (chain : String) :
    isReturnLine "*nat" = false ∧ isReturnLine (":" ++ chain ++ " - [0:0]") = false ∧
    isReturnLine (specMasqueradeLine chain) = false ∧ isReturnLine "COMMIT" = false := by
  refine ⟨by decide, ?_, ?_, by decide⟩
  · apply not_isReturnLine_of_last (":".toList ++ chain.toList ++ " - [0:0".toList) ']'
      (by decide)
    simp [String.toList]
  · apply not_isReturnLine_of_last
      ("-A ".toList ++ chain.toList ++ (" " ++ masqRuleComment ++ " -j MASQUERAD").toList) 'E'
      (by decide)
    simp [specMasqueradeLine, masqRuleComment, String.toList]

/-- The RETURN rules among the lines of a script: the link-local line unless
link-local is masqueraded, then the line of each range, in the order of the
ranges. -/
theorem specLines_filter_isReturnLine (chain : String) (flag : Bool) (linkLocal : String)
    (ranges : List String) :
    (specLines chain flag linkLocal ranges).filter isReturnLine
      = (if flag then [] else [specReturnLine chain linkLocal])
        ++ ranges.map (specReturnLine chain) := by
  obtain ⟨h1, h2, h3, h4⟩ := not_isReturnLine_fixed chain
  have hmap : (ranges.map (specReturnLine chain)).filter isReturnLine
      = ranges.map (specReturnLine chain) := by
    rw [List.filter_eq_self]
    intro l hl
    obtain ⟨s, _, rfl⟩ := List.mem_map.mp hl
    exact isReturnLine_specReturnLine chain s
  rw [specLines_split]
  simp only [List.filter_append, hmap]
  cases flag <;>
    simp [List.filter_cons, h1, h2, h3, h4, isReturnLine_specReturnLine]

/-- A configuration `validate` accepts with IPv6 disabled has IPv4 ranges only: the
family filter of the IPv4 script keeps every range. -/
theorem rangesOfFamily_of_validate (c : MasqConfig) (hv : c.validate false = none) :
    rangesOfFamily false c.NonMasqueradeCIDRs = c.NonMasqueradeCIDRs ∧
    rangesOfFamily true c.NonMasqueradeCIDRs = [] := by
  obtain ⟨_, hall⟩ := validate_none_spec false c hv
  have h4 : ∀ s ∈ c.NonMasqueradeCIDRs, isIPv6CIDR s = false := by
    intro s hs
    rcases (hall s hs).2 with h | h
    · exact absurd h (by decide)
    · exact h
  constructor
  · rw [rangesOfFamily, List.filter_eq_self]
    intro s hs
    simp [h4 s hs]
  · rw [rangesOfFamily, List.filter_eq_nil_iff]
    intro s hs
    simp [h4 s hs]

set_option maxRecDepth 100000 in
/-- The IPv4-mapped range `::ffff:10.0.0.0/104`: how it decodes and is classified,
and the two scripts of the configuration that holds it alone. -/
theorem mapped_range_facts :
    ParseCIDR.parts "::ffff:10.0.0.0/104"
      = some (Addr.v6 [0, 0, 0, 0, 0, 0, 0, 0, 0, 0, 255, 255, 10, 0, 0, 0] [], 104) ∧
    IP.To4 (Addr.v6 [0, 0, 0, 0, 0, 0, 0, 0, 0, 0, 255, 255, 10, 0, 0, 0] []).As16
      = [10, 0, 0, 0] ∧
    (Addr.v6 [0, 0, 0, 0, 0, 0, 0, 0, 0, 0, 255, 255, 10, 0, 0, 0] []).value
      % 2 ^ ((Addr.v6 [0, 0, 0, 0, 0, 0, 0, 0, 0, 0, 255, 255, 10, 0, 0, 0] []).BitLen - 104)
      = 0 ∧
    isIPv6CIDR "::ffff:10.0.0.0/104" = false ∧
    validateCIDR "::ffff:10.0.0.0/104" = none ∧
    MasqConfig.validate false ⟨["::ffff:10.0.0.0/104"], false, false⟩ = none ∧
    (MasqDaemon.syncMasqRules Iptables.alwaysOK.recording Flags.default
        ⟨⟨["::ffff:10.0.0.0/104"], false, false⟩, ((), []), ((), [])⟩).2.iptables.2
      = ["*nat\n:IP-MASQ-AGENT - [0:0]\n-A IP-MASQ-AGENT -m comment --comment \"ip-masq-agent: local traffic is not subject to MASQUERADE\" -d 169.254.0.0/16 -j RETURN\n-A IP-MASQ-AGENT -m comment --comment \"ip-masq-agent: local traffic is not subject to MASQUERADE\" -d ::ffff:10.0.0.0/104 -j RETURN\n-A IP-MASQ-AGENT -m comment --comment \"ip-masq-agent: outbound traffic is subject to MASQUERADE (must be last in chain)\" -j MASQUERADE\nCOMMIT\n"] ∧
    (MasqDaemon.syncMasqRulesIPv6 Iptables.alwaysOK.recording
        ⟨"IP-MASQ-AGENT", false, true, 60⟩
        ⟨⟨["::ffff:10.0.0.0/104"], false, false⟩, ((), []), ((), [])⟩).2.ip6tables.2
      = ["*nat\n:IP-MASQ-AGENT - [0:0]\n-A IP-MASQ-AGENT -m comment --comment \"ip-masq-agent: local traffic is not subject to MASQUERADE\" -d fe80::/10 -j RETURN\n-A IP-MASQ-AGENT -m comment --comment \"ip-masq-agent: outbound traffic is subject to MASQUERADE (must be last in chain)\" -j MASQUERADE\nCOMMIT\n"] := by
  decide

theorem mapped_range_aligned_v4 :
    AlignedCIDR "::ffff:10.0.0.0/104" ∧ IPv4CIDR "::ffff:10.0.0.0/104" :=
  ⟨⟨_, _, mapped_range_facts.1, mapped_range_facts.2.2.1⟩,
   ⟨_, _, mapped_range_facts.1, by rw [mapped_range_facts.2.1]; decide⟩⟩

theorem specReturnLine_text (chain s : String) :
    specReturnLine chain s
      = "-A " ++ chain ++ " " ++ nonMasqRuleComment ++ (" -d " ++ s ++ " -j RETURN") := by
  apply String.ext
  simp [specReturnLine, String.append_assoc]

/-! ## Lemmas on notation and family -/

theorem mem_foldl_merge (fs : List (MapOrder × MasqConfig)) (s : String) :
    ∀ c : MasqConfig,
      s ∈ (fs.foldl (fun c p => MasqConfig.merge p.1 c p.2) c).NonMasqueradeCIDRs ↔
        s ∈ c.NonMasqueradeCIDRs ∨ ∃ p ∈ fs, s ∈ p.2.NonMasqueradeCIDRs := by
  induction fs with
  | nil => intro c; simp
  | cons p fs ih =>
    intro c
    rw [List.foldl_cons, ih, mem_merge_cidrs]
    simp only [List.mem_cons, exists_eq_or_imp, or_assoc]

/-- The ranges of the merged configuration are the ranges of the fragments. -/
theorem mem_mergeAll (frags : List (MapOrder × MasqConfig)) (s : String) :
    s ∈ (mergeAll frags).NonMasqueradeCIDRs ↔ ∃ p ∈ frags, s ∈ p.2.NonMasqueradeCIDRs := by
  rw [mergeAll, mem_foldl_merge]
  simp [EmptyMasqConfig]

theorem nodup_foldl_merge (fs : List (MapOrder × MasqConfig)) :
    ∀ c : MasqConfig, c.NonMasqueradeCIDRs.Nodup →
      (fs.foldl (fun c p => MasqConfig.merge p.1 c p.2) c).NonMasqueradeCIDRs.Nodup := by
  induction fs with
  | nil => intro c hc; simpa using hc
  | cons p fs ih =>
    intro c hc
    exact ih _ (nodup_merge_of_nodup p.1 c p.2 hc)

theorem nodup_mergeAll (frags : List (MapOrder × MasqConfig)) :
    (mergeAll frags).NonMasqueradeCIDRs.Nodup :=
  nodup_foldl_merge frags EmptyMasqConfig List.nodup_nil

set_option maxRecDepth 100000 in
/-- The fragments of the test `multiple valid yaml files, partial keys, duplicate cidr`,
the last with its first range written twice, merged in two map orders. -/
theorem duplicate_cidr_merge :
    (mergeAll
        [(MapOrder.insertion, ⟨["155.128.0.0/9", "10.0.0.0/8"], false, false⟩),
         (MapOrder.reversed, ⟨[], false, true⟩),
         (MapOrder.reversed,
           ⟨["10.240.0.0/16", "10.0.0.0/8", "180.132.128.0/18", "10.240.0.0/16"],
            false, false⟩)]).NonMasqueradeCIDRs
      = ["180.132.128.0/18", "10.240.0.0/16", "10.0.0.0/8", "155.128.0.0/9"] := by
  decide

/-! ## Lemmas on loads with matching entries -/

theorem exists_fragments (w : World) (names : List String)
    (hall : ∀ p ∈ names, ∃ cfg, w.decodeFile p = .ok cfg) :
    ∃ frs, List.Forall₂ (fun name cfg => w.decodeFile name = .ok cfg) names frs := by
  induction names with
  | nil => exact ⟨[], List.Forall₂.nil⟩
  | cons a rest ih =>
    obtain ⟨cfg, hcfg⟩ := hall a (List.mem_cons_self _ _)
    obtain ⟨frs, hfrs⟩ := ih (fun p hp => hall p (List.mem_cons_of_mem _ hp))
    exact ⟨cfg :: frs, List.Forall₂.cons hcfg hfrs⟩

/-- A load from a listed directory with a matching entry never substitutes the
default: it fails and leaves the daemon, or it installs the merge of the
fragments of the matching entries. -/
theorem syncConfig_with_matching_entry {σ : Type} (w : World) (flags : Flags)
    (m : MasqDaemon σ) (files : List String) (hdir : w.ReadDir configPath = .ok files)
    (hex : ∃ name ∈ files, isConfigFile name = true) :
    (∃ err, m.syncConfig w flags = (some err, m)) ∨
    (∃ frs c1, frs ≠ [] ∧
      List.Forall₂ (fun name cfg => w.decodeFile name = .ok cfg)
        (files.filter isConfigFile) frs ∧
      (∀ s, s ∈ c1.NonMasqueradeCIDRs ↔ s ∈ frs.flatMap MasqConfig.NonMasqueradeCIDRs) ∧
      c1.MasqLinkLocal = frs.any MasqConfig.MasqLinkLocal ∧
      c1.MasqLinkLocalIPv6 = frs.any MasqConfig.MasqLinkLocalIPv6 ∧
      m.syncConfig w flags = (none, { m with config := c1 })) := by
  by_cases hall : ∀ p ∈ files.filter isConfigFile, ∃ cfg, w.decodeFile p = .ok cfg
  · obtain ⟨frs, hfr⟩ := exists_fragments w _ hall
    obtain ⟨c1, hmem, _, hl4, hl6, hres⟩ := syncConfig_of_fragments w flags m files frs hdir hfr
    have hne : frs ≠ [] := by
      intro hnil
      subst hnil
      obtain ⟨name, hn, hm⟩ := hex
      have : name ∈ files.filter isConfigFile := List.mem_filter.mpr ⟨hn, hm⟩
      cases hfr' : files.filter isConfigFile with
      | nil => rw [hfr'] at this; exact absurd this (List.not_mem_nil _)
      | cons a rest => rw [hfr'] at hfr; cases hfr
    have hemp : frs.isEmpty = false := by
      cases frs with
      | nil => exact absurd rfl hne
      | cons f rest => rfl
    rw [hemp] at hres
    simp only [Bool.false_eq_true, if_false] at hres
    cases hv : c1.validate flags.enableIPv6 with
    | some err =>
      rw [hv] at hres
      exact Or.inl ⟨_, hres⟩
    | none =>
      rw [hv] at hres
      exact Or.inr ⟨frs, c1, hne, hfr, hmem, hl4, hl6, hres⟩
  · left
    push_neg at hall
    obtain ⟨p, hp, hbad⟩ := hall
    obtain ⟨hpf, hpm⟩ := List.mem_filter.mp hp
    cases hd : w.decodeFile p with
    | ok cfg => exact absurd hd (hbad cfg)
    | error e =>
      obtain ⟨err1, herr1⟩ := syncConfig_loop_error w p e hpm hd files 0 EmptyMasqConfig false hpf
      exact ⟨err1, by rw [syncConfig_eq w flags m files hdir, herr1]⟩

/-- A load whose fragments hold more than 64 distinct ranges is refused with the
count of the distinct ranges. -/
theorem syncConfig_too_many_distinct {σ : Type} (w : World) (flags : Flags) (m : MasqDaemon σ)
    (files : List String) (frs : List MasqConfig)
    (hdir : w.ReadDir configPath = .ok files)
    (hfr : List.Forall₂ (fun name cfg => w.decodeFile name = .ok cfg)
      (files.filter isConfigFile) frs)
    (hmany : 64 < (frs.flatMap MasqConfig.NonMasqueradeCIDRs).dedup.length) :
    m.syncConfig w flags
      = (some (Error.invalidConfig
          (Error.tooManyCIDRs (frs.flatMap MasqConfig.NonMasqueradeCIDRs).dedup.length)), m) := by
  obtain ⟨c1, hmem, hnd, _, _, hres⟩ := syncConfig_of_fragments w flags m files frs hdir hfr
  have hlen : c1.NonMasqueradeCIDRs.length
      = (frs.flatMap MasqConfig.NonMasqueradeCIDRs).dedup.length := by
    apply List.Perm.length_eq
    rw [List.perm_ext_iff_of_nodup hnd (List.nodup_dedup _)]
    intro s
    rw [hmem s, List.mem_dedup]
  have hv : c1.validate flags.enableIPv6
      = some (Error.tooManyCIDRs (frs.flatMap MasqConfig.NonMasqueradeCIDRs).dedup.length) := by
    have hgt : (frs.flatMap MasqConfig.NonMasqueradeCIDRs).dedup.length > 64 := hmany
    simp only [MasqConfig.validate, hlen, if_pos hgt]
  cases frs with
  | nil => simp at hmany
  | cons f rest =>
    rw [hres]
    simp only [List.isEmpty_cons, Bool.false_eq_true, if_false, hv]

set_option maxRecDepth 100000 in
/-- One fragment that lists the sixty-five ranges `0.0.0.0/8` to `64.0.0.0/8`. -/
theorem distinct_ranges_fragment :
    List.Forall₂
        (fun name cfg =>
          (World.ofTable
            [("ip-masq-config-0",
              ⟨(List.range 65).map (fun i => uitoa i ++ ".0.0.0/8"), false, false⟩)]).decodeFile
            name = .ok cfg)
        (["ip-masq-config-0"].filter (fun name => HasPrefix name configFilePrefix))
        [⟨(List.range 65).map (fun i => uitoa i ++ ".0.0.0/8"), false, false⟩] ∧
    ([(⟨(List.range 65).map (fun i => uitoa i ++ ".0.0.0/8"), false, false⟩ : MasqConfig)].flatMap
        MasqConfig.NonMasqueradeCIDRs).dedup.length = 65 ∧
    (∀ s ∈ (List.range 65).map (fun i => uitoa i ++ ".0.0.0/8"),
      validateCIDR s = none ∧ isIPv6CIDR s = false) := by
  decide

/-! ## The claims -/

/-- C1: whenever `syncConfig` returns an error (listing, read, decode or
validation failure), the daemon after the call is the daemon before the call:
the active configuration is untouched and nothing merged so far is adopted. -/
theorem syncConfig_error_keeps_active_config {σ : Type} (w : World) (flags : Flags)
    (m : MasqDaemon σ) (err : Error) (h : (m.syncConfig w flags).1 = some err) :
    (m.syncConfig w flags).2 = m ∧ (m.syncConfig w flags).2.config = m.config := by
  have key : (m.syncConfig w flags).2 = m := by
    unfold MasqDaemon.syncConfig at h ⊢
    dsimp only at h ⊢
    cases hd : w.ReadDir configPath with
    | error e => rfl
    | ok files =>
      rw [hd] at h
      dsimp only at h ⊢
      cases hl : syncConfig.loop w files 0 EmptyMasqConfig false with
      | error e => rfl
      | ok r =>
        obtain ⟨c, configAdded⟩ := r
        rw [hl] at h
        dsimp only at h ⊢
        generalize (if (!configAdded) = true then
          DefaultMasqConfig flags.noMasqueradeAllReservedRanges else c) = c1 at h ⊢
        cases hv : MasqConfig.validate flags.enableIPv6 c1 with
        | some e => rfl
        | none =>
          rw [hv] at h
          cases h
  exact ⟨key, by rw [key]⟩

/-- A load of two fragments, the second with an empty range: the load fails on the
merged result and the default configuration stays active. -/
theorem syncConfig_error_keeps_active_config_witness :
    (MasqDaemon.syncConfig
        (World.ofTable
          [("ip-masq-config-0", ⟨["111.254.0.0/15", "8.0.0.0/8"], false, false⟩),
           ("ip-masq-config-1", ⟨["", "172.168.0.0/16"], true, true⟩)])
        Flags.default (⟨DefaultMasqConfig false, (), ()⟩ : MasqDaemon Unit)).1
      = some (Error.invalidConfig (Error.cidrParse "" ⟨"CIDR address", ""⟩)) ∧
    (MasqDaemon.syncConfig
        (World.ofTable
          [("ip-masq-config-0", ⟨["111.254.0.0/15", "8.0.0.0/8"], false, false⟩),
           ("ip-masq-config-1", ⟨["", "172.168.0.0/16"], true, true⟩)])
        Flags.default (⟨DefaultMasqConfig false, (), ()⟩ : MasqDaemon Unit)).2.config
      = DefaultMasqConfig false :=
  ⟨by decide,
   (syncConfig_error_keeps_active_config _ Flags.default ⟨DefaultMasqConfig false, (), ()⟩
      (Error.invalidConfig (Error.cidrParse "" ⟨"CIDR address", ""⟩)) (by decide)).2⟩

/-- C2: for a fragment with a non-empty range list, a string is in the merged
range list exactly when it was in the base or in the fragment. -/
theorem merge_ranges_are_union (o : MapOrder) (c n : MasqConfig)
    (h : n.NonMasqueradeCIDRs ≠ []) (s : String) :
    s ∈ (c.merge o n).NonMasqueradeCIDRs ↔
      s ∈ c.NonMasqueradeCIDRs ∨ s ∈ n.NonMasqueradeCIDRs := by
  rw [merge_cidrs_of_nonempty o c n h, mem_mergeCIDRs]

/-- A range present in base and fragment, merged with the map ranged in reverse. -/
theorem merge_ranges_are_union_witness :
    "3.3.3.0/24" ∈ (MasqConfig.merge MapOrder.reversed
        ⟨["155.128.0.0/9", "3.3.3.0/24"], false, true⟩
        ⟨["1.0.0.0/8", "3.3.3.0/24"], true, false⟩).NonMasqueradeCIDRs ↔
      "3.3.3.0/24" ∈ ["155.128.0.0/9", "3.3.3.0/24"] ∨ "3.3.3.0/24" ∈ ["1.0.0.0/8", "3.3.3.0/24"] :=
  merge_ranges_are_union MapOrder.reversed ⟨["155.128.0.0/9", "3.3.3.0/24"], false, true⟩
    ⟨["1.0.0.0/8", "3.3.3.0/24"], true, false⟩ (by decide) "3.3.3.0/24"

/-- C4: on a string that decodes as address/prefixLength, `validateCIDR` succeeds
exactly when the address bits below the prefix length are all zero (the
address is its own network address), and otherwise fails with the alignment
error; `10.0.0.1/8` fails with the alignment error, `10.0.0.0/8` succeeds. -/
theorem validateCIDR_succeeds_iff_aligned (s : String) (a : Addr) (n : Nat)
    (h : ParseCIDR.parts s = some (a, n)) :
    (validateCIDR s = none ↔ a.value % 2 ^ (a.BitLen - n) = 0) ∧
    (a.value % 2 ^ (a.BitLen - n) ≠ 0 →
      validateCIDR s = some (Error.cidrAlign s a.As16
        ⟨IP.Mask a.As16 (CIDRMask n a.BitLen), CIDRMask n a.BitLen⟩)) ∧
    validateCIDR "10.0.0.1/8" = some (Error.cidrAlign "10.0.0.1/8"
        [0, 0, 0, 0, 0, 0, 0, 0, 0, 0, 255, 255, 10, 0, 0, 1]
        ⟨[10, 0, 0, 0], [255, 0, 0, 0]⟩) ∧
    validateCIDR "10.0.0.0/8" = none := by
  obtain ⟨hwf, hn, _⟩ := ParseCIDR_parts_shape s a n h
  have key := Equal_network_iff a n hwf hn
  rw [validateCIDR_of_parts s a n h]
  refine ⟨?_, ?_, by decide, by decide⟩
  · rw [← key]
    cases IP.Equal a.As16 (IP.Mask a.As16 (CIDRMask n a.BitLen)) <;> simp
  · intro hne
    have hne1 : ¬ IP.Equal a.As16 (IP.Mask a.As16 (CIDRMask n a.BitLen)) = true :=
      fun he => hne (key.mp he)
    simp [hne1]

/-- The ranges `172.16.0.0/12` (aligned) and `172.16.0.1/12` (not aligned). -/
theorem validateCIDR_succeeds_iff_aligned_witness :
    ParseCIDR.parts "172.16.0.0/12" = some (Addr.v4 [172, 16, 0, 0], 12) ∧
    (validateCIDR "172.16.0.0/12" = none ↔
      (Addr.v4 [172, 16, 0, 0]).value % 2 ^ ((Addr.v4 [172, 16, 0, 0]).BitLen - 12) = 0) ∧
    ParseCIDR.parts "172.16.0.1/12" = some (Addr.v4 [172, 16, 0, 1], 12) ∧
    (validateCIDR "172.16.0.1/12" = none ↔
      (Addr.v4 [172, 16, 0, 1]).value % 2 ^ ((Addr.v4 [172, 16, 0, 1]).BitLen - 12) = 0) :=
  ⟨by decide,
   (validateCIDR_succeeds_iff_aligned "172.16.0.0/12" (Addr.v4 [172, 16, 0, 0]) 12
      (by decide)).1,
   by decide,
   (validateCIDR_succeeds_iff_aligned "172.16.0.1/12" (Addr.v4 [172, 16, 0, 1]) 12
      (by decide)).1⟩

/-- C5: on every string that does not decode as address/prefixLength,
`validateCIDR` fails with the parse error for that string (never the alignment
error); a string without `/` is such a string, and so are `abcdefg` and
`10.256.0.0/16` with its out-of-range octet. -/
theorem validateCIDR_undecodable_is_parse_error (s : String)
    (h : ParseCIDR.parts s = none) :
    validateCIDR s = some (Error.cidrParse s ⟨"CIDR address", s⟩) ∧
    (∀ t : String, '/' ∉ t.toList →
      validateCIDR t = some (Error.cidrParse t ⟨"CIDR address", t⟩)) ∧
    validateCIDR "abcdefg" = some (Error.cidrParse "abcdefg" ⟨"CIDR address", "abcdefg"⟩) ∧
    validateCIDR "10.256.0.0/16"
      = some (Error.cidrParse "10.256.0.0/16" ⟨"CIDR address", "10.256.0.0/16"⟩) := by
  refine ⟨validateCIDR_of_parts_none s h, ?_, by decide, by decide⟩
  intro t ht
  apply validateCIDR_of_parts_none
  have hs : splitSlash t.toList = none := splitSlash_none_of_no_slash _ ht
  simp only [ParseCIDR.parts, hs]

/-- The range `10.256.0.0/16` does not decode. -/
theorem validateCIDR_undecodable_is_parse_error_witness :
    ParseCIDR.parts "10.256.0.0/16" = none ∧
    validateCIDR "10.256.0.0/16"
      = some (Error.cidrParse "10.256.0.0/16" ⟨"CIDR address", "10.256.0.0/16"⟩) :=
  ⟨by decide, (validateCIDR_undecodable_is_parse_error "10.256.0.0/16" (by decide)).1⟩

/-- C6: merging A then B into the empty configuration gives the same range
set and the same two link-local flags as merging B then A, whatever order
each of the four merges ranges over its map in. -/
theorem merge_commutes_from_empty (o1 o2 o3 o4 : MapOrder) (A B : MasqConfig) :
    (∀ s, s ∈ ((EmptyMasqConfig.merge o1 A).merge o2 B).NonMasqueradeCIDRs ↔
        s ∈ ((EmptyMasqConfig.merge o3 B).merge o4 A).NonMasqueradeCIDRs) ∧
    ((EmptyMasqConfig.merge o1 A).merge o2 B).MasqLinkLocal =
      ((EmptyMasqConfig.merge o3 B).merge o4 A).MasqLinkLocal ∧
    ((EmptyMasqConfig.merge o1 A).merge o2 B).MasqLinkLocalIPv6 =
      ((EmptyMasqConfig.merge o3 B).merge o4 A).MasqLinkLocalIPv6 := by
  refine ⟨fun s => ?_, ?_, ?_⟩
  · simp only [mem_merge_cidrs]; tauto
  · simp only [merge_MasqLinkLocal, EmptyMasqConfig, Bool.false_or, Bool.or_comm]
  · simp only [merge_MasqLinkLocalIPv6, EmptyMasqConfig, Bool.false_or, Bool.or_comm]

/-- C7: after a merge each link-local flag is the base flag OR the fragment
flag, independently for the two flags, so a flag that is true in the base is
true after merging any fragment. -/
theorem merge_flags_are_or (o : MapOrder) (c n : MasqConfig) :
    (c.merge o n).MasqLinkLocal = (c.MasqLinkLocal || n.MasqLinkLocal) ∧
    (c.merge o n).MasqLinkLocalIPv6 = (c.MasqLinkLocalIPv6 || n.MasqLinkLocalIPv6) ∧
    (c.MasqLinkLocal = true → (c.merge o n).MasqLinkLocal = true) ∧
    (c.MasqLinkLocalIPv6 = true → (c.merge o n).MasqLinkLocalIPv6 = true) := by
  refine ⟨merge_MasqLinkLocal o c n, merge_MasqLinkLocalIPv6 o c n, ?_, ?_⟩
  · intro h; rw [merge_MasqLinkLocal, h]; rfl
  · intro h; rw [merge_MasqLinkLocalIPv6, h]; rfl

/-- A base with `MasqLinkLocal` set keeps it when a fragment that leaves it unset is merged. -/
theorem merge_flags_are_or_witness :
    (MasqConfig.merge MapOrder.insertion ⟨["10.0.0.0/8"], true, false⟩
        ⟨["1.0.0.0/8"], false, true⟩).MasqLinkLocal = true ∧
    (MasqConfig.merge MapOrder.insertion ⟨["10.0.0.0/8"], true, false⟩
        ⟨["1.0.0.0/8"], false, true⟩).MasqLinkLocalIPv6 = true :=
  ⟨(merge_flags_are_or MapOrder.insertion ⟨["10.0.0.0/8"], true, false⟩
      ⟨["1.0.0.0/8"], false, true⟩).2.2.1 rfl,
   by decide⟩

/-- C8: the configuration reached from `EmptyMasqConfig` by any sequence of
merges (any fragments, any map orders) has no duplicate range: every range of
every fragment, whether it occurs in several fragments or several times in
one, is in the merged list and occurs in it exactly once, and the merged list
holds nothing but ranges of the fragments. -/
theorem merged_ranges_have_no_duplicates (frags : List (MapOrder × MasqConfig)) :
    (mergeAll frags).NonMasqueradeCIDRs.Nodup ∧
    (∀ s ∈ (mergeAll frags).NonMasqueradeCIDRs,
      (mergeAll frags).NonMasqueradeCIDRs.count s = 1) ∧
    (∀ p ∈ frags, ∀ s ∈ p.2.NonMasqueradeCIDRs,
      s ∈ (mergeAll frags).NonMasqueradeCIDRs ∧
      (mergeAll frags).NonMasqueradeCIDRs.count s = 1) ∧
    (∀ s, s ∈ (mergeAll frags).NonMasqueradeCIDRs ↔
      ∃ p ∈ frags, s ∈ p.2.NonMasqueradeCIDRs) ∧
    (mergeAll
        [(MapOrder.insertion, ⟨["155.128.0.0/9", "10.0.0.0/8"], false, false⟩),
         (MapOrder.reversed, ⟨[], false, true⟩),
         (MapOrder.reversed,
           ⟨["10.240.0.0/16", "10.0.0.0/8", "180.132.128.0/18", "10.240.0.0/16"],
            false, false⟩)]).NonMasqueradeCIDRs
      = ["180.132.128.0/18", "10.240.0.0/16", "10.0.0.0/8", "155.128.0.0/9"] := by
  have hn := nodup_mergeAll frags
  refine ⟨hn, fun s hs => List.count_eq_one_of_mem hn hs, ?_, mem_mergeAll frags,
    duplicate_cidr_merge⟩
  intro p hp s hs
  have hmem : s ∈ (mergeAll frags).NonMasqueradeCIDRs := (mem_mergeAll frags s).mpr ⟨p, hp, hs⟩
  exact ⟨hmem, List.count_eq_one_of_mem hn hmem⟩

/-- C9: `validate` rejects every configuration with more than 64 ranges with the
count error, whatever the ranges are, and accepts a configuration with 64
(or fewer) ranges when each is aligned and is IPv4, or IPv6 with IPv6
enabled: 64 ranges pass, 65 do not. -/
theorem validate_limit_is_64 (enableIPv6 : Bool) (c : MasqConfig) :
    (c.NonMasqueradeCIDRs.length > 64 →
      c.validate enableIPv6 = some (Error.tooManyCIDRs c.NonMasqueradeCIDRs.length)) ∧
    (c.NonMasqueradeCIDRs.length ≤ 64 →
      (∀ s ∈ c.NonMasqueradeCIDRs,
        AlignedCIDR s ∧ (IPv4CIDR s ∨ (IPv6CIDR s ∧ enableIPv6 = true))) →
      c.validate enableIPv6 = none) := by
  constructor
  · intro h
    simp [MasqConfig.validate, h]
  · intro hlen hall
    have hn : ¬ c.NonMasqueradeCIDRs.length > 64 := by omega
    simp only [MasqConfig.validate, hn, if_false]
    apply validate_loop_none
    intro s hs
    obtain ⟨hal, hfam⟩ := hall s hs
    refine ⟨(validateCIDR_none_iff_aligned s).mpr hal, ?_⟩
    rcases hfam with h4 | ⟨_, he⟩
    · right; exact isIPv6CIDR_of_IPv4CIDR s h4
    · left; exact he

/-- Sixty-four aligned IPv4 ranges pass with IPv6 disabled, sixty-five do not. -/
theorem validate_limit_is_64_witness :
    (List.replicate 64 "10.0.0.0/8").length = 64 ∧
    MasqConfig.validate false ⟨List.replicate 64 "10.0.0.0/8", false, false⟩ = none ∧
    MasqConfig.validate false ⟨List.replicate 65 "10.0.0.0/8", false, false⟩
      = some (Error.tooManyCIDRs 65) :=
  ⟨by decide,
   (validate_limit_is_64 false ⟨List.replicate 64 "10.0.0.0/8", false, false⟩).2 (by decide)
     (fun s hs => by
       have e : s = "10.0.0.0/8" := List.eq_of_mem_replicate hs
       subst e
       exact ⟨⟨Addr.v4 [10, 0, 0, 0], 8, by decide, by decide⟩,
         Or.inl ⟨Addr.v4 [10, 0, 0, 0], 8, by decide, by decide⟩⟩),
   (validate_limit_is_64 false ⟨List.replicate 65 "10.0.0.0/8", false, false⟩).1 (by decide)⟩

/-- C12: the built-in default configuration is valid for both values of the
reserved-ranges toggle, IPv6 enabled or not: `validate` returns no error, there
are at most 64 ranges, and every range decodes, is aligned and is IPv4. -/
theorem default_config_is_valid (masqAllReservedRanges enableIPv6 : Bool) :
    (DefaultMasqConfig masqAllReservedRanges).validate enableIPv6 = none ∧
    (DefaultMasqConfig masqAllReservedRanges).NonMasqueradeCIDRs.length ≤ 64 ∧
    ∀ s ∈ (DefaultMasqConfig masqAllReservedRanges).NonMasqueradeCIDRs,
      AlignedCIDR s ∧ IPv4CIDR s := by
  have hv := DefaultMasqConfig_validate masqAllReservedRanges false
  obtain ⟨hlen, hal, h4⟩ := validate_none_invariants false _ hv
  exact ⟨DefaultMasqConfig_validate masqAllReservedRanges enableIPv6, hlen,
    fun s hs => ⟨hal s hs, (h4 rfl s hs).1⟩⟩

/-- C13: when the directory is listed and no entry name starts with the prefix
(the empty listing included), `syncConfig` returns no error and the active
configuration becomes the built-in default: with the reserved-ranges toggle
off, the ranges `10.0.0.0/8`, `172.16.0.0/12`, `192.168.0.0/16` and both
link-local flags false. -/
theorem no_matching_file_gives_default {σ : Type} (w : World) (flags : Flags)
    (m : MasqDaemon σ) (files : List String) (hdir : w.ReadDir configPath = .ok files)
    (hnone : ∀ name ∈ files, HasPrefix name configFilePrefix = false) :
    (m.syncConfig w flags).1 = none ∧
    (m.syncConfig w flags).2 =
      { m with config := DefaultMasqConfig flags.noMasqueradeAllReservedRanges } ∧
    (flags.noMasqueradeAllReservedRanges = false →
      (m.syncConfig w flags).2.config =
        ⟨["10.0.0.0/8", "172.16.0.0/12", "192.168.0.0/16"], false, false⟩) := by
  have hf : files.filter isConfigFile = [] := by
    rw [List.filter_eq_nil_iff]
    intro name hn
    simp [isConfigFile, hnone name hn]
  have hloop : syncConfig.loop w files 0 EmptyMasqConfig false = .ok (EmptyMasqConfig, false) := by
    rw [syncConfig_loop_filter, hf]; rfl
  have hres : m.syncConfig w flags =
      (none, { m with config := DefaultMasqConfig flags.noMasqueradeAllReservedRanges }) := by
    rw [syncConfig_eq w flags m files hdir, hloop]
    simp [DefaultMasqConfig_validate]
  rw [hres]
  refine ⟨rfl, rfl, ?_⟩
  intro hoff
  simp [hoff, DefaultMasqConfig]

/-- The listing of the test `no correctly prefixed file`, and the empty listing. -/
theorem no_matching_file_gives_default_witness :
    (MasqDaemon.syncConfig
        (World.ofTable [("bad-prefix-config-0", ⟨["225.255.240.0/20"], false, false⟩)])
        Flags.default (⟨⟨["1.0.0.0/8"], true, true⟩, (), ()⟩ : MasqDaemon Unit)).1 = none ∧
    (MasqDaemon.syncConfig
        (World.ofTable [("bad-prefix-config-0", ⟨["225.255.240.0/20"], false, false⟩)])
        Flags.default (⟨⟨["1.0.0.0/8"], true, true⟩, (), ()⟩ : MasqDaemon Unit)).2.config
      = ⟨["10.0.0.0/8", "172.16.0.0/12", "192.168.0.0/16"], false, false⟩ ∧
    (MasqDaemon.syncConfig (World.ofTable []) Flags.default
        (⟨⟨["1.0.0.0/8"], true, true⟩, (), ()⟩ : MasqDaemon Unit)).2.config
      = ⟨["10.0.0.0/8", "172.16.0.0/12", "192.168.0.0/16"], false, false⟩ :=
  ⟨(no_matching_file_gives_default
      (World.ofTable [("bad-prefix-config-0", ⟨["225.255.240.0/20"], false, false⟩)])
      Flags.default ⟨⟨["1.0.0.0/8"], true, true⟩, (), ()⟩ ["bad-prefix-config-0"] rfl
      (by decide)).1,
   (no_matching_file_gives_default
      (World.ofTable [("bad-prefix-config-0", ⟨["225.255.240.0/20"], false, false⟩)])
      Flags.default ⟨⟨["1.0.0.0/8"], true, true⟩, (), ()⟩ ["bad-prefix-config-0"] rfl
      (by decide)).2.2 rfl,
   (no_matching_file_gives_default (World.ofTable []) Flags.default
      ⟨⟨["1.0.0.0/8"], true, true⟩, (), ()⟩ [] rfl (by decide)).2.2 rfl⟩

/-- C14: a listing with exactly one matching entry whose fragment sets only
`masqLinkLocal` (no ranges) loads without error and gives an empty range list,
`MasqLinkLocal` true and `MasqLinkLocalIPv6` false: the built-in default ranges
are not substituted once a matching fragment was found. -/
theorem single_flag_fragment_loads {σ : Type} (w : World) (flags : Flags) (m : MasqDaemon σ)
    (files : List String) (name : String) (hdir : w.ReadDir configPath = .ok files)
    (hone : files.filter isConfigFile = [name])
    (hdec : w.decodeFile name = .ok ⟨[], true, false⟩) :
    (m.syncConfig w flags).1 = none ∧
    (m.syncConfig w flags).2 = { m with config := ⟨[], true, false⟩ } ∧
    (m.syncConfig w flags).2.config.NonMasqueradeCIDRs = [] ∧
    (m.syncConfig w flags).2.config.MasqLinkLocal = true ∧
    (m.syncConfig w flags).2.config.MasqLinkLocalIPv6 = false := by
  have hmatch : isConfigFile name = true := by
    have hmem : name ∈ files.filter isConfigFile := by rw [hone]; exact List.mem_singleton_self _
    exact (List.mem_filter.mp hmem).2
  have hloop : syncConfig.loop w files 0 EmptyMasqConfig false
      = .ok (⟨[], true, false⟩, true) := by
    rw [syncConfig_loop_filter, hone, syncConfig_loop_match w name [] 0 _ _ hmatch, hdec]
    rfl
  have hres : m.syncConfig w flags = (none, { m with config := ⟨[], true, false⟩ }) := by
    rw [syncConfig_eq w flags m files hdir, hloop]
    rfl
  rw [hres]
  exact ⟨rfl, rfl, rfl, rfl, rfl⟩

/-- The listing of the test `single valid yaml file, just masqLinkLocal`, next to an
entry without the prefix. -/
theorem single_flag_fragment_loads_witness :
    (MasqDaemon.syncConfig
        (World.ofTable [("bad-prefix-config-1", ⟨["4.4.0.0/8"], true, true⟩),
          ("ip-masq-config-0", ⟨[], true, false⟩)])
        Flags.default (⟨DefaultMasqConfig false, (), ()⟩ : MasqDaemon Unit)).1 = none ∧
    (MasqDaemon.syncConfig
        (World.ofTable [("bad-prefix-config-1", ⟨["4.4.0.0/8"], true, true⟩),
          ("ip-masq-config-0", ⟨[], true, false⟩)])
        Flags.default (⟨DefaultMasqConfig false, (), ()⟩ : MasqDaemon Unit)).2.config
      = ⟨[], true, false⟩ :=
  ⟨(single_flag_fragment_loads
      (World.ofTable [("bad-prefix-config-1", ⟨["4.4.0.0/8"], true, true⟩),
        ("ip-masq-config-0", ⟨[], true, false⟩)])
      Flags.default ⟨DefaultMasqConfig false, (), ()⟩
      ["bad-prefix-config-1", "ip-masq-config-0"] "ip-masq-config-0" rfl (by decide)
      (by decide)).1,
   by decide⟩

/-- C15: when some matching entry of the listing decodes to a fragment whose range
list contains the empty string, the load fails with an error and the daemon is
left as it was, whatever the other entries hold and wherever the entry stands;
when every matching entry decodes, the error is the validation error: the
empty range reached `validate` through the merge. -/
theorem empty_range_fails_the_load {σ : Type} (w : World) (flags : Flags) (m : MasqDaemon σ)
    (files : List String) (name : String) (n : MasqConfig)
    (hdir : w.ReadDir configPath = .ok files) (hname : name ∈ files)
    (hmatch : HasPrefix name configFilePrefix = true) (hdec : w.decodeFile name = .ok n)
    (hempty : "" ∈ n.NonMasqueradeCIDRs) :
    (∃ err, (m.syncConfig w flags).1 = some err) ∧
    (m.syncConfig w flags).2 = m ∧
    ((∀ p ∈ files, HasPrefix p configFilePrefix = true → ∃ cfg, w.decodeFile p = .ok cfg) →
      ∃ verr, (m.syncConfig w flags).1 = some (Error.invalidConfig verr)) := by
  have key : ∀ r, syncConfig.loop w files 0 EmptyMasqConfig false = .ok r →
      ∃ verr, m.syncConfig w flags = (some (Error.invalidConfig verr), m) := by
    intro r hr
    obtain ⟨c, a⟩ := r
    obtain ⟨h1, h2⟩ := syncConfig_loop_collects w "" name n hmatch hdec hempty files 0 _ _ _
      hname hr
    simp only at h1 h2
    subst h2
    rw [syncConfig_eq w flags m files hdir, hr]
    simp only [Bool.not_true, Bool.false_eq_true, if_false]
    cases hv : c.validate flags.enableIPv6 with
    | none => exact absurd hv (validate_rejects_empty_range _ c h1)
    | some verr => exact ⟨verr, rfl⟩
  have hres : ∃ err, m.syncConfig w flags = (some err, m) := by
    cases hl : syncConfig.loop w files 0 EmptyMasqConfig false with
    | error e =>
      refine ⟨e, ?_⟩
      rw [syncConfig_eq w flags m files hdir, hl]
    | ok r =>
      obtain ⟨verr, hverr⟩ := key r hl
      exact ⟨_, hverr⟩
  obtain ⟨err, herr⟩ := hres
  refine ⟨⟨err, by rw [herr]⟩, by rw [herr], ?_⟩
  intro hall
  obtain ⟨r, hr⟩ := syncConfig_loop_ok w files hall 0 EmptyMasqConfig false
  obtain ⟨verr, hverr⟩ := key r hr
  exact ⟨verr, by rw [hverr]⟩

/-- The listing of the test `multiple json files, but one has empty CIDR`. -/
theorem empty_range_fails_the_load_witness :
    (MasqDaemon.syncConfig
        (World.ofTable
          [("ip-masq-config-0", ⟨["111.254.0.0/15", "8.0.0.0/8"], false, false⟩),
           ("ip-masq-config-1", ⟨["", "172.168.0.0/16"], true, true⟩)])
        Flags.default (⟨DefaultMasqConfig false, (), ()⟩ : MasqDaemon Unit)).1
      = some (Error.invalidConfig (Error.cidrParse "" ⟨"CIDR address", ""⟩)) ∧
    (MasqDaemon.syncConfig
        (World.ofTable
          [("ip-masq-config-0", ⟨["111.254.0.0/15", "8.0.0.0/8"], false, false⟩),
           ("ip-masq-config-1", ⟨["", "172.168.0.0/16"], true, true⟩)])
        Flags.default (⟨DefaultMasqConfig false, (), ()⟩ : MasqDaemon Unit)).2
      = ⟨DefaultMasqConfig false, (), ()⟩ :=
  ⟨by decide,
   (empty_range_fails_the_load
      (World.ofTable
        [("ip-masq-config-0", ⟨["111.254.0.0/15", "8.0.0.0/8"], false, false⟩),
         ("ip-masq-config-1", ⟨["", "172.168.0.0/16"], true, true⟩)])
      Flags.default ⟨DefaultMasqConfig false, (), ()⟩
      ["ip-masq-config-0", "ip-masq-config-1"] "ip-masq-config-1"
      ⟨["", "172.168.0.0/16"], true, true⟩ rfl (by decide) (by decide) (by decide)
      (by decide)).2.1⟩

/-- C16: a load depends only on the listed entries whose names start with
`ip-masq` (compared case-sensitively): two worlds whose listings have the same
matching entries in the same order and that agree on what each matching entry
decodes to (and on map orders) give the same error and the same daemon,
whatever entries without the prefix either listing holds and whatever those
files contain or whether they can be read at all. -/
theorem load_depends_on_matching_entries {σ : Type} (w w1 : World) (flags : Flags)
    (m : MasqDaemon σ) (files files1 : List String)
    (hdir : w.ReadDir configPath = .ok files) (hdir1 : w1.ReadDir configPath = .ok files1)
    (hsame : files.filter (fun name => HasPrefix name configFilePrefix)
      = files1.filter (fun name => HasPrefix name configFilePrefix))
    (hdec : ∀ name ∈ files, HasPrefix name configFilePrefix = true →
      w.decodeFile name = w1.decodeFile name)
    (hord : w.mapOrder = w1.mapOrder) :
    m.syncConfig w flags = m.syncConfig w1 flags ∧
    configFilePrefix = "ip-masq" ∧
    HasPrefix "ip-masq-config-0" configFilePrefix = true ∧
    HasPrefix "IP-MASQ-config-0" configFilePrefix = false ∧
    HasPrefix "bad-prefix-config-1" configFilePrefix = false := by
  refine ⟨?_, rfl, by decide, by decide, by decide⟩
  have hsame1 : files.filter isConfigFile = files1.filter isConfigFile := hsame
  have hloop : syncConfig.loop w files 0 EmptyMasqConfig false
      = syncConfig.loop w1 files1 0 EmptyMasqConfig false := by
    rw [syncConfig_loop_filter w files, syncConfig_loop_filter w1 files1, ← hsame1]
    apply syncConfig_loop_congr w w1 _ _ hord
    intro name hn hm
    exact hdec name (List.mem_filter.mp hn).1 hm
  rw [syncConfig_eq w flags m files hdir, syncConfig_eq w1 flags m files1 hdir1, hloop]

/-- The listing of the test `multiple valid json files, but one not correctly
prefixed`, against the same listing without the entry that lacks the prefix. -/
theorem load_depends_on_matching_entries_witness :
    MasqDaemon.syncConfig
        (World.ofTable
          [("ip-masq-config-0", ⟨["111.254.0.0/15", "8.0.0.0/8"], false, false⟩),
           ("bad-prefix-config-1", ⟨["4.4.0.0/8", "6.7.0.0/16"], true, true⟩)])
        Flags.default (⟨DefaultMasqConfig false, (), ()⟩ : MasqDaemon Unit)
      = MasqDaemon.syncConfig
        (World.ofTable
          [("ip-masq-config-0", ⟨["111.254.0.0/15", "8.0.0.0/8"], false, false⟩)])
        Flags.default (⟨DefaultMasqConfig false, (), ()⟩ : MasqDaemon Unit) ∧
    (MasqDaemon.syncConfig
        (World.ofTable
          [("ip-masq-config-0", ⟨["111.254.0.0/15", "8.0.0.0/8"], false, false⟩),
           ("bad-prefix-config-1", ⟨["4.4.0.0/8", "6.7.0.0/16"], true, true⟩)])
        Flags.default (⟨DefaultMasqConfig false, (), ()⟩ : MasqDaemon Unit)).2.config
      = ⟨["111.254.0.0/15", "8.0.0.0/8"], false, false⟩ :=
  ⟨(load_depends_on_matching_entries
      (World.ofTable
        [("ip-masq-config-0", ⟨["111.254.0.0/15", "8.0.0.0/8"], false, false⟩),
         ("bad-prefix-config-1", ⟨["4.4.0.0/8", "6.7.0.0/16"], true, true⟩)])
      (World.ofTable
        [("ip-masq-config-0", ⟨["111.254.0.0/15", "8.0.0.0/8"], false, false⟩)])
      Flags.default ⟨DefaultMasqConfig false, (), ()⟩
      ["ip-masq-config-0", "bad-prefix-config-1"] ["ip-masq-config-0"] rfl rfl (by decide)
      (by decide) rfl).1,
   by decide⟩

/-- C17: when the configuration directory cannot be listed (a directory that does
not exist included), `syncConfig` returns the directory-read error and leaves
the daemon as it was: the default configuration is not substituted. -/
theorem unlistable_directory_is_an_error {σ : Type} (w : World) (flags : Flags)
    (m : MasqDaemon σ) (e : String) (hdir : w.ReadDir configPath = .error e) :
    (m.syncConfig w flags).1 = some (Error.readDir e) ∧
    (m.syncConfig w flags).2 = m ∧
    (m.syncConfig w flags).2.config = m.config := by
  rw [syncConfig_readDir_error w flags m e hdir]
  exact ⟨rfl, rfl, rfl⟩

/-- A directory that does not exist, with a configuration that is not the
default one active. -/
theorem unlistable_directory_is_an_error_witness :
    (MasqDaemon.syncConfig World.notExist Flags.default
        (⟨⟨["1.0.0.0/8"], true, false⟩, (), ()⟩ : MasqDaemon Unit)).1
      = some (Error.readDir "open /etc/config/: no such file or directory") ∧
    (MasqDaemon.syncConfig World.notExist Flags.default
        (⟨⟨["1.0.0.0/8"], true, false⟩, (), ()⟩ : MasqDaemon Unit)).2.config
      = ⟨["1.0.0.0/8"], true, false⟩ :=
  ⟨(unlistable_directory_is_an_error World.notExist Flags.default
      ⟨⟨["1.0.0.0/8"], true, false⟩, (), ()⟩ "open /etc/config/: no such file or directory" (by decide)).1,
   (unlistable_directory_is_an_error World.notExist Flags.default
      ⟨⟨["1.0.0.0/8"], true, false⟩, (), ()⟩ "open /etc/config/: no such file or directory" (by decide)).2.2⟩

/-- C18, as the code has it: a directory that cannot be listed is an error that
leaves the active configuration as it was. The fall-back to the built-in
default happens when the directory is listed and no entry name starts with
the prefix, and only then: with a listed directory that has an entry with the
prefix, the load either fails and leaves the daemon, or installs the merge of
the fragments of the matching entries (their ranges, their flags OR-ed), never
the default in its place. -/
theorem default_only_for_listed_directory {σ : Type} (w : World) (flags : Flags)
    (m : MasqDaemon σ) :
    (∀ e, w.ReadDir configPath = .error e →
      m.syncConfig w flags = (some (Error.readDir e), m)) ∧
    (∀ files, w.ReadDir configPath = .ok files →
      files.filter (fun name => HasPrefix name configFilePrefix) = [] →
      m.syncConfig w flags =
        (none, { m with config := DefaultMasqConfig flags.noMasqueradeAllReservedRanges })) ∧
    (∀ files, w.ReadDir configPath = .ok files →
      (∃ name ∈ files, HasPrefix name configFilePrefix = true) →
      (∃ err, m.syncConfig w flags = (some err, m)) ∨
      (∃ frs c1, frs ≠ [] ∧
        List.Forall₂ (fun name cfg => w.decodeFile name = .ok cfg)
          (files.filter (fun name => HasPrefix name configFilePrefix)) frs ∧
        (∀ s, s ∈ c1.NonMasqueradeCIDRs ↔ s ∈ frs.flatMap MasqConfig.NonMasqueradeCIDRs) ∧
        c1.MasqLinkLocal = frs.any MasqConfig.MasqLinkLocal ∧
        c1.MasqLinkLocalIPv6 = frs.any MasqConfig.MasqLinkLocalIPv6 ∧
        m.syncConfig w flags = (none, { m with config := c1 }))) := by
  refine ⟨?_, ?_, ?_⟩
  · intro e he
    exact syncConfig_readDir_error w flags m e he
  · intro files hdir hf
    have hf1 : files.filter isConfigFile = [] := hf
    have hloop : syncConfig.loop w files 0 EmptyMasqConfig false
        = .ok (EmptyMasqConfig, false) := by
      rw [syncConfig_loop_filter, hf1]; rfl
    rw [syncConfig_eq w flags m files hdir, hloop]
    simp [DefaultMasqConfig_validate]
  · intro files hdir hex
    exact syncConfig_with_matching_entry w flags m files hdir hex

/-- A missing directory against an empty one, with a configuration that is not
the default one active; and a directory whose one matching fragment sets only
`masqLinkLocal`, which gives no ranges and not the default ranges. -/
theorem default_only_for_listed_directory_witness :
    MasqDaemon.syncConfig World.notExist Flags.default
        (⟨⟨["1.0.0.0/8"], true, false⟩, (), ()⟩ : MasqDaemon Unit)
      = (some (Error.readDir "open /etc/config/: no such file or directory"),
          ⟨⟨["1.0.0.0/8"], true, false⟩, (), ()⟩) ∧
    MasqDaemon.syncConfig (World.ofTable []) Flags.default
        (⟨⟨["1.0.0.0/8"], true, false⟩, (), ()⟩ : MasqDaemon Unit)
      = (none, ⟨DefaultMasqConfig false, (), ()⟩) ∧
    (MasqDaemon.syncConfig (World.ofTable [("ip-masq-config-0", ⟨[], true, false⟩)])
        Flags.default (⟨⟨["1.0.0.0/8"], true, false⟩, (), ()⟩ : MasqDaemon Unit)).2.config
      = ⟨[], true, false⟩ ∧
    (⟨[], true, false⟩ : MasqConfig) ≠ DefaultMasqConfig false :=
  ⟨(default_only_for_listed_directory World.notExist Flags.default
      ⟨⟨["1.0.0.0/8"], true, false⟩, (), ()⟩).1 "open /etc/config/: no such file or directory" (by decide),
   (default_only_for_listed_directory (World.ofTable []) Flags.default
      ⟨⟨["1.0.0.0/8"], true, false⟩, (), ()⟩).2.1 [] rfl rfl,
   by decide, by decide⟩

/-- C18 as stated fails: with the directory missing, `syncConfig` does not return
"no error with the default configuration active"; it returns the
directory-read error and the configuration that was active stays. -/
theorem missing_directory_is_not_default :
    ¬ ((MasqDaemon.syncConfig World.notExist Flags.default
          (⟨⟨["1.0.0.0/8"], true, false⟩, (), ()⟩ : MasqDaemon Unit)).1 = none ∧
       (MasqDaemon.syncConfig World.notExist Flags.default
          (⟨⟨["1.0.0.0/8"], true, false⟩, (), ()⟩ : MasqDaemon Unit)).2.config
        = DefaultMasqConfig Flags.default.noMasqueradeAllReservedRanges) ∧
    (MasqDaemon.syncConfig World.notExist Flags.default
        (⟨⟨["1.0.0.0/8"], true, false⟩, (), ()⟩ : MasqDaemon Unit)).1
      = some (Error.readDir "open /etc/config/: no such file or directory") ∧
    (MasqDaemon.syncConfig World.notExist Flags.default
        (⟨⟨["1.0.0.0/8"], true, false⟩, (), ()⟩ : MasqDaemon Unit)).2.config
      = ⟨["1.0.0.0/8"], true, false⟩ := by
  decide

/-- C19: when reading a matching entry fails, `syncConfig` returns an error and
leaves the daemon as it was, whatever the other entries hold: the file is not
skipped and the default is not substituted; when the matching entries listed
before it decode, the error is the file-read error for that entry. -/
theorem unreadable_file_fails_the_load {σ : Type} (w : World) (flags : Flags)
    (m : MasqDaemon σ) (pre post : List String) (name e : String)
    (hdir : w.ReadDir configPath = .ok (pre ++ name :: post))
    (hmatch : HasPrefix name configFilePrefix = true)
    (hread : w.ReadFile (w.PathJoin configPath name) = .error e) :
    (∃ err, (m.syncConfig w flags).1 = some err) ∧
    (m.syncConfig w flags).2 = m ∧
    ((∀ p ∈ pre, HasPrefix p configFilePrefix = true → ∃ cfg, w.decodeFile p = .ok cfg) →
      m.syncConfig w flags = (some (Error.readFile name e), m)) := by
  have hdec := decodeFile_of_read_error w name e hread
  have hmatch1 : isConfigFile name = true := hmatch
  obtain ⟨err1, herr1⟩ := syncConfig_loop_error w name _ hmatch1 hdec (pre ++ name :: post)
    0 EmptyMasqConfig false (by simp)
  have hres : m.syncConfig w flags = (some err1, m) := by
    rw [syncConfig_eq w flags m _ hdir, herr1]
  refine ⟨⟨err1, by rw [hres]⟩, by rw [hres], ?_⟩
  intro hpre
  rw [syncConfig_eq w flags m _ hdir,
    syncConfig_loop_first_error w name _ hmatch1 hdec post pre hpre]

/-- A readable, valid fragment before and after a matching entry that cannot be
read (the table world has no file of that name under the directory). -/
theorem unreadable_file_fails_the_load_witness :
    MasqDaemon.syncConfig
        { World.ofTable
            [("ip-masq-config-0", ⟨["111.254.0.0/15", "8.0.0.0/8"], false, false⟩),
             ("ip-masq-config-2", ⟨["10.0.0.0/8"], false, false⟩)] with
          ReadDir := fun _ => .ok ["ip-masq-config-0", "ip-masq-config-1", "ip-masq-config-2"] }
        Flags.default (⟨DefaultMasqConfig false, (), ()⟩ : MasqDaemon Unit)
      = (some (Error.readFile "ip-masq-config-1" "open /etc/config/ip-masq-config-1: errno 2"),
          ⟨DefaultMasqConfig false, (), ()⟩) :=
  (unreadable_file_fails_the_load
      { World.ofTable
          [("ip-masq-config-0", ⟨["111.254.0.0/15", "8.0.0.0/8"], false, false⟩),
           ("ip-masq-config-2", ⟨["10.0.0.0/8"], false, false⟩)] with
        ReadDir := fun _ => .ok ["ip-masq-config-0", "ip-masq-config-1", "ip-masq-config-2"] }
      Flags.default ⟨DefaultMasqConfig false, (), ()⟩
      ["ip-masq-config-0"] ["ip-masq-config-2"] "ip-masq-config-1"
      "open /etc/config/ip-masq-config-1: errno 2" rfl (by decide) (by decide)).2.2
    (fun p hp _ => by
      have e : p = "ip-masq-config-0" := List.mem_singleton.mp hp
      subst e
      exact ⟨⟨["111.254.0.0/15", "8.0.0.0/8"], false, false⟩, by decide⟩)

/-- C21: for every configuration and both families, the script handed to the
applier is the lines `specLines`, each with its newline, and among these lines
there is exactly one MASQUERADE rule line; every RETURN rule line stands before
it; it is the last line but one, followed by `COMMIT` and its newline, which
end the buffer. When the chain name has no newline (and, for IPv6, the ranges
have none, as ranges that decode do), these are the lines of the text. -/
theorem masquerade_line_is_last {σ : Type} (ipt ipt6 : Iptables σ) (flags : Flags)
    (m : MasqDaemon (σ × List String)) :
    (m.syncMasqRules ipt.recording flags).2.iptables.2 =
      m.iptables.2 ++
        (if (ensurePostroutingJump ipt flags
              (ipt.EnsureChain m.iptables.1 TableNAT flags.masqChain).2).1.isNone
          then [specScript flags.masqChain m.config.MasqLinkLocal linkLocalCIDR
                  (rangesOfFamily false m.config.NonMasqueradeCIDRs)]
          else []) ∧
    (m.syncMasqRulesIPv6 ipt6.recording flags).2.ip6tables.2 =
      m.ip6tables.2 ++
        (if flags.enableIPv6
            && (ipt6.EnsureChain m.ip6tables.1 TableNAT flags.masqChain).1.2.isNone
            && (ensurePostroutingJumpIPv6 ipt6 flags
                (ipt6.EnsureChain m.ip6tables.1 TableNAT flags.masqChain).2).1.isNone
          then [specScript flags.masqChain m.config.MasqLinkLocalIPv6 linkLocalCIDRIPv6
                  (rangesOfFamily true m.config.NonMasqueradeCIDRs)]
          else []) ∧
    (∀ (flag : Bool) (linkLocal : String) (ranges : List String),
      specScript flags.masqChain flag linkLocal ranges =
        String.join ((specLines flags.masqChain flag linkLocal ranges).map (fun l => l ++ "\n")) ∧
      (specLines flags.masqChain flag linkLocal ranges).count
          (specMasqueradeLine flags.masqChain) = 1 ∧
      (∀ (i j : Nat) (r : String),
        (specLines flags.masqChain flag linkLocal ranges)[i]?
            = some (specReturnLine flags.masqChain r) →
        (specLines flags.masqChain flag linkLocal ranges)[j]?
            = some (specMasqueradeLine flags.masqChain) →
        i < j ∧ j + 2 = (specLines flags.masqChain flag linkLocal ranges).length) ∧
      (∃ head, specLines flags.masqChain flag linkLocal ranges
          = head ++ [specMasqueradeLine flags.masqChain, "COMMIT"]) ∧
      (∃ head, specScript flags.masqChain flag linkLocal ranges
          = head ++ (specMasqueradeLine flags.masqChain ++ "\n") ++ "COMMIT\n")) ∧
    (newline ∉ flags.masqChain.toList →
      textLines (specScript flags.masqChain m.config.MasqLinkLocal linkLocalCIDR
          (rangesOfFamily false m.config.NonMasqueradeCIDRs))
        = specLines flags.masqChain m.config.MasqLinkLocal linkLocalCIDR
            (rangesOfFamily false m.config.NonMasqueradeCIDRs) ++ [""]) ∧
    (newline ∉ flags.masqChain.toList →
      (∀ s ∈ m.config.NonMasqueradeCIDRs, newline ∉ s.toList) →
      textLines (specScript flags.masqChain m.config.MasqLinkLocalIPv6 linkLocalCIDRIPv6
          (rangesOfFamily true m.config.NonMasqueradeCIDRs))
        = specLines flags.masqChain m.config.MasqLinkLocalIPv6 linkLocalCIDRIPv6
            (rangesOfFamily true m.config.NonMasqueradeCIDRs) ++ [""]) ∧
    (∀ s, ParseCIDR.parts s ≠ none → newline ∉ s.toList) := by
  refine ⟨syncMasqRules_recorded ipt flags m, syncMasqRulesIPv6_recorded ipt6 flags m, ?_,
    textLines_specScriptV4 flags.masqChain m.config,
    textLines_specScriptV6 flags.masqChain m.config, no_newline_of_parts⟩
  intro flag linkLocal ranges
  exact ⟨rfl, specLines_count_masquerade _ _ _ _,
    fun i j r hi hj => specLines_return_before_masquerade _ _ _ _ i j r hi hj,
    ⟨_, specLines_split _ _ _ _⟩, ⟨_, specScript_tail _ _ _ _⟩⟩

/-- The IPv4 script of the configuration with the ranges `10.244.0.0/16` and
`fc00::/7`: the lines of its text. -/
theorem masquerade_line_is_last_witness :
    textLines (specScript "IP-MASQ-AGENT" false linkLocalCIDR
        (rangesOfFamily false ["10.244.0.0/16", "fc00::/7"]))
      = specLines "IP-MASQ-AGENT" false linkLocalCIDR
          (rangesOfFamily false ["10.244.0.0/16", "fc00::/7"]) ++ [""] ∧
    (specLines "IP-MASQ-AGENT" false linkLocalCIDR
        (rangesOfFamily false ["10.244.0.0/16", "fc00::/7"])).count
      (specMasqueradeLine "IP-MASQ-AGENT") = 1 :=
  ⟨(masquerade_line_is_last Iptables.alwaysOK Iptables.alwaysOK Flags.default
      ⟨⟨["10.244.0.0/16", "fc00::/7"], false, false⟩, ((), []), ((), [])⟩).2.2.2.1
      (by decide),
   ((masquerade_line_is_last Iptables.alwaysOK Iptables.alwaysOK Flags.default
      ⟨⟨["10.244.0.0/16", "fc00::/7"], false, false⟩, ((), []), ((), [])⟩).2.2.1
      false linkLocalCIDR (rangesOfFamily false ["10.244.0.0/16", "fc00::/7"])).2.1⟩

/-- C23: merging is associative up to set equality of ranges: for all configurations
`A`, `B`, `C` and whatever the map orders, merging `B` and then `C` into `A`
gives the same range set (the same ranges with the same multiplicities, even)
and the same two flags as merging into `A` the result of merging `C` into `B`. -/
theorem merge_is_associative (o1 o2 o3 o4 : MapOrder) (A B C : MasqConfig) :
    (∀ s, s ∈ ((A.merge o1 B).merge o2 C).NonMasqueradeCIDRs ↔
        s ∈ (A.merge o4 (B.merge o3 C)).NonMasqueradeCIDRs) ∧
    ((A.merge o1 B).merge o2 C).NonMasqueradeCIDRs.Perm
      (A.merge o4 (B.merge o3 C)).NonMasqueradeCIDRs ∧
    ((A.merge o1 B).merge o2 C).MasqLinkLocal
      = (A.merge o4 (B.merge o3 C)).MasqLinkLocal ∧
    ((A.merge o1 B).merge o2 C).MasqLinkLocalIPv6
      = (A.merge o4 (B.merge o3 C)).MasqLinkLocalIPv6 := by
  refine ⟨fun s => ?_, merge_assoc_perm o1 o2 o3 o4 A B C, ?_, ?_⟩
  · simp only [mem_merge_cidrs, or_assoc]
  · simp only [merge_MasqLinkLocal, Bool.or_assoc]
  · simp only [merge_MasqLinkLocalIPv6, Bool.or_assoc]

/-- C24: merging a fragment whose range list is absent or empty (both are the empty
list) leaves the list `NonMasqueradeCIDRs` of the base as it was, element for
element; only the two flags can change, each to its OR with the flag of the
fragment. -/
theorem merge_without_ranges_keeps_list (o : MapOrder) (c n : MasqConfig)
    (h : n.NonMasqueradeCIDRs = []) :
    (c.merge o n).NonMasqueradeCIDRs = c.NonMasqueradeCIDRs ∧
    c.merge o n =
      { c with MasqLinkLocal := c.MasqLinkLocal || n.MasqLinkLocal,
               MasqLinkLocalIPv6 := c.MasqLinkLocalIPv6 || n.MasqLinkLocalIPv6 } := by
  refine ⟨merge_cidrs_of_empty o c n h, ?_⟩
  simp [MasqConfig.merge, h]

/-- The second merge of the test `TestMergeIncomplete`, on a base list with a
repeated range, ranged over against insertion order. -/
theorem merge_without_ranges_keeps_list_witness :
    (MasqConfig.merge MapOrder.reversed
        ⟨["10.128.0.192/26", "100.16.0.0/12", "10.128.0.192/26"], false, false⟩
        ⟨[], true, false⟩).NonMasqueradeCIDRs
      = ["10.128.0.192/26", "100.16.0.0/12", "10.128.0.192/26"] ∧
    MasqConfig.merge MapOrder.reversed
        ⟨["10.128.0.192/26", "100.16.0.0/12", "10.128.0.192/26"], false, false⟩
        ⟨[], true, false⟩
      = ⟨["10.128.0.192/26", "100.16.0.0/12", "10.128.0.192/26"], true, false⟩ :=
  ⟨(merge_without_ranges_keeps_list MapOrder.reversed
      ⟨["10.128.0.192/26", "100.16.0.0/12", "10.128.0.192/26"], false, false⟩
      ⟨[], true, false⟩ rfl).1,
   (merge_without_ranges_keeps_list MapOrder.reversed
      ⟨["10.128.0.192/26", "100.16.0.0/12", "10.128.0.192/26"], false, false⟩
      ⟨[], true, false⟩ rfl).2⟩

/-- C25: with IPv6 support disabled, `syncMasqRulesIPv6` returns no error and leaves
the daemon as it was, for every configuration and every applier: the state of
the IPv6 applier is the one before the call, so no chain was ensured and no
script applied (an applier that counts its calls has counted none). -/
theorem syncMasqRulesIPv6_disabled_is_noop {σ : Type} (ipt6 : Iptables σ) (flags : Flags)
    (m : MasqDaemon σ) (h : flags.enableIPv6 = false) :
    m.syncMasqRulesIPv6 ipt6 flags = (none, m) ∧
    (m.syncMasqRulesIPv6 ipt6 flags).1 = none ∧
    (m.syncMasqRulesIPv6 ipt6 flags).2.ip6tables = m.ip6tables ∧
    (∀ (restoreFails : Bool) (d : MasqDaemon Nat),
      (d.syncMasqRulesIPv6 (Iptables.counting restoreFails) flags).2.ip6tables
        = d.ip6tables) ∧
    (∀ d : MasqDaemon (Unit × List String),
      (d.syncMasqRulesIPv6 Iptables.alwaysOK.recording flags).2.ip6tables.2
        = d.ip6tables.2) := by
  have hm := syncMasqRulesIPv6_disabled ipt6 flags m h
  refine ⟨hm, by rw [hm], by rw [hm], ?_, ?_⟩
  · intro restoreFails d
    rw [syncMasqRulesIPv6_disabled _ flags d h]
  · intro d
    rw [syncMasqRulesIPv6_disabled _ flags d h]

/-- An applier that counts its calls: none with IPv6 disabled, even for a
configuration with an IPv6 range, three with IPv6 enabled. -/
theorem syncMasqRulesIPv6_disabled_is_noop_witness :
    (MasqDaemon.syncMasqRulesIPv6 (Iptables.counting false) Flags.default
        ⟨⟨["10.244.0.0/16", "fc00::/7"], false, false⟩, 0, 0⟩).1 = none ∧
    (MasqDaemon.syncMasqRulesIPv6 (Iptables.counting false) Flags.default
        ⟨⟨["10.244.0.0/16", "fc00::/7"], false, false⟩, 0, 0⟩).2.ip6tables = 0 ∧
    (MasqDaemon.syncMasqRulesIPv6 (Iptables.counting false) ⟨"IP-MASQ-AGENT", false, true, 60⟩
        ⟨⟨["10.244.0.0/16", "fc00::/7"], false, false⟩, 0, 0⟩).2.ip6tables = 3 :=
  ⟨(syncMasqRulesIPv6_disabled_is_noop (Iptables.counting false) Flags.default
      ⟨⟨["10.244.0.0/16", "fc00::/7"], false, false⟩, 0, 0⟩ rfl).2.1,
   (syncMasqRulesIPv6_disabled_is_noop (Iptables.counting false) Flags.default
      ⟨⟨["10.244.0.0/16", "fc00::/7"], false, false⟩, 0, 0⟩ rfl).2.2.1,
   by decide⟩

/-- C26: within one cycle of `Run` a failure ends the cycle. When `syncConfig` fails,
the cycle logs that error and sleeps, and the daemon is as before: no rule call
was made on either applier. When `syncMasqRules` fails, the cycle logs that
error and sleeps, and the state of the IPv6 applier is as before:
`syncMasqRulesIPv6` was not called. Every cycle ends with the one sleep of the
resync interval, after at most one log line, and the loop goes on: a run of the
loop over any number of cycles sleeps once per cycle, and after any run,
whatever failed in it, the next cycle is run. -/
theorem failure_ends_the_cycle {σ : Type} (w : World) (ipt ipt6 : Iptables σ) (flags : Flags)
    (m : MasqDaemon σ) :
    (∀ err, (m.syncConfig w flags).1 = some err →
      Run.cycle w ipt ipt6 flags m
        = ([Event.errSyncConfig err, Event.sleep (sleepDuration flags)], m)) ∧
    (∀ err, (m.syncConfig w flags).1 = none →
      ((m.syncConfig w flags).2.syncMasqRules ipt flags).1 = some err →
      Run.cycle w ipt ipt6 flags m
        = ([Event.errSyncRules err, Event.sleep (sleepDuration flags)],
            ((m.syncConfig w flags).2.syncMasqRules ipt flags).2) ∧
      (Run.cycle w ipt ipt6 flags m).2.ip6tables = m.ip6tables) ∧
    (∀ err, (m.syncConfig w flags).1 = none →
      ((m.syncConfig w flags).2.syncMasqRules ipt flags).1 = none →
      (((m.syncConfig w flags).2.syncMasqRules ipt flags).2.syncMasqRulesIPv6 ipt6 flags).1
        = some err →
      (Run.cycle w ipt ipt6 flags m).1
        = [Event.errSyncRulesIPv6 err, Event.sleep (sleepDuration flags)]) ∧
    (∃ log, (Run.cycle w ipt ipt6 flags m).1 = log ++ [Event.sleep (sleepDuration flags)] ∧
      log.length ≤ 1 ∧ ∀ e ∈ log, e.isSleep = false) ∧
    (∀ worlds : List World,
      ((MasqDaemon.Run ipt ipt6 flags worlds m).1.filter Event.isSleep).length
        = worlds.length) ∧
    (∀ (worlds : List World) (w1 : World),
      MasqDaemon.Run ipt ipt6 flags (worlds ++ [w1]) m =
        ((MasqDaemon.Run ipt ipt6 flags worlds m).1
            ++ (Run.cycle w1 ipt ipt6 flags (MasqDaemon.Run ipt ipt6 flags worlds m).2).1,
          (Run.cycle w1 ipt ipt6 flags (MasqDaemon.Run ipt ipt6 flags worlds m).2).2)) := by
  refine ⟨fun err h => cycle_of_config_error w ipt ipt6 flags m err h, ?_, ?_,
    cycle_ends_with_sleep w ipt ipt6 flags m, fun worlds => Run_sleeps ipt ipt6 flags worlds m,
    fun worlds w1 => Run_snoc ipt ipt6 flags worlds w1 m⟩
  · intro err h h4
    have hc := cycle_of_rules_error w ipt ipt6 flags m err h h4
    refine ⟨hc, ?_⟩
    rw [hc]
    exact (syncMasqRules_frame ipt flags _).2.trans (syncConfig_frame w flags m).2
  · intro err h h4 h6
    rw [cycle_of_rules6_error w ipt ipt6 flags m err h h4 h6]

/-- Appliers that count their calls. A cycle whose load fails (the directory is
missing) makes no call; a cycle whose IPv4 script is refused makes three calls
on the IPv4 applier and none on the IPv6 applier, with IPv6 enabled; the cycle
after the failed one is run. -/
theorem failure_ends_the_cycle_witness :
    Run.cycle World.notExist (Iptables.counting false) (Iptables.counting false)
        ⟨"IP-MASQ-AGENT", false, true, 60⟩ ⟨DefaultMasqConfig false, 0, 0⟩
      = ([Event.errSyncConfig (Error.readDir "open /etc/config/: no such file or directory"),
          Event.sleep 60000000000], ⟨DefaultMasqConfig false, 0, 0⟩) ∧
    (Run.cycle (World.ofTable []) (Iptables.counting true) (Iptables.counting false)
        ⟨"IP-MASQ-AGENT", false, true, 60⟩ ⟨DefaultMasqConfig false, 0, 0⟩).1
      = [Event.errSyncRules (Error.iptables "exit status 1"), Event.sleep 60000000000] ∧
    (Run.cycle (World.ofTable []) (Iptables.counting true) (Iptables.counting false)
        ⟨"IP-MASQ-AGENT", false, true, 60⟩ ⟨DefaultMasqConfig false, 0, 0⟩).2.iptables = 3 ∧
    (Run.cycle (World.ofTable []) (Iptables.counting true) (Iptables.counting false)
        ⟨"IP-MASQ-AGENT", false, true, 60⟩ ⟨DefaultMasqConfig false, 0, 0⟩).2.ip6tables = 0 ∧
    (MasqDaemon.Run (Iptables.counting false) (Iptables.counting false)
        ⟨"IP-MASQ-AGENT", false, true, 60⟩ [World.notExist, World.ofTable []]
        ⟨DefaultMasqConfig false, 0, 0⟩).1
      = [Event.errSyncConfig (Error.readDir "open /etc/config/: no such file or directory"),
          Event.sleep 60000000000, Event.sleep 60000000000] ∧
    (MasqDaemon.Run (Iptables.counting false) (Iptables.counting false)
        ⟨"IP-MASQ-AGENT", false, true, 60⟩ [World.notExist, World.ofTable []]
        ⟨DefaultMasqConfig false, 0, 0⟩).2.ip6tables = 3 :=
  ⟨(failure_ends_the_cycle World.notExist (Iptables.counting false) (Iptables.counting false)
      ⟨"IP-MASQ-AGENT", false, true, 60⟩ ⟨DefaultMasqConfig false, 0, 0⟩).1
      (Error.readDir "open /etc/config/: no such file or directory") (by decide),
   by decide,
   by decide,
   ((failure_ends_the_cycle (World.ofTable []) (Iptables.counting true) (Iptables.counting false)
      ⟨"IP-MASQ-AGENT", false, true, 60⟩ ⟨DefaultMasqConfig false, 0, 0⟩).2.1
      (Error.iptables "exit status 1") (by decide) (by decide)).2,
   by decide,
   by decide⟩

/-- C27: `merge` is idempotent in the fragment: for every configuration `c` and
fragment `n`, whatever the map orders, merging `n` into `c` twice gives the
same range set (the same ranges with the same multiplicities, even) and the
same flags as merging it once. -/
theorem merge_is_idempotent (o1 o2 o3 : MapOrder) (c n : MasqConfig) :
    (∀ s, s ∈ ((c.merge o1 n).merge o2 n).NonMasqueradeCIDRs ↔
        s ∈ (c.merge o3 n).NonMasqueradeCIDRs) ∧
    ((c.merge o1 n).merge o2 n).NonMasqueradeCIDRs.Perm (c.merge o3 n).NonMasqueradeCIDRs ∧
    ((c.merge o1 n).merge o2 n).MasqLinkLocal = (c.merge o3 n).MasqLinkLocal ∧
    ((c.merge o1 n).merge o2 n).MasqLinkLocalIPv6 = (c.merge o3 n).MasqLinkLocalIPv6 := by
  refine ⟨fun s => ?_, merge_twice_perm o1 o2 o3 c n, ?_, ?_⟩
  · simp only [mem_merge_cidrs, or_assoc, or_self]
  · simp only [merge_MasqLinkLocal, Bool.or_assoc, Bool.or_self]
  · simp only [merge_MasqLinkLocalIPv6, Bool.or_assoc, Bool.or_self]

/-- C28: when `validate` fails on a configuration of at most 64 ranges, the error is
that of the first range in list order that fails a test, all ranges before it
having passed, and its message carries the range and the reason: the parse
error with the range quoted and as text; or the alignment error with the range
quoted, the address and the network; or, for a range that is aligned, IPv6
being disabled. The list `10.0.0.0/8`, `abcdefg` reports the parse error of
`abcdefg`. -/
theorem validate_reports_first_offender (printable : Char → Bool) (enableIPv6 : Bool)
    (c : MasqConfig) (hlen : c.NonMasqueradeCIDRs.length ≤ 64) (err : Error)
    (h : c.validate enableIPv6 = some err) :
    (∃ pre s post, c.NonMasqueradeCIDRs = pre ++ s :: post ∧
      (∀ t ∈ pre, validateCIDR t = none ∧ (enableIPv6 = true ∨ isIPv6CIDR t = false)) ∧
      ((ParseCIDR.parts s = none ∧ err = Error.cidrParse s ⟨"CIDR address", s⟩ ∧
          err.message printable
            = "CIDR " ++ Quote printable s ++ " could not be parsed, invalid CIDR address: "
              ++ s) ∨
       (∃ a n, ParseCIDR.parts s = some (a, n) ∧ a.value % 2 ^ (a.BitLen - n) ≠ 0 ∧
          err = Error.cidrAlign s a.As16
            ⟨IP.Mask a.As16 (CIDRMask n a.BitLen), CIDRMask n a.BitLen⟩ ∧
          err.message printable
            = "CIDR " ++ ("\"" ++ s ++ "\"") ++ " is not aligned to a CIDR block, ip: "
              ++ Quote printable (IP.String a.As16) ++ " network: "
              ++ Quote printable
                  (IPNet.String ⟨IP.Mask a.As16 (CIDRMask n a.BitLen), CIDRMask n a.BitLen⟩)) ∨
       (AlignedCIDR s ∧ enableIPv6 = false ∧ isIPv6CIDR s = true ∧
          err = Error.ipv6NotEnabled s ∧
          err.message printable
            = "ipv6 is not enabled, but ipv6 cidr " ++ s
              ++ " provided. Enable ipv6 using --enable-ipv6 agent flag"))) ∧
    MasqConfig.validate false ⟨["10.0.0.0/8", "abcdefg"], false, false⟩
      = some (Error.cidrParse "abcdefg" ⟨"CIDR address", "abcdefg"⟩) ∧
    (Error.cidrParse "abcdefg" ⟨"CIDR address", "abcdefg"⟩).message printable
      = "CIDR \"abcdefg\" could not be parsed, invalid CIDR address: abcdefg" ∧
    MasqConfig.validate false ⟨["10.0.0.1/8"], false, false⟩
      = some (Error.cidrAlign "10.0.0.1/8"
          [0, 0, 0, 0, 0, 0, 0, 0, 0, 0, 255, 255, 10, 0, 0, 1]
          ⟨[10, 0, 0, 0], [255, 0, 0, 0]⟩) ∧
    (Error.cidrAlign "10.0.0.1/8" [0, 0, 0, 0, 0, 0, 0, 0, 0, 0, 255, 255, 10, 0, 0, 1]
        ⟨[10, 0, 0, 0], [255, 0, 0, 0]⟩).message printable
      = "CIDR \"10.0.0.1/8\" is not aligned to a CIDR block, ip: \"10.0.0.1\" network: \"10.0.0.0/8\"" := by
  refine ⟨?_, validate_test_messages printable⟩
  have hn : ¬ c.NonMasqueradeCIDRs.length > 64 := by omega
  simp only [MasqConfig.validate, hn, if_false] at h
  obtain ⟨pre, s, post, hl, hpre, hs⟩ := validate_loop_some enableIPv6 _ err h
  refine ⟨pre, s, post, hl, hpre, ?_⟩
  rcases hs with hv | ⟨hv, he, h6, herr⟩
  · rcases validateCIDR_some s err hv with ⟨hp, herr⟩ | ⟨a, n, hp, hmis, herr⟩
    · left
      refine ⟨hp, herr, ?_⟩
      rw [herr, message_cidrParse]
    · right; left
      refine ⟨a, n, hp, hmis, herr, ?_⟩
      rw [herr, message_cidrAlign, Quote_of_parts printable s a n hp]
  · right; right
    refine ⟨(validateCIDR_none_iff_aligned s).mp hv, he, h6, herr, ?_⟩
    rw [herr, message_ipv6NotEnabled]

/-- The list `10.0.0.0/8`, `abcdefg` of the test `TestConfigValidate`: one range passes,
then the parse error of `abcdefg`. -/
theorem validate_reports_first_offender_witness :
    ∃ pre s post, ["10.0.0.0/8", "abcdefg"] = pre ++ s :: post ∧
      (∀ t ∈ pre, validateCIDR t = none ∧ (false = true ∨ isIPv6CIDR t = false)) ∧
      ((ParseCIDR.parts s = none ∧
          Error.cidrParse "abcdefg" ⟨"CIDR address", "abcdefg"⟩
            = Error.cidrParse s ⟨"CIDR address", s⟩ ∧
          (Error.cidrParse "abcdefg" ⟨"CIDR address", "abcdefg"⟩).message (fun _ => true)
            = "CIDR " ++ Quote (fun _ => true) s
              ++ " could not be parsed, invalid CIDR address: " ++ s) ∨
       (∃ a n, ParseCIDR.parts s = some (a, n) ∧ a.value % 2 ^ (a.BitLen - n) ≠ 0 ∧
          Error.cidrParse "abcdefg" ⟨"CIDR address", "abcdefg"⟩
            = Error.cidrAlign s a.As16
              ⟨IP.Mask a.As16 (CIDRMask n a.BitLen), CIDRMask n a.BitLen⟩ ∧
          (Error.cidrParse "abcdefg" ⟨"CIDR address", "abcdefg"⟩).message (fun _ => true)
            = "CIDR " ++ ("\"" ++ s ++ "\"") ++ " is not aligned to a CIDR block, ip: "
              ++ Quote (fun _ => true) (IP.String a.As16) ++ " network: "
              ++ Quote (fun _ => true)
                  (IPNet.String ⟨IP.Mask a.As16 (CIDRMask n a.BitLen), CIDRMask n a.BitLen⟩)) ∨
       (AlignedCIDR s ∧ false = false ∧ isIPv6CIDR s = true ∧
          Error.cidrParse "abcdefg" ⟨"CIDR address", "abcdefg"⟩ = Error.ipv6NotEnabled s ∧
          (Error.cidrParse "abcdefg" ⟨"CIDR address", "abcdefg"⟩).message (fun _ => true)
            = "ipv6 is not enabled, but ipv6 cidr " ++ s
              ++ " provided. Enable ipv6 using --enable-ipv6 agent flag")) :=
  (validate_reports_first_offender (fun _ => true) false
    ⟨["10.0.0.0/8", "abcdefg"], false, false⟩ (by decide)
    (Error.cidrParse "abcdefg" ⟨"CIDR address", "abcdefg"⟩) (by decide)).1

/-- C29: at the listings of the tests `single invalid yaml file, empty entry` and
`multiple json files, but one has empty CIDR`, `syncConfig` returns the error whose
message is `config is invalid, error: CIDR "" could not be parsed, invalid CIDR
address: `. The message does not name the fragment file: it is not the message
`config F is invalid: ...` of the tests, with `F` the name `ip-masq-config-0` or
`ip-masq-config-1` of the file that holds the empty range. -/
theorem error_message_omits_file_name :
    (MasqDaemon.syncConfig (World.ofTable [("ip-masq-config-0", ⟨[""], false, false⟩)])
        ⟨"IP-MASQ-AGENT", false, true, 60⟩ (⟨DefaultMasqConfig false, (), ()⟩ : MasqDaemon Unit)).1
      = some (Error.invalidConfig (Error.cidrParse "" ⟨"CIDR address", ""⟩)) ∧
    (MasqDaemon.syncConfig
        (World.ofTable
          [("ip-masq-config-0", ⟨["111.254.0.0/15", "8.0.0.0/8"], false, false⟩),
           ("ip-masq-config-1", ⟨["", "172.168.0.0/16"], true, true⟩)])
        ⟨"IP-MASQ-AGENT", false, true, 60⟩ (⟨DefaultMasqConfig false, (), ()⟩ : MasqDaemon Unit)).1
      = some (Error.invalidConfig (Error.cidrParse "" ⟨"CIDR address", ""⟩)) ∧
    (∀ printable,
      (Error.invalidConfig (Error.cidrParse "" ⟨"CIDR address", ""⟩)).message printable
        = "config is invalid, error: CIDR \"\" could not be parsed, invalid CIDR address: ") ∧
    (∀ printable,
      (Error.invalidConfig (Error.cidrParse "" ⟨"CIDR address", ""⟩)).message printable
        ≠ "config ip-masq-config-0 is invalid: CIDR \"\" could not be parsed, invalid CIDR address: ") ∧
    (∀ printable,
      (Error.invalidConfig (Error.cidrParse "" ⟨"CIDR address", ""⟩)).message printable
        ≠ "config ip-masq-config-1 is invalid: CIDR \"\" could not be parsed, invalid CIDR address: ") := by
  refine ⟨empty_range_test_loads.1, empty_range_test_loads.2.1,
    message_invalid_empty_range, ?_, ?_⟩
  · intro printable
    rw [message_invalid_empty_range]
    exact empty_range_test_loads.2.2.1
  · intro printable
    rw [message_invalid_empty_range]
    exact empty_range_test_loads.2.2.2

/-- C30: the limit of 64 is applied to the merged list, which has no duplicates,
and not to the entries written in the fragments. For every load in which the
matching entries decode to fragments `frs`: when the fragments hold more than
64 distinct ranges, `syncConfig` fails with the count error, which carries the
number of distinct ranges, and leaves the daemon; when they hold at most 64
distinct ranges, all aligned and of an enabled family, `syncConfig` returns no
error, however many entries the fragments list, and with at least one fragment
the active range list is then the distinct ranges of the fragments, each
once. -/
theorem limit_counts_distinct_ranges {σ : Type} (w : World) (flags : Flags) (m : MasqDaemon σ)
    (files : List String) (frs : List MasqConfig)
    (hdir : w.ReadDir configPath = .ok files)
    (hfr : List.Forall₂ (fun name cfg => w.decodeFile name = .ok cfg)
      (files.filter (fun name => HasPrefix name configFilePrefix)) frs) :
    (64 < (frs.flatMap MasqConfig.NonMasqueradeCIDRs).dedup.length →
      m.syncConfig w flags
        = (some (Error.invalidConfig
            (Error.tooManyCIDRs (frs.flatMap MasqConfig.NonMasqueradeCIDRs).dedup.length)),
           m)) ∧
    ((frs.flatMap MasqConfig.NonMasqueradeCIDRs).dedup.length ≤ 64 →
      (∀ s ∈ frs.flatMap MasqConfig.NonMasqueradeCIDRs,
        AlignedCIDR s ∧ (IPv4CIDR s ∨ (IPv6CIDR s ∧ flags.enableIPv6 = true))) →
      (m.syncConfig w flags).1 = none ∧
      (frs ≠ [] →
        (∀ s, s ∈ (m.syncConfig w flags).2.config.NonMasqueradeCIDRs ↔
          s ∈ frs.flatMap MasqConfig.NonMasqueradeCIDRs) ∧
        (m.syncConfig w flags).2.config.NonMasqueradeCIDRs.Nodup ∧
        (m.syncConfig w flags).2.config.NonMasqueradeCIDRs.length
          = (frs.flatMap MasqConfig.NonMasqueradeCIDRs).dedup.length)) := by
  refine ⟨fun hmany => syncConfig_too_many_distinct w flags m files frs hdir hfr hmany, ?_⟩
  intro hdistinct hvalid
  obtain ⟨c1, hmem, hnd, _, _, hres⟩ := syncConfig_of_fragments w flags m files frs hdir hfr
  have hlen : c1.NonMasqueradeCIDRs.length
      = (frs.flatMap MasqConfig.NonMasqueradeCIDRs).dedup.length := by
    apply List.Perm.length_eq
    rw [List.perm_ext_iff_of_nodup hnd (List.nodup_dedup _)]
    intro s
    rw [hmem s, List.mem_dedup]
  have hv1 : c1.validate flags.enableIPv6 = none :=
    validate_of_valid_ranges _ c1 (by rw [hlen]; exact hdistinct)
      (fun s hs => hvalid s ((hmem s).mp hs))
  cases frs with
  | nil =>
    rw [hres]
    simp only [List.isEmpty_nil, if_true, DefaultMasqConfig_validate]
    exact ⟨trivial, fun h => absurd rfl h⟩
  | cons f rest =>
    rw [hres]
    simp only [List.isEmpty_cons, Bool.false_eq_true, if_false, hv1]
    exact ⟨trivial, fun _ => ⟨hmem, hnd, hlen⟩⟩

/-- One fragment that lists the range `10.0.0.0/8` sixty-five times loads, and
the active list has the range once; one fragment that lists the sixty-five
ranges `0.0.0.0/8` to `64.0.0.0/8`, all aligned IPv4 ranges, is refused with
the count 65, and the daemon is left as it was. -/
theorem limit_counts_distinct_ranges_witness :
    ([(⟨List.replicate 65 "10.0.0.0/8", false, false⟩ : MasqConfig)].flatMap
        MasqConfig.NonMasqueradeCIDRs).length = 65 ∧
    (MasqDaemon.syncConfig
        (World.ofTable [("ip-masq-config-0", ⟨List.replicate 65 "10.0.0.0/8", false, false⟩)])
        Flags.default (⟨⟨["1.0.0.0/8"], true, true⟩, (), ()⟩ : MasqDaemon Unit)).1 = none ∧
    (MasqDaemon.syncConfig
        (World.ofTable [("ip-masq-config-0", ⟨List.replicate 65 "10.0.0.0/8", false, false⟩)])
        Flags.default (⟨⟨["1.0.0.0/8"], true, true⟩, (), ()⟩ : MasqDaemon Unit)).2.config
      = ⟨["10.0.0.0/8"], false, false⟩ ∧
    (∀ s ∈ (List.range 65).map (fun i => uitoa i ++ ".0.0.0/8"),
      validateCIDR s = none ∧ isIPv6CIDR s = false) ∧
    MasqDaemon.syncConfig
        (World.ofTable
          [("ip-masq-config-0",
            ⟨(List.range 65).map (fun i => uitoa i ++ ".0.0.0/8"), false, false⟩)])
        Flags.default (⟨⟨["1.0.0.0/8"], true, true⟩, (), ()⟩ : MasqDaemon Unit)
      = (some (Error.invalidConfig (Error.tooManyCIDRs 65)),
          ⟨⟨["1.0.0.0/8"], true, true⟩, (), ()⟩) :=
  ⟨repeated_range_fragment.2.1,
   ((limit_counts_distinct_ranges
      (World.ofTable [("ip-masq-config-0", ⟨List.replicate 65 "10.0.0.0/8", false, false⟩)])
      Flags.default ⟨⟨["1.0.0.0/8"], true, true⟩, (), ()⟩ ["ip-masq-config-0"]
      [⟨List.replicate 65 "10.0.0.0/8", false, false⟩] rfl repeated_range_fragment.1).2
      repeated_range_fragment.2.2.1
      (fun s hs => by
        have e : s = "10.0.0.0/8" := by
          simp only [List.flatMap_cons, List.flatMap_nil, List.append_nil] at hs
          exact List.eq_of_mem_replicate hs
        subst e
        exact ⟨aligned_v4_ten.1, Or.inl aligned_v4_ten.2⟩)).1,
   repeated_range_fragment.2.2.2,
   distinct_ranges_fragment.2.2,
   by
    have h := (limit_counts_distinct_ranges
      (World.ofTable
        [("ip-masq-config-0",
          ⟨(List.range 65).map (fun i => uitoa i ++ ".0.0.0/8"), false, false⟩)])
      Flags.default ⟨⟨["1.0.0.0/8"], true, true⟩, (), ()⟩ ["ip-masq-config-0"]
      [⟨(List.range 65).map (fun i => uitoa i ++ ".0.0.0/8"), false, false⟩] rfl
      distinct_ranges_fragment.1).1
      (by rw [distinct_ranges_fragment.2.1]; decide)
    rw [distinct_ranges_fragment.2.1] at h
    exact h⟩

/-- C31: for every configuration `validate` accepts with IPv6 disabled, the family test
of `syncMasqRules` filters no range out: the IPv4 script handed to the applier
has, after the link-local line (present unless `MasqLinkLocal`), the RETURN line
of every configured range, in configuration order, so that its RETURN lines
number the ranges plus one if `MasqLinkLocal` is false. -/
theorem validated_ranges_all_rendered {σ : Type} (ipt : Iptables σ) (flags : Flags)
    (m : MasqDaemon (σ × List String)) (hv : m.config.validate false = none) :
    m.config.NonMasqueradeCIDRs.filter (fun cidr => !isIPv6CIDR cidr)
      = m.config.NonMasqueradeCIDRs ∧
    (m.syncMasqRules ipt.recording flags).2.iptables.2 =
      m.iptables.2 ++
        (if (ensurePostroutingJump ipt flags
              (ipt.EnsureChain m.iptables.1 TableNAT flags.masqChain).2).1.isNone
          then [specScript flags.masqChain m.config.MasqLinkLocal linkLocalCIDR
                  m.config.NonMasqueradeCIDRs]
          else []) ∧
    specScript flags.masqChain m.config.MasqLinkLocal linkLocalCIDR m.config.NonMasqueradeCIDRs
      = String.join
          ((specLines flags.masqChain m.config.MasqLinkLocal linkLocalCIDR
            m.config.NonMasqueradeCIDRs).map (fun l => l ++ "\n")) ∧
    specLines flags.masqChain m.config.MasqLinkLocal linkLocalCIDR m.config.NonMasqueradeCIDRs
      = ["*nat", ":" ++ flags.masqChain ++ " - [0:0]"]
        ++ (if m.config.MasqLinkLocal then []
            else [specReturnLine flags.masqChain linkLocalCIDR])
        ++ m.config.NonMasqueradeCIDRs.map (specReturnLine flags.masqChain)
        ++ [specMasqueradeLine flags.masqChain, "COMMIT"] ∧
    (∀ s ∈ m.config.NonMasqueradeCIDRs,
      specReturnLine flags.masqChain s ∈
        specLines flags.masqChain m.config.MasqLinkLocal linkLocalCIDR
          m.config.NonMasqueradeCIDRs) ∧
    (specLines flags.masqChain m.config.MasqLinkLocal linkLocalCIDR
        m.config.NonMasqueradeCIDRs).filter isReturnLine
      = (if m.config.MasqLinkLocal then []
          else [specReturnLine flags.masqChain linkLocalCIDR])
        ++ m.config.NonMasqueradeCIDRs.map (specReturnLine flags.masqChain) ∧
    (specLines flags.masqChain m.config.MasqLinkLocal linkLocalCIDR
        m.config.NonMasqueradeCIDRs).countP isReturnLine
      = m.config.NonMasqueradeCIDRs.length + (if m.config.MasqLinkLocal then 0 else 1) ∧
    (newline ∉ flags.masqChain.toList →
      textLines (specScript flags.masqChain m.config.MasqLinkLocal linkLocalCIDR
          m.config.NonMasqueradeCIDRs)
        = specLines flags.masqChain m.config.MasqLinkLocal linkLocalCIDR
            m.config.NonMasqueradeCIDRs ++ [""]) := by
  have hfam := (rangesOfFamily_of_validate m.config hv).1
  have hfilter := specLines_filter_isReturnLine flags.masqChain m.config.MasqLinkLocal
    linkLocalCIDR m.config.NonMasqueradeCIDRs
  refine ⟨?_, ?_, rfl, rfl, ?_, hfilter, ?_, ?_⟩
  · rw [filter_not_isIPv6CIDR]; exact hfam
  · have hrec := syncMasqRules_recorded ipt flags m
    rw [specScriptV4, hfam] at hrec
    exact hrec
  · intro s hs
    exact (specReturnLine_mem_specLines _ _ _ _ s).mpr (Or.inr hs)
  · rw [List.countP_eq_length_filter, hfilter]
    cases m.config.MasqLinkLocal <;> simp
  · intro hc
    have ht := textLines_specScriptV4 flags.masqChain m.config hc
    rw [specScriptV4, hfam] at ht
    exact ht

/-- The default configuration: three ranges and the link-local line, four RETURN
lines in the IPv4 script. -/
theorem validated_ranges_all_rendered_witness :
    (specLines "IP-MASQ-AGENT" false linkLocalCIDR
        ["10.0.0.0/8", "172.16.0.0/12", "192.168.0.0/16"]).filter isReturnLine
      = [specReturnLine "IP-MASQ-AGENT" "169.254.0.0/16",
         specReturnLine "IP-MASQ-AGENT" "10.0.0.0/8",
         specReturnLine "IP-MASQ-AGENT" "172.16.0.0/12",
         specReturnLine "IP-MASQ-AGENT" "192.168.0.0/16"] ∧
    (specLines "IP-MASQ-AGENT" false linkLocalCIDR
        ["10.0.0.0/8", "172.16.0.0/12", "192.168.0.0/16"]).countP isReturnLine = 3 + 1 :=
  ⟨(validated_ranges_all_rendered Iptables.alwaysOK Flags.default
      ⟨DefaultMasqConfig false, ((), []), ((), [])⟩ (by decide)).2.2.2.2.2.1,
   (validated_ranges_all_rendered Iptables.alwaysOK Flags.default
      ⟨DefaultMasqConfig false, ((), []), ((), [])⟩ (by decide)).2.2.2.2.2.2.1⟩

/-- C32: the range `::ffff:10.0.0.0/104`, written in IPv6 notation, decodes to an
IPv4-mapped address, which has an IPv4 form, so `isIPv6CIDR` classifies it IPv4.
The configuration that holds it alone is accepted by `validate` with IPv6
disabled, as is every configuration of at most 64 ranges that holds it among
aligned IPv4 ranges. For every configuration that holds it the IPv4 script has
the line that ends `-d ::ffff:10.0.0.0/104 -j RETURN` and the IPv6 script has
not. -/
theorem mapped_range_counts_as_ipv4 (flags : Flags) (m : MasqDaemon (Unit × List String))
    (h : "::ffff:10.0.0.0/104" ∈ m.config.NonMasqueradeCIDRs) :
    ParseCIDR.parts "::ffff:10.0.0.0/104"
      = some (Addr.v6 [0, 0, 0, 0, 0, 0, 0, 0, 0, 0, 255, 255, 10, 0, 0, 0] [], 104) ∧
    IP.To4 (Addr.v6 [0, 0, 0, 0, 0, 0, 0, 0, 0, 0, 255, 255, 10, 0, 0, 0] []).As16
      = [10, 0, 0, 0] ∧
    isIPv6CIDR "::ffff:10.0.0.0/104" = false ∧
    validateCIDR "::ffff:10.0.0.0/104" = none ∧
    MasqConfig.validate false ⟨["::ffff:10.0.0.0/104"], false, false⟩ = none ∧
    (m.config.NonMasqueradeCIDRs.length ≤ 64 →
      (∀ s ∈ m.config.NonMasqueradeCIDRs, s ≠ "::ffff:10.0.0.0/104" →
        AlignedCIDR s ∧ IPv4CIDR s) →
      m.config.validate false = none) ∧
    m.syncMasqRules Iptables.alwaysOK.recording flags =
      (none, { m with iptables := ((), m.iptables.2 ++
        [specScript flags.masqChain m.config.MasqLinkLocal linkLocalCIDR
          (rangesOfFamily false m.config.NonMasqueradeCIDRs)]) }) ∧
    (flags.enableIPv6 = true →
      m.syncMasqRulesIPv6 Iptables.alwaysOK.recording flags =
        (none, { m with ip6tables := ((), m.ip6tables.2 ++
          [specScript flags.masqChain m.config.MasqLinkLocalIPv6 linkLocalCIDRIPv6
            (rangesOfFamily true m.config.NonMasqueradeCIDRs)]) })) ∧
    specReturnLine flags.masqChain "::ffff:10.0.0.0/104" ∈
      specLines flags.masqChain m.config.MasqLinkLocal linkLocalCIDR
        (rangesOfFamily false m.config.NonMasqueradeCIDRs) ∧
    specReturnLine flags.masqChain "::ffff:10.0.0.0/104" ∉
      specLines flags.masqChain m.config.MasqLinkLocalIPv6 linkLocalCIDRIPv6
        (rangesOfFamily true m.config.NonMasqueradeCIDRs) ∧
    specReturnLine flags.masqChain "::ffff:10.0.0.0/104"
      = "-A " ++ flags.masqChain ++ " " ++ nonMasqRuleComment
        ++ " -d ::ffff:10.0.0.0/104 -j RETURN" ∧
    (MasqDaemon.syncMasqRules Iptables.alwaysOK.recording Flags.default
        ⟨⟨["::ffff:10.0.0.0/104"], false, false⟩, ((), []), ((), [])⟩).2.iptables.2
      = ["*nat\n:IP-MASQ-AGENT - [0:0]\n-A IP-MASQ-AGENT -m comment --comment \"ip-masq-agent: local traffic is not subject to MASQUERADE\" -d 169.254.0.0/16 -j RETURN\n-A IP-MASQ-AGENT -m comment --comment \"ip-masq-agent: local traffic is not subject to MASQUERADE\" -d ::ffff:10.0.0.0/104 -j RETURN\n-A IP-MASQ-AGENT -m comment --comment \"ip-masq-agent: outbound traffic is subject to MASQUERADE (must be last in chain)\" -j MASQUERADE\nCOMMIT\n"] ∧
    (MasqDaemon.syncMasqRulesIPv6 Iptables.alwaysOK.recording
        ⟨"IP-MASQ-AGENT", false, true, 60⟩
        ⟨⟨["::ffff:10.0.0.0/104"], false, false⟩, ((), []), ((), [])⟩).2.ip6tables.2
      = ["*nat\n:IP-MASQ-AGENT - [0:0]\n-A IP-MASQ-AGENT -m comment --comment \"ip-masq-agent: local traffic is not subject to MASQUERADE\" -d fe80::/10 -j RETURN\n-A IP-MASQ-AGENT -m comment --comment \"ip-masq-agent: outbound traffic is subject to MASQUERADE (must be last in chain)\" -j MASQUERADE\nCOMMIT\n"] := by
  obtain ⟨hp, h4, _, h6, hvc, hv1, hs4, hs6⟩ := mapped_range_facts
  obtain ⟨hin, hout⟩ := (line_in_own_script_only flags.masqChain m.config _ h).1 h6
  refine ⟨hp, h4, h6, hvc, hv1, ?_, syncMasqRules_alwaysOK flags m,
    fun he => syncMasqRulesIPv6_alwaysOK flags m he, hin, hout, ?_, hs4, hs6⟩
  · intro hlen hothers
    apply validate_of_valid_ranges false m.config hlen
    intro s hs
    by_cases hsm : s = "::ffff:10.0.0.0/104"
    · rw [hsm]
      exact ⟨mapped_range_aligned_v4.1, Or.inl mapped_range_aligned_v4.2⟩
    · exact ⟨(hothers s hs hsm).1, Or.inl (hothers s hs hsm).2⟩
  · apply String.ext
    simp [specReturnLine, String.append_assoc]

/-- The mapped range next to `10.244.0.0/16` and `fc00::/7`: its line is in the IPv4
script and not in the IPv6 script. -/
theorem mapped_range_counts_as_ipv4_witness :
    specReturnLine "IP-MASQ-AGENT" "::ffff:10.0.0.0/104" ∈
      specLines "IP-MASQ-AGENT" false linkLocalCIDR
        (rangesOfFamily false ["10.244.0.0/16", "::ffff:10.0.0.0/104", "fc00::/7"]) ∧
    specReturnLine "IP-MASQ-AGENT" "::ffff:10.0.0.0/104" ∉
      specLines "IP-MASQ-AGENT" false linkLocalCIDRIPv6
        (rangesOfFamily true ["10.244.0.0/16", "::ffff:10.0.0.0/104", "fc00::/7"]) ∧
    rangesOfFamily false ["10.244.0.0/16", "::ffff:10.0.0.0/104", "fc00::/7"]
      = ["10.244.0.0/16", "::ffff:10.0.0.0/104"] ∧
    rangesOfFamily true ["10.244.0.0/16", "::ffff:10.0.0.0/104", "fc00::/7"] = ["fc00::/7"] :=
  ⟨(mapped_range_counts_as_ipv4 ⟨"IP-MASQ-AGENT", false, true, 60⟩
      ⟨⟨["10.244.0.0/16", "::ffff:10.0.0.0/104", "fc00::/7"], false, false⟩, ((), []), ((), [])⟩
      (by decide)).2.2.2.2.2.2.2.2.1,
   (mapped_range_counts_as_ipv4 ⟨"IP-MASQ-AGENT", false, true, 60⟩
      ⟨⟨["10.244.0.0/16", "::ffff:10.0.0.0/104", "fc00::/7"], false, false⟩, ((), []), ((), [])⟩
      (by decide)).2.2.2.2.2.2.2.2.2.1,
   by decide, by decide⟩

end IPMasq
